import Mathlib

/-!
DOS shell built-in commands (src/shell/shell_cmds.cpp)

A shallow embedding of the parts of the command handlers that decide the
destination name of `RENAME`, the listing order of `DIR`, the `IF` conditions
and the confirmation prompts of `DEL`.

C strings are embedded as `List Char`: the characters in front of the
terminating NUL.  Local buffers are taken to be large enough for what is
copied into them.
-/

namespace DosShell

/-! ## C library string primitives -/

/-- Index of the first occurrence of `c` in `s` (`strchr`), `none` for NULL. -/
def strchr : List Char → Char → Option Nat
  | [], _ => none
  | x :: xs, c => if x = c then some 0 else (strchr xs c).map (· + 1)

/-- Index of the last occurrence of `c` in `s` (`strrchr`), `none` for NULL. -/
def strrchr : List Char → Char → Option Nat
  | [], _ => none
  | x :: xs, c =>
    match strrchr xs c with
    | some k => some (k + 1)
    | none => if x = c then some 0 else none

/-- The function `removeChar` of shell_cmds.cpp: copy `str` over itself, keeping a
character only when it differs from `c`. -/
def removeChar : List Char → Char → List Char
  | [], _ => []
  | x :: xs, c => if x ≠ c then x :: removeChar xs c else removeChar xs c

/-! ## RENAME: the destination name (CMD_RENAME, the body of the find loop) -/

/-- The two name-length limits of dos_inc.h that bound the `?` loops; the header
is not among the sources, so they are carried as parameters. -/
structure NameLimits where
  DOS_NAMELENGTH : Nat
  LFN_NAMELENGTH : Nat

/-- The loop bound `uselfn ? LFN_NAMELENGTH : DOS_NAMELENGTH`. -/
def NameLimits.limit (lim : NameLimits) (uselfn : Bool) : Nat :=
  if uselfn then lim.LFN_NAMELENGTH else lim.DOS_NAMELENGTH

/-- The loop `for (i = 0; i < limit && i < bound; i++) if (seg[i] == '?' && i <
strlen(src)) seg[i] = src[i];`, started at index `i` on the rest of `seg`. -/
def questionLoop (limit bound : Nat) (src : List Char) : Nat → List Char → List Char
  | _, [] => []
  | i, c :: cs =>
    (if i < limit ∧ i < bound ∧ c = '?' ∧ i < src.length then src.getD i c else c)
      :: questionLoop limit bound src (i + 1) cs

/-- The wildcard block that CMD_RENAME runs on a template segment `seg` against a
source segment `src`:
`star = strchr(seg,'*'); if (strchr(seg,'?')) <question loop up to star or the end>;
if (star) { if (star-seg < strlen(src)) strcpy(star, src+(star-seg)); else *star = 0; }`. -/
def substSegment (limit : Nat) (seg src : List Char) : List Char :=
  let star := strchr seg '*'
  let seg1 :=
    if (strchr seg '?').isSome then
      questionLoop limit (match star with | some k => k | none => seg.length) src 0 seg
    else seg
  match star with
  | some k => if k < src.length then seg1.take k ++ src.drop k else seg1.take k
  | none => seg1

/-- The loop of the branch for a source name without extension:
`if (text2[i] == '*') { text2[i] = 0; break; }` for `i` below `limit` and `bound`. -/
def cutAtStar (limit bound : Nat) : Nat → List Char → List Char
  | _, [] => []
  | i, c :: cs =>
    if i < limit ∧ i < bound then
      (if c = '*' then [] else c :: cutAtStar limit bound (i + 1) cs)
    else c :: cs

/-- Lines 511-517 of CMD_RENAME: the template of one entry is the second argument
without its double quotes; in long-name mode a template with `*` and without `.`
gets `.*` appended. -/
def prepareTarget (uselfn : Bool) (target : List Char) : List Char :=
  let arg2 := removeChar target '"'
  if uselfn ∧ (strchr arg2 '*').isSome ∧ (strchr arg2 '.').isNone then arg2 ++ ['.', '*']
  else arg2

/-- Lines 558-585 of CMD_RENAME: the extension of the destination, from the template
extension `text2`, the source name `src` and the position `dot1` of its last dot;
`star` is what `strchr(tname2,'*')` returned before.

Without a dot in the source name the loop bound reads `star - text2` with `star`
still pointing into `tname2`; that difference of pointers into two arrays is fixed
by the stack layout and is the parameter `crossBound`. -/
def renameExt (limit crossBound : Nat) (star dot1 : Option Nat) (text2 src : List Char) :
    List Char :=
  let text2 :=
    match dot1 with
    | some d1 => substSegment limit text2 (src.drop (d1 + 1))
    | none =>
      if (strchr text2 '?').isSome ∨ (strchr text2 '*').isSome then
        cutAtStar limit (match star with | some _ => crossBound | none => text2.length) 0 text2
      else text2
  removeChar text2 '?'

/-- Lines 518-590 of CMD_RENAME on the prepared template `arg2`: the final `arg2`. -/
def renameFromTemplate (lim : NameLimits) (crossBound : Nat) (uselfn : Bool)
    (arg2 name lname : List Char) : List Char :=
  let src := if uselfn then lname else name
  let dot1 := strrchr src '.'
  match strrchr arg2 '.' with
  | none => removeChar (substSegment (lim.limit uselfn) arg2 name) '?'
  | some d2 =>
    let tname1 := match dot1 with | some d1 => src.take d1 | none => src
    let tname2 := arg2.take d2
    let star := strchr tname2 '*'
    let tname2 := removeChar (substSegment (lim.limit uselfn) tname2 tname1) '?'
    let text2 := renameExt (lim.limit uselfn) crossBound star dot1 (arg2.drop (d2 + 1)) src
    tname2 ++ ['.'] ++ text2

/-- The destination name that CMD_RENAME computes for one matched entry (lines
511-590): `target` is the second argument, `name` and `lname` the entry's short and
long name.  The result is the string appended to `dir_source` in line 593. -/
def renameDest (lim : NameLimits) (crossBound : Nat) (uselfn : Bool)
    (target name lname : List Char) : List Char :=
  renameFromTemplate lim crossBound uselfn (prepareTarget uselfn target) name lname

/-- The limits of dos_inc.h as DOSBox declares them (12 and 255); used for
evaluating examples only. -/
def dosLimits : NameLimits := ⟨12, 255⟩

/-! ## DIR: the entries and their order (DtaResult, doDir) -/

/-- Comparison of two C strings (`strcmp`): negative, zero or positive as the first
differs from the second at the first differing byte, the end of a string counting
as the smallest byte. -/
def strcmp : List Char → List Char → Int
  | [], [] => 0
  | [], _ :: _ => -1
  | _ :: _, [] => 1
  | a :: as, b :: bs =>
    if a.toNat < b.toNat then -1 else if b.toNat < a.toNat then 1 else strcmp as bs

/-- Modelled from the spec: the attribute bits of a directory entry ("directory /
read-only / hidden / system / archive / device / volume-label"), declared in
dos_inc.h, with their DOS values. -/
def DOS_ATTR_READ_ONLY : Nat := 0x01
/-- Modelled from the spec: the hidden bit of the attribute mask (dos_inc.h). -/
def DOS_ATTR_HIDDEN : Nat := 0x02
/-- Modelled from the spec: the system bit of the attribute mask (dos_inc.h). -/
def DOS_ATTR_SYSTEM : Nat := 0x04
/-- Modelled from the spec: the volume-label bit of the attribute mask (dos_inc.h). -/
def DOS_ATTR_VOLUME : Nat := 0x08
/-- Modelled from the spec: the directory bit of the attribute mask (dos_inc.h). -/
def DOS_ATTR_DIRECTORY : Nat := 0x10
/-- Modelled from the spec: the archive bit of the attribute mask (dos_inc.h). -/
def DOS_ATTR_ARCHIVE : Nat := 0x20

/-- One result of the enumerator, `struct DtaResult`. -/
structure DtaResult where
  name : List Char
  lname : List Char
  size : Nat
  date : Nat
  time : Nat
  attr : Nat
  deriving DecidableEq

/-- The test `attr & DOS_ATTR_DIRECTORY`. -/
def DtaResult.isDir (e : DtaResult) : Bool := e.attr &&& DOS_ATTR_DIRECTORY != 0

/-- The method `DtaResult::getExtension`: the name from its last dot on, or the
empty string when the name starts with a dot or has none. -/
def DtaResult.getExtension (e : DtaResult) : List Char :=
  if e.name.head? ≠ some '.' then
    match strrchr e.name '.' with
    | some k => e.name.drop k
    | none => []
  else []

/-- The comparator `DtaResult::groupDef`: directories first, names ascending inside
each group. -/
def DtaResult.groupDef (lhs rhs : DtaResult) : Bool :=
  if lhs.isDir && !rhs.isDir then true
  else ((lhs.isDir && rhs.isDir) || (!lhs.isDir && !rhs.isDir))
    && decide (strcmp lhs.name rhs.name < 0)

/-- The comparator `DtaResult::groupDirs`. -/
def DtaResult.groupDirs (lhs rhs : DtaResult) : Bool := lhs.isDir && !rhs.isDir

/-- The comparator `DtaResult::compareName`. -/
def DtaResult.compareName (lhs rhs : DtaResult) : Bool := decide (strcmp lhs.name rhs.name < 0)

/-- The comparator `DtaResult::compareExt`. -/
def DtaResult.compareExt (lhs rhs : DtaResult) : Bool :=
  decide (strcmp lhs.getExtension rhs.getExtension < 0)

/-- The comparator `DtaResult::compareSize`. -/
def DtaResult.compareSize (lhs rhs : DtaResult) : Bool := decide (lhs.size < rhs.size)

/-- The comparator `DtaResult::compareDate`. -/
def DtaResult.compareDate (lhs rhs : DtaResult) : Bool :=
  decide (lhs.date < rhs.date) || (decide (lhs.date = rhs.date) && decide (lhs.time < rhs.time))

/-- The requirement of the C++ standard on the comparator handed to `std::sort`: a
strict weak ordering. -/
structure StrictWeakOrder {α : Type} (comp : α → α → Bool) : Prop where
  irrefl : ∀ a, comp a a = false
  trans : ∀ a b c, comp a b = true → comp b c = true → comp a c = true
  incomp_trans : ∀ a b c, comp a b = false → comp b a = false →
    comp b c = false → comp c b = false → comp a c = false ∧ comp c a = false

/-- The type of `std::sort` on a vector of entries: comparator and input to output. -/
abbrev SortFn := (DtaResult → DtaResult → Bool) → List DtaResult → List DtaResult

/-- What the C++ standard promises of `std::sort(first, last, comp)`, the library
routine doDir calls: for a strict weak ordering `comp` the result is a permutation
of the input in which no later element compares less than an earlier one.  The
order of equivalent elements is not fixed. -/
def IsStdSort (sort : SortFn) : Prop :=
  ∀ comp, StrictWeakOrder comp → ∀ l,
    (sort comp l).Perm l ∧ (sort comp l).Pairwise (fun a b => comp b a = false)

/-- One routine that keeps the promise of `std::sort`: insertion sort. -/
def insertionStdSort : SortFn :=
  fun comp l => List.insertionSort (fun a b => comp b a = false) l

/-- The sorting switches doDir receives. -/
structure SortOpts where
  optO : Bool
  optOG : Bool
  optON : Bool
  optOD : Bool
  optOE : Bool
  optOS : Bool
  reverseSort : Bool

/-- Lines 909-930 of doDir: the collected `results` are sorted by the first active
key of the chain, left in enumeration order when there is none, and then reversed
when `reverseSort` is set. -/
def doDirOrder (sort : SortFn) (o : SortOpts) (results : List DtaResult) : List DtaResult :=
  let sorted :=
    if o.optON then sort DtaResult.compareName results
    else if o.optOE then sort DtaResult.compareExt results
    else if o.optOD then sort DtaResult.compareDate results
    else if o.optOS then sort DtaResult.compareSize results
    else if o.optOG then sort DtaResult.groupDirs results
    else if o.optO then sort DtaResult.groupDef results
    else results
  if o.reverseSort then sorted.reverse else sorted

/-- The same sorting switches with the reverse flag set to `r`. -/
def SortOpts.withReverse (o : SortOpts) (r : Bool) : SortOpts :=
  ⟨o.optO, o.optOG, o.optON, o.optOD, o.optOE, o.optOS, r⟩

/-- The entry list of the example: directory `B`, file `a.txt`, directory `A`. -/
def exampleEntries : List DtaResult :=
  [⟨"B".toList, "B".toList, 0, 0, 0, 0x10⟩, ⟨"a.txt".toList, "a.txt".toList, 10, 0, 0, 0x20⟩,
   ⟨"A".toList, "A".toList, 0, 0, 0, 0x10⟩]

/-- The example sorted by group and name: directory `A`, directory `B`, file `a.txt`. -/
def exampleSorted : List DtaResult :=
  [⟨"A".toList, "A".toList, 0, 0, 0, 0x10⟩, ⟨"B".toList, "B".toList, 0, 0, 0, 0x10⟩,
   ⟨"a.txt".toList, "a.txt".toList, 10, 0, 0, 0x20⟩]

/-- The switches of `DIR /O`: the group+name key alone, with the given reverse flag. -/
def optsGroupName (reverseSort : Bool) : SortOpts :=
  ⟨true, false, false, false, false, false, reverseSort⟩

/-! ## IF: the conditions (CMD_IF) -/

/-- The C library test `isspace` in the C locale: blank, tab, line feed, vertical
tab, form feed, carriage return. -/
def isspace (c : Char) : Bool := c.toNat = 32 || (9 ≤ c.toNat && c.toNat ≤ 13)

/-- The C library test `isdigit`. -/
def isdigit (c : Char) : Bool := 48 ≤ c.toNat && c.toNat ≤ 57

/-- The C library function `tolower` in the C locale. -/
def tolower (c : Char) : Char :=
  if 65 ≤ c.toNat ∧ c.toNat ≤ 90 then Char.ofNat (c.toNat + 32) else c

/-- The test `strncasecmp(s, kw, strlen(kw)) == 0`: the first `strlen(kw)` characters
of `s` are there and equal those of `kw` up to case. -/
def startsWithNoCase (s kw : List Char) : Bool :=
  (s.take kw.length).map tolower == kw.map tolower

/-- The helper `StripSpaces(args)`: skip leading white space. -/
def StripSpaces (args : List Char) : List Char := args.dropWhile isspace

/-- The helper `StripSpaces(args, also)`: skip leading white space and `also`. -/
def StripSpacesAlso (args : List Char) (also : Char) : List Char :=
  args.dropWhile (fun c => isspace c || c == also)

/-- What the shell and DOS hand to CMD_IF.  `StripWord` and `StripArg` (support.cpp,
shell_misc.cpp) are not among the sources; each returns the word it cuts off and
the remaining line.  `DOS_Canonicalize` and `DOS_GetSFNPath` return the path they
write, or `none` for failure; `DOS_FindFirst` is the enumerator's find-first with
a search string and an attribute mask. -/
structure ShellEnv where
  uselfn : Bool
  return_code : Nat
  StripWord : List Char → List Char × List Char
  StripArg : List Char → List Char × List Char
  DOS_Canonicalize : List Char → Option (List Char)
  DOS_GetSFNPath : List Char → Bool → Option (List Char)
  DOS_FindFirst : List Char → Nat → Bool

/-- How a command handler ends: it hands a line to `DoCommand`, writes a message
(named by its key), reports a syntax error, or returns without doing anything. -/
inductive Outcome where
  | DoCommand (line : List Char)
  | WriteOut (msg : String)
  | SyntaxError
  | nothing
  deriving DecidableEq

/-- The loop over leading `NOT`s (lines 1843-1849); `fuel` bounds the number of
rounds, and each round consumes three characters at least, so the length of the
line is enough. -/
def skipNots : Nat → List Char → Bool → Bool × List Char
  | 0, args, has_not => (has_not, args)
  | fuel + 1, args, has_not =>
    if startsWithNoCase args "NOT".toList then
      if !((args.drop 3).head?.any isspace) && (args.drop 3).head? != some '=' then
        (has_not, args)
      else skipNots fuel (StripSpacesAlso (args.drop 3) '=') (!has_not)
    else (has_not, args)

/-- The loop `do n = n * 10 + (*word - '0'); while (isdigit(*++word));` on the
8-bit counter `n`, entered with the character `c` under `word`: the final `n` and
what is left of the word. -/
def errorlevelDigits : Nat → Char → List Char → Nat × List Char
  | n, c, [] => ((n * 10 + (c.toNat - 48)) % 256, [])
  | n, c, d :: ds =>
    if isdigit d then errorlevelDigits ((n * 10 + (c.toNat - 48)) % 256) d ds
    else ((n * 10 + (c.toNat - 48)) % 256, d :: ds)

/-- The branch `ERRORLEVEL` of CMD_IF (lines 1852-1870), `args` being what follows
the keyword. -/
def ifErrorlevel (env : ShellEnv) (has_not : Bool) (args : List Char) : Outcome :=
  let (word, args) := env.StripWord (StripSpacesAlso args '=')
  match word with
  | [] => Outcome.WriteOut "SHELL_CMD_IF_ERRORLEVEL_MISSING_NUMBER"
  | c :: cs =>
    if !isdigit c then Outcome.WriteOut "SHELL_CMD_IF_ERRORLEVEL_MISSING_NUMBER"
    else
      let (n, word) := errorlevelDigits 0 c cs
      if word.head?.any (fun d => !isspace d) then
        Outcome.WriteOut "SHELL_CMD_IF_ERRORLEVEL_INVALID_NUMBER"
      else if decide (env.return_code ≥ n) == !has_not then Outcome.DoCommand args
      else Outcome.nothing

/-- The attribute mask `0xffff & ~bits`. -/
def maskWithout (bits : Nat) : Nat := 0xffff ^^^ (bits &&& 0xffff)

/-- Lines 1885-1911 of CMD_IF: the search string handed to `DOS_FindFirst` for the
canonical path `full` of `word`. -/
def existSearch (env : ShellEnv) (word full : List Char) : List Char :=
  let (path, pattern) :=
    match strrchr full '\\' with
    | some r => (full.take r ++ ['\\'], full.drop (r + 1))
    | none => ([], full)
  let pattern := removeChar pattern '"'
  let spath :=
    if (strchr word '"').isSome || env.uselfn then
      let spath :=
        match env.DOS_GetSFNPath (['"'] ++ path ++ ['\\']) false with
        | some sp => sp
        | none => path
      if spath.length = 0 || spath.getLast? != some '\\' then spath ++ ['\\'] else spath
    else path
  let sfull := spath ++ pattern
  (if env.uselfn && sfull.length != 0 && sfull.head? != some '"' then ['"'] else [])
    ++ sfull ++
  (if env.uselfn && sfull.length != 0 && sfull.getLast? != some '"' then ['"'] else [])

/-- The branch `EXIST` of CMD_IF (lines 1874-1916), `args` being what follows the
keyword and its blank. -/
def ifExist (env : ShellEnv) (has_not : Bool) (args : List Char) : Outcome :=
  let (word, args) := env.StripArg (StripSpaces args)
  match word with
  | [] => Outcome.WriteOut "SHELL_CMD_IF_EXIST_MISSING_FILENAME"
  | _ :: _ =>
    match env.DOS_Canonicalize word with
    | none => Outcome.nothing
    | some full =>
      let ret := env.DOS_FindFirst (existSearch env word full)
        (maskWithout (DOS_ATTR_VOLUME ||| DOS_ATTR_DIRECTORY))
      if ret == !has_not then Outcome.DoCommand args else Outcome.nothing

/-- The test that ends a word of the string comparison: not white space, not `=`. -/
def inWord (c : Char) : Bool := !isspace c && c != '='

/-- The string comparison of CMD_IF (lines 1921-1949). -/
def ifCompare (has_not : Bool) (args : List Char) : Outcome :=
  let word1 := args.takeWhile inWord
  let args := (args.dropWhile inWord).dropWhile (fun c => c != '=')
  match args with
  | [] => Outcome.SyntaxError
  | _ :: t =>
    if t.head? != some '=' then Outcome.SyntaxError
    else
      let args := StripSpacesAlso (t.drop 1) '='
      let word2 := args.takeWhile inWord
      match args.dropWhile inWord with
      | [] => Outcome.nothing
      | _ :: args =>
        if decide (strcmp word1 word2 = 0) == !has_not then
          Outcome.DoCommand (StripSpacesAlso args '=')
        else Outcome.nothing

/-- The handler CMD_IF from line 1840 on (after the help switch), on the text that
follows `IF`. -/
def CMD_IF (env : ShellEnv) (args : List Char) : Outcome :=
  let args := StripSpacesAlso args '='
  let (has_not, args) := skipNots args.length args false
  if startsWithNoCase args "ERRORLEVEL".toList then ifErrorlevel env has_not (args.drop 10)
  else if startsWithNoCase args "EXIST ".toList then ifExist env has_not (args.drop 6)
  else ifCompare has_not args

/-- A cutting helper for examples: the word up to the first white-space character,
which is consumed, and the rest. -/
def cutWord (line : List Char) : List Char × List Char :=
  (line.takeWhile (fun c => !isspace c), (line.dropWhile (fun c => !isspace c)).drop 1)

/-- An environment for examples: exit code `r`, short names, every path canonical
as it is written, and a find-first that succeeds on the search strings in `found`. -/
def exampleEnv (r : Nat) (found : List (List Char)) : ShellEnv :=
  { uselfn := false
    return_code := r
    StripWord := cutWord
    StripArg := cutWord
    DOS_Canonicalize := fun w => some w
    DOS_GetSFNPath := fun _ _ => none
    DOS_FindFirst := fun s _ => found.contains s }

/-- An environment whose canonicalizer rejects every path and whose find-first finds
nothing. -/
def rejectingEnv : ShellEnv :=
  { uselfn := false
    return_code := 0
    StripWord := cutWord
    StripArg := cutWord
    DOS_Canonicalize := fun _ => none
    DOS_GetSFNPath := fun _ _ => none
    DOS_FindFirst := fun _ _ => false }

/-- The number a string of decimal digits denotes. -/
def decimalValue (digits : List Char) : Nat :=
  digits.foldl (fun acc c => acc * 10 + (c.toNat - 48)) 0

/-! ## DEL: the confirmation prompt and the deletion loop (CMD_DELETE) -/

/-- What a handler writes to the console: a message of the message table named by
its key, with its argument, a literal text, or one character echoed with
`DOS_WriteFile`. -/
inductive Out where
  | msg (key : String) (arg : List Char)
  | text (s : String)
  | echo (c : Char)
  deriving DecidableEq

/-- Where the "are you sure" prompt of CMD_DELETE stands.  `AwaitingInput` is the
label `first_2`; `AfterNo`, `AfterYes` and `AfterOther` are the three inner loops,
entered after a first character `n`/`N`, `y`/`Y` or any other; the last three are
the ways the prompt resolves: `goto continue_1`, `return` after Enter, `return`
after Ctrl-C. -/
inductive PromptState where
  | AwaitingInput
  | AfterNo
  | AfterYes
  | AfterOther
  | ConfirmedYes
  | ConfirmedNo
  | Cancelled
  deriving DecidableEq

/-- The prompt has resolved: no further character is read. -/
def PromptState.resolved : PromptState → Bool
  | .ConfirmedYes => true
  | .ConfirmedNo => true
  | .Cancelled => true
  | _ => false

/-- One character `c` read by the prompt of lines 259-302 in state `s`: the next
state and what is written.  Enter in `AwaitingInput` and in `AfterOther` jumps to
`first_1`, which writes the question again. -/
def sureStep (s : PromptState) (c : Char) : PromptState × List Out :=
  match s with
  | .AwaitingInput =>
    if c = 'n' ∨ c = 'N' then (.AfterNo, [.echo c])
    else if c = 'y' ∨ c = 'Y' then (.AfterYes, [.echo c])
    else if c = '\r' then (.AwaitingInput, [.text "\n", .msg "SHELL_CMD_DEL_SURE" []])
    else if c = '\x03' then (.Cancelled, [.text "^C\n"])
    else if c = '\t' ∨ c = '\x08' then (.AwaitingInput, [])
    else (.AfterOther, [.echo c])
  | .AfterNo =>
    if c = '\r' then (.ConfirmedNo, [.text "\n"])
    else if c = '\x03' then (.Cancelled, [.text "^C\n"])
    else if c = '\x08' then (.AwaitingInput, [.text "\x08 \x08"])
    else (.AfterNo, [])
  | .AfterYes =>
    if c = '\r' then (.ConfirmedYes, [.text "\n"])
    else if c = '\x03' then (.Cancelled, [.text "^C\n"])
    else if c = '\x08' then (.AwaitingInput, [.text "\x08 \x08"])
    else (.AfterYes, [])
  | .AfterOther =>
    if c = '\r' then (.AwaitingInput, [.text "\n", .msg "SHELL_CMD_DEL_SURE" []])
    else if c = '\x03' then (.Cancelled, [.text "^C\n"])
    else if c = '\x08' then (.AwaitingInput, [.text "\x08 \x08"])
    else (.AfterOther, [])
  | s => (s, [])

/-- The prompt run from state `s` on the characters `DOS_ReadFile` delivers, one
per call: the state reached, what was written, and the characters not read.  With
no character left the read blocks and the state reached is not a resolved one. -/
def sureRun : PromptState → List Char → PromptState × List Out × List Char
  | s, [] => (s, [], [])
  | s, c :: cs =>
    if s.resolved then (s, [], c :: cs)
    else
      let r := sureRun (sureStep s c).1 cs
      (r.1, (sureStep s c).2 ++ r.2.1, r.2.2)

/-- A call of one of the two mutators CMD_DELETE uses. -/
inductive MutCall where
  | SetFileAttr (path : List Char) (attr : Nat)
  | UnlinkFile (path : List Char)
  deriving DecidableEq

/-- What CMD_DELETE works with: the enumerator, as the list of results find-first
and find-next deliver for a search string and mask (empty when find-first fails),
and the two mutators on a file system of type `σ`, each returning its success. -/
structure DelEnv (σ : Type) where
  uselfn : Bool
  DOS_Canonicalize : List Char → Option (List Char)
  DOS_GetSFNPath : List Char → Bool → Option (List Char)
  findAll : σ → List Char → Nat → List DtaResult
  DOS_UnlinkFile : σ → List Char → Bool × σ
  DOS_SetFileAttr : σ → List Char → Nat → Bool × σ

/-- The state of a run of CMD_DELETE: the file system, what was written, the
mutator calls made so far, the flag `exist`, and whether the run has left the loop
on Ctrl-C (`cancelled`) or stands at a read with no character left (`waiting`). -/
structure DelState (σ : Type) where
  fs : σ
  out : List Out
  calls : List MutCall
  exist : Bool
  cancelled : Bool
  waiting : Bool

/-- The state after writing `o`. -/
def DelState.write {σ : Type} (st : DelState σ) (o : List Out) : DelState σ :=
  ⟨st.fs, st.out ++ o, st.calls, st.exist, st.cancelled, st.waiting⟩

/-- The state with `exist = true`. -/
def DelState.setExist {σ : Type} (st : DelState σ) : DelState σ :=
  ⟨st.fs, st.out, st.calls, true, st.cancelled, st.waiting⟩

/-- The path handed to the mutators (line 369): `full`, in double quotes when long
names are in use or it holds a blank. -/
def quotePath (uselfn : Bool) (full : List Char) : List Char :=
  let q := uselfn || (strchr full ' ').isSome
  (if q && full.head? != some '"' then ['"'] else []) ++ full ++
    (if q && full.getLast? != some '"' then ['"'] else [])

/-- Lines 368-376: the deletion of the entry whose short path is `full`.  With `/F`
a read-only entry first has its read-only bit cleared (`doSet`); when the unlink
fails after a successful clearing the attributes are put back (`doReset`) and the
error message is written. -/
def unlinkEntry {σ : Type} (env : DelEnv σ) (optF : Bool) (full shown : List Char)
    (attr : Nat) (st : DelState σ) : DelState σ :=
  if full.length != 0 then
    let pfull := quotePath env.uselfn full
    let cleared := attr &&& (0xffff ^^^ DOS_ATTR_READ_ONLY)
    let doSet := optF && (attr &&& DOS_ATTR_READ_ONLY != 0)
    let r1 := if doSet then env.DOS_SetFileAttr st.fs pfull cleared else (false, st.fs)
    let r2 := env.DOS_UnlinkFile r1.2 pfull
    let doReset := !r2.1 && (optF && r1.1)
    let r3 := if doReset then env.DOS_SetFileAttr r2.2 pfull attr else (false, r2.2)
    ⟨r3.2,
      st.out ++ (if !r2.1 then [Out.msg "SHELL_CMD_DEL_ERROR" shown] else []),
      st.calls ++ (if doSet then [MutCall.SetFileAttr pfull cleared] else [])
        ++ [MutCall.UnlinkFile pfull]
        ++ (if doReset then [MutCall.SetFileAttr pfull attr] else []),
      st.exist, st.cancelled, st.waiting⟩
  else st.write [Out.msg "SHELL_CMD_DEL_ERROR" shown]

/-- The loop of lines 347-379 over the results `entries` of the enumerator, with
the characters `input` for the prompts of `/P`: the final state and the characters
not read.  `dir` and `sdir` are `full` and `sfull` cut after their last backslash. -/
def delLoop {σ : Type} (env : DelEnv σ) (optP optF : Bool) (dir sdir : List Char) :
    List DtaResult → List Char → DelState σ → DelState σ × List Char
  | [], input, st => (st, input)
  | e :: es, input, st =>
    let full := dir ++ e.name
    let shown := if env.uselfn then sdir ++ e.lname else dir ++ e.name
    if !optF && (e.attr &&& DOS_ATTR_READ_ONLY != 0) && !e.isDir then
      delLoop env optP optF dir sdir es input
        (st.setExist.write [Out.msg "SHELL_CMD_DEL_ERROR" shown])
    else if !e.isDir then
      if optP then
        match input with
        | [] =>
          (⟨st.fs, st.out ++ [Out.msg "Delete %s (Y/N)?" shown], st.calls, true,
            st.cancelled, true⟩, [])
        | c :: input =>
          if c = '\x03' then
            (⟨st.fs, st.out ++ [Out.msg "Delete %s (Y/N)?" shown, Out.text "^C\r\n"],
              st.calls, true, true, st.waiting⟩, input)
          else if c = 'y' ∨ c = 'Y' then
            delLoop env optP optF dir sdir es input
              (unlinkEntry env optF full shown e.attr
                (st.setExist.write [Out.msg "Delete %s (Y/N)?" shown, Out.text "Y\r\n"]))
          else
            delLoop env optP optF dir sdir es input
              (st.setExist.write [Out.msg "Delete %s (Y/N)?" shown, Out.text "N\r\n"])
      else
        delLoop env optP optF dir sdir es input (unlinkEntry env optF full shown e.attr st.setExist)
    else delLoop env optP optF dir sdir es input st

/-- The search string of lines 308-332 for the canonical path `full` of `args`,
built as in `existSearch`. -/
def delSearch {σ : Type} (env : DelEnv σ) (args full : List Char) : List Char :=
  let (path, pattern) :=
    match strrchr full '\\' with
    | some r => (full.take r ++ ['\\'], full.drop (r + 1))
    | none => ([], full)
  let pattern := removeChar pattern '"'
  let spath :=
    if (strchr args '"').isSome || env.uselfn then
      let spath :=
        match env.DOS_GetSFNPath (['"'] ++ path ++ ['\\']) false with
        | some sp => sp
        | none => path
      if spath.length = 0 || spath.getLast? != some '\\' then spath ++ ['\\'] else spath
    else path
  let pfull := spath ++ pattern
  (if env.uselfn && pfull.length != 0 && pfull.head? != some '"' then ['"'] else [])
    ++ pfull ++
  (if env.uselfn && pfull.length != 0 && pfull.getLast? != some '"' then ['"'] else [])

/-- The part of CMD_DELETE from the label `continue_1` on (lines 305-382), run in
state `st` on the characters `input`.  The result is `none` where the source writes
through `strrchr(full,'\\')+1` without a backslash in `full`. -/
def deletePhase {σ : Type} (env : DelEnv σ) (optP optF : Bool) (args input : List Char)
    (st : DelState σ) : Option (DelState σ) :=
  match env.DOS_Canonicalize args with
  | none => some (st.write [Out.msg "SHELL_ILLEGAL_PATH" []])
  | some full =>
    match env.findAll st.fs (delSearch env args full) (maskWithout DOS_ATTR_VOLUME) with
    | [] => some (st.write [Out.msg "SHELL_CMD_DEL_ERROR" args])
    | e :: es =>
      match strrchr full '\\' with
      | none => none
      | some r =>
        let dir := full.take (r + 1)
        let fin := (delLoop env optP optF dir dir (e :: es) input st).1
        some (if !fin.exist then fin.write [Out.msg "SHELL_CMD_FILE_NOT_FOUND" args] else fin)

/-- The test of line 257: `args` is `*.*`, or longer than three characters and ends
in `\*.*` or `:*.*`. -/
def deletesAll (args : List Char) : Bool :=
  args == "*.*".toList ||
    (decide (args.length > 3) &&
      (args.drop (args.length - 4) == "\\*.*".toList ||
        args.drop (args.length - 4) == ":*.*".toList))

/-- The handler CMD_DELETE from line 257 on: `args` is the file argument as the
lines before have prepared it, `optP`, `optF`, `optQ` are the switches, `input` the
characters `DOS_ReadFile` delivers and `fs` the file system. -/
def CMD_DELETE {σ : Type} (env : DelEnv σ) (optP optF optQ : Bool) (args input : List Char)
    (fs : σ) : Option (DelState σ) :=
  let st0 : DelState σ := ⟨fs, [], [], false, false, false⟩
  if deletesAll args && !optQ then
    let r := sureRun PromptState.AwaitingInput input
    let st1 := st0.write (Out.msg "SHELL_CMD_DEL_SURE" [] :: r.2.1)
    match r.1 with
    | .ConfirmedYes => deletePhase env optP optF args r.2.2 st1
    | .ConfirmedNo => some st1
    | .Cancelled => some ⟨st1.fs, st1.out, st1.calls, st1.exist, true, st1.waiting⟩
    | _ => some ⟨st1.fs, st1.out, st1.calls, st1.exist, st1.cancelled, true⟩
  else deletePhase env optP optF args input st0

/-- A file system for examples: the paths of the files present; unlinking succeeds
on a file that is present and removes it, setting attributes does nothing. -/
def listEnv (entries : List DtaResult) : DelEnv (List (List Char)) :=
  { uselfn := false
    DOS_Canonicalize := fun a => some ("C:\\".toList ++ a)
    DOS_GetSFNPath := fun _ _ => none
    findAll := fun _ _ _ => entries
    DOS_UnlinkFile := fun fs p => (fs.contains p, fs.filter (fun q => q != p))
    DOS_SetFileAttr := fun fs _ _ => (true, fs) }

/-- The path a mutator call is made on. -/
def MutCall.path : MutCall → List Char
  | .SetFileAttr p _ => p
  | .UnlinkFile p => p

/-- The entry of the examples named `name` with attribute byte `attr`. -/
def fileEntry (name : String) (attr : Nat) : DtaResult :=
  ⟨name.toList, name.toList, 0, 0, 0, attr⟩

/-! ## DIR: the attribute filter (doDir) and the sorting switches (CMD_DIR) -/

/-- The attribute switches doDir receives. -/
structure AttrOpts where
  optA : Bool
  optAD : Bool
  optAminusD : Bool
  optAS : Bool
  optAminusS : Bool
  optAH : Bool
  optAminusH : Bool
  optAR : Bool
  optAminusR : Bool
  optAA : Bool
  optAminusA : Bool

/-- The test `result.attr & bit`. -/
def DtaResult.has (e : DtaResult) (bit : Nat) : Bool := e.attr &&& bit != 0

/-- One of the attribute switches is given: the negation of the test in line 902. -/
def AttrOpts.any (o : AttrOpts) : Bool :=
  o.optA || o.optAD || o.optAminusD || o.optAS || o.optAminusS || o.optAH || o.optAminusH
    || o.optAR || o.optAminusR || o.optAA || o.optAminusA

/-- The chain of lines 892-902 of doDir: `true` where the entry meets a `continue`
and is not pushed onto `results`. -/
def dirSkips (o : AttrOpts) (result : DtaResult) : Bool :=
  if o.optAD && !result.has DOS_ATTR_DIRECTORY then true
  else if o.optAminusD && result.has DOS_ATTR_DIRECTORY then true
  else if o.optAS && !result.has DOS_ATTR_SYSTEM then true
  else if o.optAminusS && result.has DOS_ATTR_SYSTEM then true
  else if o.optAH && !result.has DOS_ATTR_HIDDEN then true
  else if o.optAminusH && result.has DOS_ATTR_HIDDEN then true
  else if o.optAR && !result.has DOS_ATTR_READ_ONLY then true
  else if o.optAminusR && result.has DOS_ATTR_READ_ONLY then true
  else if o.optAA && !result.has DOS_ATTR_ARCHIVE then true
  else if o.optAminusA && result.has DOS_ATTR_ARCHIVE then true
  else if !o.any && (result.has DOS_ATTR_SYSTEM || result.has DOS_ATTR_HIDDEN)
      && strcmp result.name "..".toList != 0 then true
  else false

/-- The loop of lines 887-906 of doDir over the results of the enumerator: the
vector `results`. -/
def dirCollect (o : AttrOpts) (entries : List DtaResult) : List DtaResult :=
  entries.filter (fun e => !dirSkips o e)

/-- No attribute switch. -/
def noAttrOpts : AttrOpts :=
  ⟨false, false, false, false, false, false, false, false, false, false, false⟩

/-- Lines 1107-1143 of CMD_DIR: the sorting switches, from what each call of
`ScanCMDBool(args, name)` returns (`scan name`; the scanner is in shell_misc.cpp,
which is not among the sources). -/
def dirSortFlags (scan : String → Bool) : SortOpts :=
  let reverseSort := false
  let optON := scan "ON" || scan "O:N"
  let optON := if scan "O-N" then true else optON
  let reverseSort := if scan "O-N" then true else reverseSort
  let optOD := scan "OD" || scan "O:D"
  let optOD := if scan "O-D" then true else optOD
  let reverseSort := if scan "O-D" then true else reverseSort
  let optOE := scan "OE" || scan "O:E"
  let optOE := if scan "O-E" then true else optOE
  let reverseSort := if scan "O-E" then true else reverseSort
  let optOS := scan "OS" || scan "O:S"
  let optOS := if scan "O-S" then true else optOS
  let reverseSort := if scan "O-S" then true else reverseSort
  let optOG := scan "OG" || scan "O:G"
  let optOG := if scan "O-G" then true else optOG
  let reverseSort := if scan "O-G" then true else reverseSort
  let optO := scan "O"
  let optO := if scan "OGN" then true else optO
  if scan "-O" then ⟨false, false, false, false, false, false, false⟩
  else ⟨optO, optOG, optON, optOD, optOE, optOS, reverseSort⟩

/-- One of the sort keys is active. -/
def SortOpts.anyKey (o : SortOpts) : Bool :=
  o.optON || o.optOE || o.optOD || o.optOS || o.optOG || o.optO

/-- Lines 887-930 of doDir: the entries doDir goes on to write, in their order. -/
def doDirList (sort : SortFn) (a : AttrOpts) (o : SortOpts) (entries : List DtaResult) :
    List DtaResult :=
  doDirOrder sort o (dirCollect a entries)

/-! ## IF: the condition after the leading NOTs -/

/-- CMD_IF behind the loop over the leading `NOT`s (lines 1851-1949): the three
kinds of condition, with the negation flag the loop has set. -/
def ifBody (env : ShellEnv) (has_not : Bool) (args : List Char) : Outcome :=
  if startsWithNoCase args "ERRORLEVEL".toList then ifErrorlevel env has_not (args.drop 10)
  else if startsWithNoCase args "EXIST ".toList then ifExist env has_not (args.drop 6)
  else ifCompare has_not args

/-- The test of lines 1843-1844 for one more round of the loop: the line starts with
`NOT` (in any case) and white space or `=` follows. -/
def negatingNot (args : List Char) : Bool :=
  startsWithNoCase args "NOT".toList &&
    ((args.drop 3).head?.any isspace || (args.drop 3).head? == some '=')

/-- The text of `k` tokens `NOT`, each followed by a blank. -/
def nots : Nat → List Char
  | 0 => []
  | k + 1 => "NOT ".toList ++ nots k

/-! ## The command dispatcher (DoCommand, cmd_list) -/

/-- One row of the static table `cmd_list`: name, flags, handler and help key. -/
structure SHELL_Cmd where
  name : String
  flags : Nat
  handler : String
  help : String
  deriving DecidableEq

/-- The static table `cmd_list` (lines 46-83), without its closing row of zeros. -/
def cmd_list : List SHELL_Cmd :=
  [⟨"ATTRIB", 1, "CMD_ATTRIB", "SHELL_CMD_ATTRIB_HELP"⟩,
   ⟨"CALL", 1, "CMD_CALL", "SHELL_CMD_CALL_HELP"⟩,
   ⟨"CD", 0, "CMD_CHDIR", "SHELL_CMD_CHDIR_HELP"⟩,
   ⟨"CHDIR", 1, "CMD_CHDIR", "SHELL_CMD_CHDIR_HELP"⟩,
   ⟨"CHOICE", 1, "CMD_CHOICE", "SHELL_CMD_CHOICE_HELP"⟩,
   ⟨"CLS", 0, "CMD_CLS", "SHELL_CMD_CLS_HELP"⟩,
   ⟨"COPY", 0, "CMD_COPY", "SHELL_CMD_COPY_HELP"⟩,
   ⟨"DATE", 0, "CMD_DATE", "SHELL_CMD_DATE_HELP"⟩,
   ⟨"DEL", 0, "CMD_DELETE", "SHELL_CMD_DELETE_HELP"⟩,
   ⟨"DELETE", 1, "CMD_DELETE", "SHELL_CMD_DELETE_HELP"⟩,
   ⟨"DIR", 0, "CMD_DIR", "SHELL_CMD_DIR_HELP"⟩,
   ⟨"ECHO", 1, "CMD_ECHO", "SHELL_CMD_ECHO_HELP"⟩,
   ⟨"ERASE", 1, "CMD_DELETE", "SHELL_CMD_DELETE_HELP"⟩,
   ⟨"EXIT", 0, "CMD_EXIT", "SHELL_CMD_EXIT_HELP"⟩,
   ⟨"GOTO", 1, "CMD_GOTO", "SHELL_CMD_GOTO_HELP"⟩,
   ⟨"HELP", 1, "CMD_HELP", "SHELL_CMD_HELP_HELP"⟩,
   ⟨"IF", 1, "CMD_IF", "SHELL_CMD_IF_HELP"⟩,
   ⟨"LH", 1, "CMD_LOADHIGH", "SHELL_CMD_LOADHIGH_HELP"⟩,
   ⟨"LOADHIGH", 1, "CMD_LOADHIGH", "SHELL_CMD_LOADHIGH_HELP"⟩,
   ⟨"LS", 0, "CMD_LS", "SHELL_CMD_LS_HELP"⟩,
   ⟨"MD", 0, "CMD_MKDIR", "SHELL_CMD_MKDIR_HELP"⟩,
   ⟨"MKDIR", 1, "CMD_MKDIR", "SHELL_CMD_MKDIR_HELP"⟩,
   ⟨"PATH", 1, "CMD_PATH", "SHELL_CMD_PATH_HELP"⟩,
   ⟨"PAUSE", 1, "CMD_PAUSE", "SHELL_CMD_PAUSE_HELP"⟩,
   ⟨"RD", 0, "CMD_RMDIR", "SHELL_CMD_RMDIR_HELP"⟩,
   ⟨"REM", 1, "CMD_REM", "SHELL_CMD_REM_HELP"⟩,
   ⟨"REN", 0, "CMD_RENAME", "SHELL_CMD_RENAME_HELP"⟩,
   ⟨"RENAME", 1, "CMD_RENAME", "SHELL_CMD_RENAME_HELP"⟩,
   ⟨"RMDIR", 1, "CMD_RMDIR", "SHELL_CMD_RMDIR_HELP"⟩,
   ⟨"SET", 1, "CMD_SET", "SHELL_CMD_SET_HELP"⟩,
   ⟨"SHIFT", 1, "CMD_SHIFT", "SHELL_CMD_SHIFT_HELP"⟩,
   ⟨"SUBST", 1, "CMD_SUBST", "SHELL_CMD_SUBST_HELP"⟩,
   ⟨"TIME", 0, "CMD_TIME", "SHELL_CMD_TIME_HELP"⟩,
   ⟨"TYPE", 0, "CMD_TYPE", "SHELL_CMD_TYPE_HELP"⟩,
   ⟨"VER", 0, "CMD_VER", "SHELL_CMD_VER_HELP"⟩]

/-- The test `strcasecmp(a, b) == 0`: equal up to case. -/
def strcasecmpEq (a b : List Char) : Bool := a.map tolower == b.map tolower

/-- The loop `while (cmd_list[cmd_index].name)` with its `strcasecmp`: the first row
whose name equals `cmd_buffer` up to case. -/
def lookupCmd (cmd_buffer : List Char) : Option SHELL_Cmd :=
  cmd_list.find? (fun e => strcasecmpEq e.name.toList cmd_buffer)

/-- How DoCommand ends: it calls the handler of a table row with the rest of the
line, returns on an empty command, or goes on to the lines behind the table (173-189:
the executor of external programs and the configuration fallback) with `cmd_buffer`
and the rest of the line. -/
inductive Dispatch where
  | handler (cmd : SHELL_Cmd) (line : List Char)
  | empty
  | external (cmd_buffer line : List Char)
  deriving DecidableEq

/-- The test that ends the command name (line 145): `/`, tab, or, outside double
quotes (`q` even), a blank or `=`. -/
def endsCommand (c : Char) (q : Nat) : Bool :=
  c = '/' || c = '\t' || (q / 2 * 2 == q && (c = ' ' || c = '='))

/-- Lines 162-189 of DoCommand, behind the loop: nothing for an empty `cmd_buffer`,
else the table and then the external path. -/
def afterScan (cmd_buffer line : List Char) : Dispatch :=
  if cmd_buffer.length = 0 then Dispatch.empty
  else
    match lookupCmd cmd_buffer with
    | some e => Dispatch.handler e line
    | none => Dispatch.external cmd_buffer line

/-- The loop of lines 144-161 of DoCommand on the rest `line` of the line, with the
characters copied to `cmd_buffer` so far and the count `q` of double quotes: at a
`.` or `\` the table is tried with what has been copied. -/
def scanCommand : List Char → List Char → Nat → Dispatch
  | [], cmd_buffer, _ => afterScan cmd_buffer []
  | c :: line, cmd_buffer, q =>
    if endsCommand c q then afterScan cmd_buffer (c :: line)
    else if c = '.' ∨ c = '\\' then
      match lookupCmd cmd_buffer with
      | some e => Dispatch.handler e (c :: line)
      | none => scanCommand line (cmd_buffer ++ [c]) (if c = '"' then q + 1 else q)
    else scanCommand line (cmd_buffer ++ [c]) (if c = '"' then q + 1 else q)

/-- The function DoCommand; `trim` (support.cpp) is not among the sources and is a
parameter. -/
def DoCommand (trim : List Char → List Char) (line : List Char) : Dispatch :=
  scanCommand (trim line) [] 0

/-- The command token of a line in the words of the specification: the prefix up to
the first `/`, tab, or unquoted blank or `=`; and the rest of the line from that
delimiter on.  `q` counts the double quotes passed. -/
def commandToken : List Char → Nat → List Char × List Char
  | [], _ => ([], [])
  | c :: line, q =>
    if endsCommand c q then ([], c :: line)
    else
      ((c :: (commandToken line (if c = '"' then q + 1 else q)).1),
        (commandToken line (if c = '"' then q + 1 else q)).2)

/-! ## LS: the directory-transfer area (CMD_LS) -/

/-- The function `ExpandDot` of shell_cmds.cpp: `.` becomes `*.*`, a name that
starts with a dot followed by neither `.` nor `\` gets `*` in front. -/
def ExpandDot (args : List Char) : List Char :=
  match args with
  | '.' :: rest =>
    match rest with
    | [] => "*.*".toList
    | c :: _ => if c ≠ '.' ∧ c ≠ '\\' then '*' :: args else args
  | _ => args

/-- The C library function `toupper` in the C locale. -/
def toupper (c : Char) : Char :=
  if 97 ≤ c.toNat ∧ c.toNat ≤ 122 then Char.ofNat (c.toNat - 32) else c

/-- What the shell and DOS hand to CMD_LS: `trim` (support.cpp), its variant on a
C string (which returns a pointer), the attribute query, the short-name resolver, the enumerator as the list of its results for a
search string and mask, the number of text columns of the BIOS data area, the
value of `GetPauseCount()`, and the address `dos.tables.tempdta`. -/
structure LsEnv where
  uselfn : Bool
  trim : List Char → List Char
  trimPtr : List Char → Option (List Char)
  DOS_GetFileAttr : List Char → Option Nat
  DOS_GetSFNPath : List Char → Bool → Option (List Char)
  findAll : List Char → Nat → List DtaResult
  nbCols : Nat
  pauseCount : Nat
  tempdta : Nat

/-- The state of a run of CMD_LS: the address in `dos.dta()`, what was written, and
whether the run stands at a read with no character left. -/
structure LsState where
  dta : Nat
  out : List Out
  waiting : Bool
  deriving DecidableEq

/-- Lines 1281-1312 of CMD_LS: the search pattern made from the argument. -/
def lsPattern (env : LsEnv) (args : List Char) : List Char :=
  let pattern := env.trim args
  let pattern :=
    match pattern.getLast? with
    | none => "*.*".toList
    | some c => if c = '\\' ∨ c = ':' then pattern ++ "*.*".toList else pattern
  let pattern := ExpandDot pattern
  let pattern :=
    if (strrchr pattern '*').isNone && (strrchr pattern '?').isNone then
      match env.DOS_GetFileAttr pattern with
      | some attr =>
        if attr &&& DOS_ATTR_DIRECTORY != 0 then pattern ++ "\\*.*".toList else pattern
      | none => pattern
    else pattern
  if (strrchr pattern '.').isNone then pattern ++ ".*".toList else pattern

/-- The name CMD_LS shows for an entry. -/
def lsName (env : LsEnv) (optZ : Bool) (entry : DtaResult) : List Char :=
  if env.uselfn && !optZ then entry.lname else entry.name

/-- The two `continue`s of the loops over the results: `.` and `..` are left out,
and without `/A` the hidden and system entries. -/
def lsShown (env : LsEnv) (optA optZ : Bool) (entry : DtaResult) : Bool :=
  !(lsName env optZ entry == ".".toList || lsName env optZ entry == "..".toList) &&
    !(!optA && (entry.has DOS_ATTR_SYSTEM || entry.has DOS_ATTR_HIDDEN))

/-- The inner loop of lines 1353-1359: the column widths `max` for `col` columns,
`w_count` names having been placed. -/
def lsWidths (col : Nat) : List (List Char) → Nat → List Nat → List Nat
  | [], _, max => max
  | name :: names, w_count, max =>
    lsWidths col names (w_count + 1)
      (if name.length + 2 > max.getD (w_count % col) 0 then
        max.set (w_count % col) (name.length + 2) else max)

/-- The loop of lines 1348-1363 from `col` downwards: the number of columns and
their widths. -/
def lsColumns (optL : Bool) (tcols : Nat) (names : List (List Char)) :
    Nat → Nat × List Nat
  | 0 => (0, List.replicate 10 2)
  | col + 1 =>
    if optL || col + 1 == 1 then (1, List.replicate 10 2)
    else
      let max := lsWidths (col + 1) names 0 (List.replicate 10 2)
      if (max.take (col + 1)).sum < tcols then (col + 1, max)
      else lsColumns optL tcols names col

/-- The text `%-*s` makes of a name: the name, filled with blanks to the width. -/
def padRight (width : Nat) (name : List Char) : List Char :=
  name ++ List.replicate (width - name.length) ' '

/-- The test `is_executable` of line 1380. -/
def lsExecutable (name : List Char) : Bool :=
  decide (name.length > 4) &&
    (strcasecmpEq (name.drop (name.length - 4)) ".exe".toList ||
      strcasecmpEq (name.drop (name.length - 4)) ".com".toList ||
      strcasecmpEq (name.drop (name.length - 4)) ".bat".toList)

/-- What lines 1371-1386 write for one entry. -/
def lsEntryOut (env : LsEnv) (optZ : Bool) (col : Nat) (max : List Nat) (w_count : Nat)
    (entry : DtaResult) : Out :=
  let name := lsName env optZ entry
  if entry.has DOS_ATTR_DIRECTORY then
    let name := if !env.uselfn || optZ then name.map toupper else name
    if col == 1 then Out.msg "\x1b[34;1m%s\x1b[0m\n" name
    else Out.msg "\x1b[34;1m%-*s\x1b[0m" (padRight (max.getD (w_count % col) 0) name)
  else
    let name := if !env.uselfn || optZ then name.map tolower else name
    if col == 1 then
      Out.msg (if lsExecutable name then "\x1b[32;1m%s\x1b[0m\n" else "%s\n") name
    else
      Out.msg (if lsExecutable name then "\x1b[32;1m%-*s\x1b[0m" else "%-*s")
        (padRight (max.getD (w_count % col) 0) name)

/-- Lines 1371-1390 for one shown entry: the entry is written and the counters
`w_count` and `p_count` move on. -/
def lsPlace (env : LsEnv) (optZ : Bool) (col : Nat) (max : List Nat) (entry : DtaResult)
    (w_count p_count : Nat) (st : LsState) : LsState × Nat × Nat :=
  let st : LsState := ⟨st.dta, st.out ++ [lsEntryOut env optZ col max w_count entry], false⟩
  let p_count := if col == 1 then p_count + 1 else p_count
  let w_count := if col > 1 then w_count + 1 else w_count
  if decide (col > 1) && w_count % col == 0 then
    (⟨st.dta, st.out ++ [Out.text "\n"], false⟩, w_count, p_count + 1)
  else (st, w_count, p_count)

/-- The loop of lines 1367-1399 over the results, with the counters `w_count` and
`p_count`, the characters `input` for the pauses of `/P`, and `save_dta`; the
Boolean tells whether the loop was left early: the handler has returned (on Ctrl-C)
or stands at a read with no character left, the first of a pause or the second one
behind a null byte. -/
def lsLoop (env : LsEnv) (optA optP optZ : Bool) (col : Nat) (max : List Nat)
    (save_dta : Nat) :
    List DtaResult → Nat → Nat → List Char → LsState → LsState × Nat × Bool
  | [], w_count, _, _, st => (st, w_count, false)
  | entry :: results, w_count, p_count, input, st =>
    if !lsShown env optA optZ entry then
      lsLoop env optA optP optZ col max save_dta results w_count p_count input st
    else
      let placed := lsPlace env optZ col max entry w_count p_count st
      if optP && decide (placed.2.2 ≥ env.pauseCount) then
        let out := placed.1.out ++ [Out.msg "SHELL_CMD_PAUSE" []]
        match input with
        | [] => (⟨placed.1.dta, out, true⟩, placed.2.1, true)
        | c :: input =>
          if c = '\x03' then (⟨save_dta, out ++ [Out.text "^C\r\n"], false⟩, placed.2.1, true)
          else if c = '\x00' then
            match input with
            | [] => (⟨placed.1.dta, out, true⟩, placed.2.1, true)
            | _ :: input =>
              lsLoop env optA optP optZ col max save_dta results placed.2.1 0 input
                ⟨placed.1.dta, out, false⟩
          else
            lsLoop env optA optP optZ col max save_dta results placed.2.1 0 input
              ⟨placed.1.dta, out, false⟩
      else
        lsLoop env optA optP optZ col max save_dta results placed.2.1 placed.2.2 input
          placed.1

/-- The handler CMD_LS from line 1271 on: `optA`, `optL`, `optP`, `optZ` are the
switches and `rem` is what `ScanCMDRemain` returns (the scanners of shell_misc.cpp are
not among the sources), `input` the characters `DOS_ReadFile` delivers, `dta` the
address in `dos.dta()` when the handler is entered. -/
def CMD_LS (env : LsEnv) (optA optL optP optZ : Bool) (rem : Option (List Char))
    (args input : List Char) (dta : Nat) : LsState :=
  match rem with
  | some r => ⟨dta, [Out.msg "SHELL_ILLEGAL_SWITCH" r], false⟩
  | none =>
    let save_dta := dta
    let dta := env.tempdta
    let pattern := lsPattern env args
    match env.DOS_GetSFNPath pattern false with
    | none => ⟨dta, [Out.msg "SHELL_ILLEGAL_PATH" []], false⟩
    | some spattern =>
      let search :=
        (if env.uselfn then ['"'] else []) ++ spattern ++ (if env.uselfn then ['"'] else [])
      match env.findAll search (maskWithout DOS_ATTR_VOLUME) with
      | [] =>
        match env.trimPtr args with
        | some name => ⟨save_dta, [Out.msg "SHELL_CMD_FILE_NOT_FOUND" name], false⟩
        | none => ⟨save_dta, [Out.msg "SHELL_ILLEGAL_PATH" []], false⟩
      | r :: rs =>
        let results := r :: rs
        let tcols := if env.nbCols = 0 then 80 else env.nbCols
        let names := (results.filter (lsShown env optA optZ)).map (lsName env optZ)
        let cm := lsColumns optL tcols names 10
        let fin := lsLoop env optA optP optZ cm.1 cm.2 save_dta results 0 0 input ⟨dta, [], false⟩
        if fin.2.2 then fin.1
        else
          ⟨save_dta,
            fin.1.out ++ (if cm.1 > 1 ∧ fin.2.1 % cm.1 ≠ 0 then [Out.text "\n"] else []),
            false⟩

/-- An environment for examples: drive C only; the short-name resolver fails on every
other drive; the enumerator finds the entries in `entries`. -/
def lsExampleEnv (entries : List DtaResult) : LsEnv :=
  { uselfn := false
    trim := fun a => a.dropWhile isspace
    trimPtr := fun a => some (a.dropWhile isspace)
    DOS_GetFileAttr := fun _ => none
    DOS_GetSFNPath := fun p _ => if p.take 2 == "Q:".toList then none else some p
    findAll := fun _ _ => entries
    nbCols := 80
    pauseCount := 22
    tempdta := 0x2000 }

/-! ## COPY (CMD_COPY) -/

/-- The `struct copysource`: a source name and whether a `+` follows it. -/
structure copysource where
  filename : List Char
  concat : Bool
  deriving DecidableEq

/-- The calls CMD_COPY makes on the file layer, in order.  (`DOS_GetFileDate` is left
out: its result only goes to the log.) -/
inductive FileCall where
  | OpenFile (name : List Char) (flags : Nat)
  | CreateFile (name : List Char) (attributes : Nat)
  | SeekFile (handle pos type : Nat)
  | ReadFile (handle toread : Nat)
  | WriteFile (handle : Nat) (data : List Nat)
  | CloseFile (handle : Nat)
  | UnlinkFile (name : List Char)
  deriving DecidableEq

/-- What the shell and DOS hand to CMD_COPY; none of it is among the sources.  `σ` is
the state of the file layer.  The resolvers return the path they write or `none`;
`findAll` is the enumerator as the list of its results for a search string and mask;
`DOS_OpenFile` and `DOS_CreateFile` return the handle; `DOS_ReadFile` returns the
bytes it delivers (their number is the new `toread`), `DOS_WriteFile` the number of
bytes it has written; `errorcode` is `dos.errorcode`; `shellEcho` is the member
`echo` of the shell that line 1776 copies to `dos.echo`. -/
structure CopyEnv (σ : Type) where
  uselfn : Bool
  shellEcho : Bool
  tempdta : Nat
  DOS_DEVICES : Nat
  DOS_Canonicalize : σ → List Char → Option (List Char)
  DOS_GetSFNPath : σ → List Char → Bool → Option (List Char)
  findAll : σ → List Char → Nat → List DtaResult
  DOS_GetFileAttr : σ → List Char → Option Nat
  DOS_FindDevice : σ → List Char → Nat
  DOS_OpenFile : σ → List Char → Nat → Option Nat × σ
  DOS_CreateFile : σ → List Char → Nat → Option Nat × σ
  DOS_SeekFile : σ → Nat → Nat → Nat → Bool × σ
  DOS_ReadFile : σ → Nat → Nat → Bool × List Nat × σ
  DOS_WriteFile : σ → Nat → List Nat → Bool × Nat × σ
  DOS_CloseFile : σ → Nat → Bool × σ
  DOS_UnlinkFile : σ → List Char → Bool × σ
  errorcode : σ → Nat

/-- The constant `DOS_ATTR_DEVICE`. -/
def DOS_ATTR_DEVICE : Nat := 0x40

/-- The constant `OPEN_READWRITE`. -/
def OPEN_READWRITE : Nat := 2

/-- The constant `DOS_SEEK_END`. -/
def DOS_SEEK_END : Nat := 2

/-- The assignment `sources[sources.size()-1].concat = true`. -/
def setLastConcat : List copysource → List copysource
  | [] => []
  | [s] => [⟨s.filename, true⟩]
  | s :: rest => s :: setLastConcat rest

/-- The C library test `strpbrk(s, "*?") != NULL`. -/
def hasWildcard (s : List Char) : Bool := s.any (fun c => c == '*' || c == '?')

/-- Lines 1464-1474 of CMD_COPY: the piece of `source_p` that becomes the next source
name, and what follows its `+` (`none` for `plus == NULL`).  A word in double quotes
with no further quote inside is not cut. -/
def copyCut (source_p : List Char) : List Char × Option (List Char) :=
  match strchr source_p '+' with
  | some k =>
    if source_p.head? == some '"' && source_p.getLast? == some '"' &&
        (strchr ((source_p.dropLast).drop 1) '"').isNone then (source_p, none)
    else (source_p.take k, some (source_p.drop (k + 1)))
  | none => (source_p, none)

/-- Lines 1475-1501: the name pushed onto `sources` for the piece `source_p`.  With
long names a pattern that ends in `*` with no dot in its last component gets `.*`; a
name without wild cards that is a directory (or the root) gets `\*.*`. -/
def copySourceName {σ : Type} (env : CopyEnv σ) (fs : σ) (source_p : List Char) :
    List Char :=
  let has_drive_spec := source_p.getLast? == some ':'
  let source_x :=
    if !has_drive_spec && env.uselfn && (strchr source_p '*').isSome then
      let find_last :=
        match strrchr source_p '\\' with
        | some k => source_p.drop (k + 1)
        | none => source_p
      if decide (find_last.length > 0) && source_p.getLast? == some '*' &&
          (strchr find_last '.').isNone then source_p ++ ".*".toList
      else source_p
    else source_p
  if !has_drive_spec && !hasWildcard source_p then
    match env.DOS_GetSFNPath fs source_p false with
    | some spath =>
      let root := spath.length == 3 && spath.getD 1 ' ' == ':' && spath.getD 2 ' ' == '\\'
      let spath := if root then spath ++ "*.*".toList else spath
      match env.findAll fs spath (maskWithout DOS_ATTR_VOLUME) with
      | entry :: _ =>
        if entry.has DOS_ATTR_DIRECTORY || root then source_x ++ "\\*.*".toList
        else source_x
      | [] => source_x
    | none => source_x
  else source_x

/-- The loop `do … while (source_p && *source_p)` of lines 1452-1505 on one word that
`StripArg` has cut off.  `fuel` bounds the number of rounds; every round that goes on
drops a character of `source_p` at least, so its length plus one is enough
(`copyParseWord_fuel`). -/
def copyParseWord {σ : Type} (env : CopyEnv σ) (fs : σ) :
    Nat → List Char → List copysource → List copysource
  | 0, _, sources => sources
  | fuel + 1, source_p, sources =>
    let lead := strchr source_p '+' == some 0 && sources.length != 0
    let sources := if lead then setLastConcat sources else sources
    let source_p := if lead then source_p.drop 1 else source_p
    if lead && source_p.length == 0 then sources
    else
      let cut := copyCut source_p
      let sources := sources ++ [⟨copySourceName env fs cut.1, cut.2.isSome⟩]
      match cut.2 with
      | some rest =>
        if rest.length != 0 then copyParseWord env fs fuel rest sources else sources
      | none => sources

/-- The loop `while ((source_p = StripArg(args)) && *source_p)`: `words` are the
non-empty words `StripArg` cuts off `args`, in order. -/
def copyParse {σ : Type} (env : CopyEnv σ) (fs : σ) (words : List (List Char)) :
    List copysource :=
  words.foldl (fun sources w => copyParseWord env fs (w.length + 1) w sources) []

/-- Lines 1514-1522: the sources that remain and the target.  The last name is the
target when there are two names at least and no `+` stands before it; with no target
the default `.` is taken, with the concat flag set. -/
def copyTarget (sources : List copysource) : List copysource × copysource :=
  let picked : List copysource × copysource :=
    if decide (sources.length > 1) &&
        !((sources.getD (sources.length - 2) ⟨[], false⟩).concat) then
      (sources.dropLast, sources.getLastD ⟨[], false⟩)
    else (sources, ⟨[], false⟩)
  if picked.2.filename.length == 0 then (picked.1, ⟨".".toList, true⟩) else picked

/-- Where `ext` points when the per-file loop starts: the C string at `ext`, whether
`ext[-1]` is the terminator written over the `*` of the name, and whether `ext[1]` is
a `*`. -/
structure ExtInfo where
  ext : List Char
  prevNul : Bool
  nextStar : Bool
  deriving DecidableEq

/-- How lines 1584-1630 end: `pathTarget` as a C string, `ext` and
`replacementOffset`; the return with SHELL_ILLEGAL_PATH; or the failing assertion
`ext > pathTarget + 1`. -/
inductive ExtResult where
  | ok (pathTarget : List Char) (ext : Option ExtInfo) (replacementOffset : Nat)
  | illegalPath
  | assertion
  deriving DecidableEq

/-- Lines 1584-1630 of CMD_COPY: whether the name or the extension of the target is
substituted from the source names.  `pathTarget[pathTargetLen-1]` of an empty
`pathTarget` is read as different from the backslash. -/
def copyExt (pathTarget filename : List Char) : ExtResult :=
  if pathTarget.getLast? == some '\\' then ExtResult.ok pathTarget none 0
  else
    match strchr pathTarget '.' with
    | none => ExtResult.ok pathTarget none 0
    | some 0 => ExtResult.ok pathTarget none 0
    | some (k + 1) =>
      let star := pathTarget.getD k ' ' == '*'
      let nextStar := pathTarget.getD (k + 2) ' ' == '*'
      let cString :=
        if star then pathTarget.take k else if nextStar then pathTarget.take (k + 1)
        else pathTarget
      let ext : Option ExtInfo :=
        if nextStar then some ⟨[], star, true⟩
        else if star then some ⟨pathTarget.drop (k + 1), true, false⟩
        else none
      if star then
        if k = 0 then ExtResult.assertion
        else if pathTarget.getD (k - 1) ' ' != '\\' then
          let lastSlash :=
            match strrchr filename '\\' with
            | some i => i + 1
            | none => 0
          match strchr filename '*' with
          | none => ExtResult.illegalPath
          | some off =>
            if off < lastSlash then ExtResult.illegalPath
            else ExtResult.ok cString ext (off - lastSlash)
        else ExtResult.ok cString ext 0
      else ExtResult.ok cString ext 0

/-- How far a run of CMD_COPY has come: it runs, it has returned, it stands at a read
of the keyboard with no character left, a copy loop has used up its rounds, or it has
met behaviour C leaves undefined (`strcat` of a null pointer, the failing assertion
of line 1597). -/
inductive CopyStatus where
  | running
  | returned
  | waiting
  | noFuel
  | undefined
  deriving DecidableEq

/-- The state of a run of CMD_COPY: the file layer, what was written, the calls made
on the file layer, the address in `dos.dta()`, `dos.echo`, the switch `optY`, the
counter `count`, and the characters the keyboard still holds. -/
structure CopyState (σ : Type) where
  fs : σ
  out : List Out
  calls : List FileCall
  dta : Nat
  echo : Bool
  optY : Bool
  count : Nat
  input : List Char
  status : CopyStatus
  deriving DecidableEq

/-- A call of `WriteOut`. -/
def CopyState.write {σ : Type} (st : CopyState σ) (o : Out) : CopyState σ :=
  { st with out := st.out ++ [o] }

/-- A call on the file layer that leaves the layer in `fs`. -/
def CopyState.call {σ : Type} (st : CopyState σ) (c : FileCall) (fs : σ) : CopyState σ :=
  { st with calls := st.calls ++ [c], fs := fs }

/-- The call `DOS_CloseFile(handle)`, with its result. -/
def CopyState.close {σ : Type} (st : CopyState σ) (env : CopyEnv σ) (handle : Nat) :
    Bool × CopyState σ :=
  ((env.DOS_CloseFile st.fs handle).1,
    st.call (FileCall.CloseFile handle) (env.DOS_CloseFile st.fs handle).2)

/-- The statements `dos.dta(save_dta); … return;`. -/
def CopyState.ret {σ : Type} (st : CopyState σ) (save_dta : Nat) : CopyState σ :=
  { st with dta := save_dta, status := CopyStatus.returned }

/-- The C library function `strstr`: the index of the first occurrence of `needle`. -/
def strstr : List Char → List Char → Option Nat
  | [], needle => if needle = [] then some 0 else none
  | c :: s, needle =>
    if needle.isPrefixOf (c :: s) then some 0 else (strstr s needle).map (· + 1)

/-- Line 1559-1560: a `*.*` at the start of `pathTarget` or behind a backslash is cut
off, with all that follows it. -/
def stripStarDotStar (pathTarget : List Char) : List Char :=
  match strstr pathTarget "*.*".toList with
  | some 0 => []
  | some (t + 1) => if pathTarget.getD t ' ' == '\\' then pathTarget.take (t + 1) else pathTarget
  | none => pathTarget

/-- The search string of line 1576: `sPath`, in double quotes when it holds a blank. -/
def copySearch (sPath : List Char) : List Char :=
  (if (strchr sPath ' ').isSome && sPath.head? != some '"' then ['"'] else []) ++ sPath ++
    (if (strchr sPath ' ').isSome && sPath.getLast? != some '"' then ['"'] else [])

/-- What the loop over the files of one source works with: the source and the target,
`pathSource`, `pathTarget` as the C string it is behind line 1630, `ext`,
`replacementOffset`, `target_is_file`, `save_dta` and the local `echo`. -/
structure CopyCtx where
  source : copysource
  target : copysource
  pathSource : List Char
  pathTarget : List Char
  ext : Option ExtInfo
  replacementOffset : Nat
  target_is_file : Bool
  save_dta : Nat
  echo : Bool

/-- The variables the loop over the files of one source changes: `targetHandle`,
`oldsource.concat` and `second_file_of_current_source`. -/
structure CopyVars where
  targetHandle : Nat
  oldconcat : Bool
  second : Bool
  deriving DecidableEq

/-- Lines 1649-1664: `nameTarget` for one file; `none` where `strcat` receives the null
pointer of a name without a dot. -/
def copyNameTarget (uselfn : Bool) (pathTarget : List Char) (ext : Option ExtInfo)
    (replacementOffset : Nat) (entry : DtaResult) : Option (List Char) :=
  let fname := if uselfn then entry.lname else entry.name
  let nameTarget := '"' :: pathTarget
  let substituted : Option (List Char) :=
    match ext with
    | none => some nameTarget
    | some x =>
      let nameTarget :=
        if x.prevNul then
          let joined := nameTarget ++ fname.drop replacementOffset
          (match strchr joined '.' with
            | some p => joined.take p
            | none => joined) ++ x.ext
        else nameTarget
      if x.nextStar then
        match strchr fname '.' with
        | some i => some (nameTarget ++ fname.drop i)
        | none => none
      else some nameTarget
  substituted.map fun nameTarget =>
    (if nameTarget.getLast? == some '\\' then nameTarget ++ fname else nameTarget) ++ ['"']

/-- Lines 1670-1675: `nametmp`, the source name with the double quotes `nameTarget`
has and it lacks. -/
def copyNameTmp (nameSource nameTarget : List Char) : List Char :=
  if nameSource.length != 0 && nameTarget.length != 0 then
    (if nameSource.head? != some '"' && nameTarget.head? == some '"' then ['"'] else []) ++
      nameSource ++
      (if nameSource.getLast? != some '"' && nameTarget.getLast? == some '"' then ['"']
        else [])
  else nameSource

/-- An answer to the prompt of lines 1691-1699. -/
inductive CopyAnswer where
  | yes
  | no
  | all
  | cancel
  | waiting
  deriving DecidableEq

/-- The loop `while (true)` of lines 1692-1699: characters are read until one of
Ctrl-C, `y`, `n`, `a` (in either case) comes; the characters left are returned. -/
def copyConfirm : List Char → CopyAnswer × List Char
  | [] => (CopyAnswer.waiting, [])
  | c :: rest =>
    if c = '\x03' then (CopyAnswer.cancel, rest)
    else if c = 'y' ∨ c = 'Y' then (CopyAnswer.yes, rest)
    else if c = 'n' ∨ c = 'N' then (CopyAnswer.no, rest)
    else if c = 'a' ∨ c = 'A' then (CopyAnswer.all, rest)
    else copyConfirm rest

/-- The loop `do … while (cont)` of lines 1718-1748, with `toread` and `failed`; `fuel`
bounds its rounds.  A round reads up to `toread` bytes and writes what it has read;
from the console a byte 26 ends the data and error code 77 (Ctrl-C) the command. -/
def copyLoop {σ : Type} (env : CopyEnv σ) (iscon : Bool) (ctx : CopyCtx) (exist : Bool)
    (nameTarget : List Char) (sourceHandle targetHandle : Nat) :
    Nat → Nat → Bool → CopyState σ → Bool × CopyState σ
  | 0, _, failed, st => (failed, { st with status := CopyStatus.noFuel })
  | fuel + 1, toread, failed, st =>
    let r := env.DOS_ReadFile st.fs sourceHandle toread
    let failed := failed || !r.1
    let buffer := r.2.1
    let st := st.call (FileCall.ReadFile sourceHandle toread) r.2.2
    if iscon then
      if env.errorcode st.fs = 77 then
        let st := (st.write (Out.text "^C\r\n")).ret ctx.save_dta
        let st := (st.close env sourceHandle).2
        let st := (st.close env targetHandle).2
        let st :=
          if !exist then
            st.call (FileCall.UnlinkFile nameTarget) (env.DOS_UnlinkFile st.fs nameTarget).2
          else st
        (failed, { st with echo := ctx.echo })
      else
        let data := buffer.takeWhile (· != 26)
        let cont := !buffer.contains 26
        let w := env.DOS_WriteFile st.fs targetHandle data
        let failed := failed || !w.1
        let st := st.call (FileCall.WriteFile targetHandle data) w.2.2
        if cont then
          copyLoop env iscon ctx exist nameTarget sourceHandle targetHandle fuel 0x8000
            failed st
        else (failed, st)
    else
      let w := env.DOS_WriteFile st.fs targetHandle buffer
      let failed := failed || !w.1
      let st := st.call (FileCall.WriteFile targetHandle buffer) w.2.2
      if w.2.1 = 0x8000 then
        copyLoop env iscon ctx exist nameTarget sourceHandle targetHandle fuel w.2.1
          failed st
      else (failed, st)

/-- Lines 1712-1757: the data of the open source go to the open target, both are
closed, the line for the file is written and the file is counted. -/
def copyData {σ : Type} (env : CopyEnv σ) (fuel : Nat) (ctx : CopyCtx) (entry : DtaResult)
    (sourceHandle targetHandle : Nat) (nameTarget : List Char) (special exist : Bool)
    (st : CopyState σ) : CopyState σ :=
  let iscon :=
    env.DOS_FindDevice st.fs entry.name == env.DOS_FindDevice st.fs "con".toList
  let st := if iscon then { st with echo := true } else st
  let r := copyLoop env iscon ctx exist nameTarget sourceHandle targetHandle fuel 0x8000
    false st
  if r.2.status != CopyStatus.running then r.2
  else
    let cs := r.2.close env sourceHandle
    let ct := cs.2.close env targetHandle
    let failed := r.1 || !cs.1 || !ct.1
    let st := ct.2
    let st :=
      if failed then
        st.write (Out.msg "SHELL_CMD_COPY_ERROR" (if env.uselfn then entry.lname else entry.name))
      else if strcmp entry.name entry.lname != 0 && env.uselfn then
        st.write (Out.text (String.mk (" ".toList ++ entry.lname ++ " [".toList ++
          entry.name ++ "]\n".toList)))
      else st.write (Out.msg " %s\n" (if env.uselfn then entry.lname else entry.name))
    if !ctx.source.concat && !special then { st with count := st.count + 1 } else st

/-- The two branches that close the source and write SHELL_CMD_COPY_FAILURE with the
name of the target. -/
def copyFailure {σ : Type} (env : CopyEnv σ) (ctx : CopyCtx) (sourceHandle : Nat)
    (st : CopyState σ) : CopyState σ :=
  (st.close env sourceHandle).2.write (Out.msg "SHELL_CMD_COPY_FAILURE" ctx.target.filename)

/-- Lines 1704-1766: in a run of concatenation the target is opened for reading and
writing and the position moved to its end; otherwise it is created.  Then the data
are copied. -/
def copyTransfer {σ : Type} (env : CopyEnv σ) (fuel : Nat) (ctx : CopyCtx)
    (entry : DtaResult) (v : CopyVars) (sourceHandle : Nat) (nameTarget : List Char)
    (special exist : Bool) (st : CopyState σ) : CopyVars × CopyState σ :=
  if v.oldconcat then
    let o := env.DOS_OpenFile st.fs nameTarget OPEN_READWRITE
    let st := st.call (FileCall.OpenFile nameTarget OPEN_READWRITE) o.2
    match o.1 with
    | none => (v, copyFailure env ctx sourceHandle st)
    | some h =>
      let s := env.DOS_SeekFile st.fs h 0 DOS_SEEK_END
      let st := st.call (FileCall.SeekFile h 0 DOS_SEEK_END) s.2
      if s.1 then
        ({ v with targetHandle := h },
          copyData env fuel ctx entry sourceHandle h nameTarget special exist st)
      else ({ v with targetHandle := h }, copyFailure env ctx sourceHandle st)
  else
    let c := env.DOS_CreateFile st.fs nameTarget 0
    let st := st.call (FileCall.CreateFile nameTarget 0) c.2
    match c.1 with
    | none => (v, copyFailure env ctx sourceHandle st)
    | some h =>
      ({ v with targetHandle := h },
        copyData env fuel ctx entry sourceHandle h nameTarget special exist st)

/-- Lines 1634-1767, the body of the loop over the files for one result of the
enumerator.  The Boolean is the `continue` behind the answer N, which calls
`DOS_FindNext` whatever the attributes of the entry are. -/
def copyFile {σ : Type} (env : CopyEnv σ) (fuel : Nat) (ctx : CopyCtx) (entry : DtaResult)
    (v : CopyVars) (st : CopyState σ) : CopyVars × CopyState σ × Bool :=
  if entry.has DOS_ATTR_DIRECTORY then (v, st, false)
  else
    let nameSource := ctx.pathSource ++ entry.name
    let o := env.DOS_OpenFile st.fs nameSource 0
    let st := st.call (FileCall.OpenFile nameSource 0) o.2
    match o.1 with
    | none => (v, st.write (Out.msg "SHELL_CMD_COPY_FAILURE" ctx.source.filename), false)
    | some sourceHandle =>
      match copyNameTarget env.uselfn ctx.pathTarget ctx.ext ctx.replacementOffset entry with
      | none => (v, { st with status := CopyStatus.undefined }, false)
      | some nameTarget =>
        let special :=
          v.second && ctx.target_is_file && (strchr ctx.target.filename '*').isNone
        let v : CopyVars := ⟨v.targetHandle, v.oldconcat || special, true⟩
        let nametmp := copyNameTmp nameSource nameTarget
        if !v.oldconcat &&
            (strcasecmpEq nameSource nameTarget || strcasecmpEq nametmp nameTarget) then
          let st := (st.write (Out.text "File cannot be copied onto itself\r\n")).ret
            ctx.save_dta
          let st := (st.close env sourceHandle).2
          let st := if v.targetHandle != 0 then (st.close env v.targetHandle).2 else st
          (v, st, false)
        else
          let exist := (env.DOS_GetFileAttr st.fs nameTarget).isSome
          if env.DOS_FindDevice st.fs nameTarget == env.DOS_DEVICES && exist && !st.optY &&
              !v.oldconcat then
            let st := { st with echo := false }.write
              (Out.msg "SHELL_CMD_COPY_CONFIRM" nameTarget)
            let answer := copyConfirm st.input
            let st := { st with input := answer.2 }
            match answer.1 with
            | CopyAnswer.waiting => (v, { st with status := CopyStatus.waiting }, false)
            | CopyAnswer.cancel =>
              let st := (st.write (Out.text "^C\r\n")).ret ctx.save_dta
              (v, { (st.close env sourceHandle).2 with echo := ctx.echo }, false)
            | CopyAnswer.no =>
              (v, ((st.write (Out.text "N\r\n")).close env sourceHandle).2, true)
            | CopyAnswer.yes =>
              let r := copyTransfer env fuel ctx entry v sourceHandle nameTarget special exist
                (st.write (Out.text "Y\r\n"))
              (r.1, r.2, false)
            | CopyAnswer.all =>
              let r := copyTransfer env fuel ctx entry v sourceHandle nameTarget special exist
                { st.write (Out.text "A\r\n") with optY := true }
              (r.1, r.2, false)
          else
            let r := copyTransfer env fuel ctx entry v sourceHandle nameTarget special exist st
            (r.1, r.2, false)

/-- The loop `while (ret)` of lines 1633-1771 over the results of the enumerator; a
device entry ends it. -/
def copyFiles {σ : Type} (env : CopyEnv σ) (fuel : Nat) (ctx : CopyCtx) :
    List DtaResult → CopyVars → CopyState σ → CopyVars × CopyState σ
  | [], v, st => (v, st)
  | entry :: entries, v, st =>
    let r := copyFile env fuel ctx entry v st
    if r.2.1.status != CopyStatus.running then (r.1, r.2.1)
    else if r.2.2 || !entry.has DOS_ATTR_DEVICE then copyFiles env fuel ctx entries r.1 r.2.1
    else (r.1, r.2.1)

/-- Lines 1539-1771: the body of the loop over the sources for one source that is
not skipped. -/
def copySource {σ : Type} (env : CopyEnv σ) (fuel : Nat) (save_dta : Nat)
    (oldsource source target : copysource) (st : CopyState σ) : CopyState σ :=
  match env.DOS_Canonicalize st.fs source.filename with
  | none => (st.write (Out.msg "SHELL_ILLEGAL_PATH" [])).ret save_dta
  | some pathSourcePre =>
    let quoted := if env.uselfn then '"' :: pathSourcePre ++ ['"'] else pathSourcePre
    let pathSource :=
      match strrchr quoted '\\' with
      | some pos => quoted.take (pos + 1)
      | none => quoted
    match env.DOS_Canonicalize st.fs target.filename with
    | none => (st.write (Out.msg "SHELL_ILLEGAL_PATH" [])).ret save_dta
    | some pathTarget =>
      let pathTarget := stripStarDotStar pathTarget
      let dir : List Char × Bool :=
        if pathTarget.getLast? != some '\\' then
          match env.findAll st.fs pathTarget (maskWithout DOS_ATTR_VOLUME) with
          | entry :: _ =>
            if entry.has DOS_ATTR_DIRECTORY then (pathTarget ++ ['\\'], false)
            else (pathTarget, true)
          | [] => (pathTarget, true)
        else (pathTarget, false)
      let found :=
        match env.DOS_GetSFNPath st.fs source.filename false with
        | some sPath => env.findAll st.fs (copySearch sPath) (maskWithout DOS_ATTR_VOLUME)
        | none => []
      match found with
      | [] => (st.write (Out.msg "SHELL_CMD_FILE_NOT_FOUND" source.filename)).ret save_dta
      | first :: others =>
        match copyExt dir.1 source.filename with
        | ExtResult.illegalPath => (st.write (Out.msg "SHELL_ILLEGAL_PATH" [])).ret save_dta
        | ExtResult.assertion => { st with status := CopyStatus.undefined }
        | ExtResult.ok cString ext replacementOffset =>
          (copyFiles env fuel
            ⟨source, target, pathSource, cString, ext, replacementOffset, dir.2, save_dta,
              st.echo⟩
            (first :: others) ⟨0, oldsource.concat, false⟩ st).2

/-- The loop `while (sources.size())` of lines 1527-1772; `source` is the source of
the round before.  The first name of a run `a+b+c` with no target is not copied: it
becomes the target. -/
def copySources {σ : Type} (env : CopyEnv σ) (fuel : Nat) (save_dta : Nat) :
    List copysource → copysource → copysource → CopyState σ → CopyState σ
  | [], _, _, st => st
  | next :: sources, source, target, st =>
    if !source.concat && next.concat && target.concat then
      copySources env fuel save_dta sources next next st
    else
      let st := copySource env fuel save_dta source next target st
      if st.status != CopyStatus.running then st
      else copySources env fuel save_dta sources next target st

/-- The handler CMD_COPY.  The switches are scanned by functions that are not among
the sources: `optY` is the outcome of lines 1427-1437, `rem` what `ScanCMDRemain`
returns, `words` the non-empty words `StripArg` cuts off the arguments.  `input` are
the characters of the keyboard, `dta` and `echo` the values of `dos.dta()` and
`dos.echo` at the entry, `fuel` the bound on the rounds of each copy loop. -/
def CMD_COPY {σ : Type} (env : CopyEnv σ) (fuel : Nat) (optY : Bool)
    (rem : Option (List Char)) (words : List (List Char)) (input : List Char)
    (dta : Nat) (echo : Bool) (fs : σ) : CopyState σ :=
  let st : CopyState σ := ⟨fs, [], [], env.tempdta, echo, optY, 0, input, CopyStatus.running⟩
  match rem with
  | some r => (st.write (Out.msg "SHELL_ILLEGAL_SWITCH" r)).ret dta
  | none =>
    let sources := copyParse env fs words
    if sources.length == 0 || (sources.headD ⟨[], false⟩).filename.length == 0 then
      (st.write (Out.msg "SHELL_MISSING_PARAMETER" [])).ret dta
    else
      let st := copySources env fuel dta (copyTarget sources).1 ⟨[], false⟩
        (copyTarget sources).2 st
      if st.status != CopyStatus.running then st
      else
        { (st.write (Out.msg "SHELL_CMD_COPY_SUCCESS" (Nat.toDigits 10 st.count))).ret dta
            with echo := env.shellEcho }

/-! ### A file layer in memory -/

/-- Modelled from the spec: an open file of the file layer of section 6 (`openFile`,
`createFile`), which is not among the sources: the path of the file and the
position of the next read or write. -/
structure MemHandle where
  path : List Char
  pos : Nat
  deriving DecidableEq

/-- Modelled from the spec: the state of the file layer of section 6, which is not
among the sources: the files of one drive with their bytes, and the table of
handles (handle `h` is entry `h - 5`; a closed handle is `none`). -/
structure MemFs where
  files : List (List Char × List Nat)
  handles : List (Option MemHandle)
  deriving DecidableEq

/-- Modelled from the spec: the path canonicalizer of section 6
(`canonicalize(raw)`), which is not among the sources: double quotes are dropped,
letters become capitals, and a name without the drive is put on `C:\`. -/
def memKey (p : List Char) : List Char :=
  if "C:\\".toList.isPrefixOf ((p.filter (· != '"')).map toupper) then
    (p.filter (· != '"')).map toupper
  else "C:\\".toList ++ (p.filter (· != '"')).map toupper

/-- Modelled from the spec: the bytes of the file at a canonical path. -/
def memLookup (files : List (List Char × List Nat)) (key : List Char) :
    Option (List Nat) :=
  (files.find? (fun f => f.1 == key)).map (·.2)

/-- Modelled from the spec: the files with the file at `key` holding `bytes`. -/
def memSet (key : List Char) (bytes : List Nat) (files : List (List Char × List Nat)) :
    List (List Char × List Nat) :=
  (key, bytes) :: files.filter (fun f => f.1 != key)

/-- Modelled from the spec: the directory of a canonical path: the path up to its
last backslash, the backslash included. -/
def memDir (key : List Char) : List Char :=
  match strrchr key '\\' with
  | some i => key.take (i + 1)
  | none => []

/-- Modelled from the spec: the name at the end of a canonical path: what follows its
last backslash. -/
def memName (key : List Char) : List Char :=
  match strrchr key '\\' with
  | some i => key.drop (i + 1)
  | none => key

/-- Modelled from the spec: the `DirectoryEntry` the enumerator of section 6 returns for
a file: its name within its directory, its size, the archive attribute. -/
def memEntry (f : List Char × List Nat) : DtaResult :=
  ⟨memName f.1, memName f.1, f.2.length, 0, 0, DOS_ATTR_ARCHIVE⟩

/-- Modelled from the spec: one segment of a `WildcardPattern` of section 3 against
one segment of a name: `*` consumes the remainder of the segment, `?` exactly one
character, every other character matches itself, whatever the case. -/
def wildSegment : List Char → List Char → Bool
  | [], name => name.isEmpty
  | c :: pattern, name =>
    if c = '*' then true
    else
      match name with
      | [] => false
      | d :: rest => (c == '?' || toupper c == toupper d) && wildSegment pattern rest

/-- Modelled from the spec: the two segments of a name or of a pattern, in front of
its last dot and behind it; without a dot the second segment is empty. -/
def wildSplit (name : List Char) : List Char × List Char :=
  match strrchr name '.' with
  | some i => (name.take i, name.drop (i + 1))
  | none => (name, [])

/-- Modelled from the spec: wild-card matching of the enumerator on a name of a
directory, segment by segment. -/
def wildMatch (pattern name : List Char) : Bool :=
  wildSegment (wildSplit pattern).1 (wildSplit name).1 &&
    wildSegment (wildSplit pattern).2 (wildSplit name).2

/-- Modelled from the spec: the enumerator of section 6 (`findFirst`, `findNext`,
`getResult`) as the list of its results: the file at the path, or with wild cards the
files of the directory of the pattern whose names match its last segment. -/
def memFindAll (fs : MemFs) (pattern : List Char) (_mask : Nat) : List DtaResult :=
  if hasWildcard (memKey pattern) then
    (fs.files.filter (fun f =>
      memDir f.1 == memDir (memKey pattern) &&
        wildMatch (memName (memKey pattern)) (memName f.1))).map memEntry
  else
    match memLookup fs.files (memKey pattern) with
    | some bytes => [memEntry (memKey pattern, bytes)]
    | none => []

/-- Modelled from the spec: the open file behind a handle. -/
def memHandle (fs : MemFs) (h : Nat) : Option MemHandle :=
  if h < 5 then none else fs.handles.getD (h - 5) none

/-- Modelled from the spec: the handle table with `h` standing for `x`. -/
def memSetHandle (fs : MemFs) (h : Nat) (x : Option MemHandle) : MemFs :=
  ⟨fs.files, fs.handles.set (h - 5) x⟩

/-- Modelled from the spec: `openFile` of section 6: an existing file gets the next
handle, at position 0. -/
def memOpen (fs : MemFs) (p : List Char) (_flags : Nat) : Option Nat × MemFs :=
  match memLookup fs.files (memKey p) with
  | some _ => (some (fs.handles.length + 5), ⟨fs.files, fs.handles ++ [some ⟨memKey p, 0⟩]⟩)
  | none => (none, fs)

/-- Modelled from the spec: `createFile` of section 6: the file is there and empty
afterwards, and open at position 0. -/
def memCreate (fs : MemFs) (p : List Char) (_attributes : Nat) : Option Nat × MemFs :=
  (some (fs.handles.length + 5),
    ⟨memSet (memKey p) [] fs.files, fs.handles ++ [some ⟨memKey p, 0⟩]⟩)

/-- Modelled from the spec: `seekToEnd` of section 6, with the seeks from the start
(type 0) and from the position (type 1) beside it. -/
def memSeek (fs : MemFs) (h pos type : Nat) : Bool × MemFs :=
  match memHandle fs h with
  | some x =>
    match memLookup fs.files x.path with
    | some bytes =>
      if type = 0 then (true, memSetHandle fs h (some ⟨x.path, pos⟩))
      else if type = 1 then (true, memSetHandle fs h (some ⟨x.path, x.pos + pos⟩))
      else if type = 2 then (true, memSetHandle fs h (some ⟨x.path, bytes.length + pos⟩))
      else (false, fs)
    | none => (false, fs)
  | none => (false, fs)

/-- Modelled from the spec: `readBytes` of section 6: up to `toread` bytes from the
position, which moves behind them. -/
def memRead (fs : MemFs) (h toread : Nat) : Bool × List Nat × MemFs :=
  match memHandle fs h with
  | some x =>
    match memLookup fs.files x.path with
    | some bytes =>
      (true, (bytes.drop x.pos).take toread,
        memSetHandle fs h (some ⟨x.path, x.pos + ((bytes.drop x.pos).take toread).length⟩))
    | none => (false, [], fs)
  | none => (false, [], fs)

/-- Modelled from the spec: `writeBytes` of section 6: the bytes go to the position,
over what is there, and the position moves behind them. -/
def memWrite (fs : MemFs) (h : Nat) (data : List Nat) : Bool × Nat × MemFs :=
  match memHandle fs h with
  | some x =>
    match memLookup fs.files x.path with
    | some bytes =>
      (true, data.length,
        memSetHandle
          ⟨memSet x.path (bytes.take x.pos ++ data ++ bytes.drop (x.pos + data.length))
            fs.files, fs.handles⟩
          h (some ⟨x.path, x.pos + data.length⟩))
    | none => (false, 0, fs)
  | none => (false, 0, fs)

/-- Modelled from the spec: `closeFile` of section 6. -/
def memClose (fs : MemFs) (h : Nat) : Bool × MemFs :=
  match memHandle fs h with
  | some _ => (true, memSetHandle fs h none)
  | none => (false, fs)

/-- Modelled from the spec: `unlink` of section 6. -/
def memUnlink (fs : MemFs) (p : List Char) : Bool × MemFs :=
  match memLookup fs.files (memKey p) with
  | some _ => (true, ⟨fs.files.filter (fun f => f.1 != memKey p), fs.handles⟩)
  | none => (false, fs)

/-- Modelled from the spec: the collaborators of section 6 that CMD_COPY calls, on the
files in memory: short names only, the one device `CON` (number 0 of 10), no error
code. -/
def memEnv : CopyEnv MemFs :=
  { uselfn := false
    shellEcho := true
    tempdta := 0x2000
    DOS_DEVICES := 10
    DOS_Canonicalize := fun _ p => some (memKey p)
    DOS_GetSFNPath := fun _ p _ => some (memKey p)
    findAll := memFindAll
    DOS_GetFileAttr := fun fs p => (memLookup fs.files (memKey p)).map fun _ => DOS_ATTR_ARCHIVE
    DOS_FindDevice := fun _ p => if memKey p == "C:\\CON".toList then 0 else 10
    DOS_OpenFile := memOpen
    DOS_CreateFile := memCreate
    DOS_SeekFile := memSeek
    DOS_ReadFile := memRead
    DOS_WriteFile := memWrite
    DOS_CloseFile := memClose
    DOS_UnlinkFile := memUnlink
    errorcode := fun _ => 0 }

/-- Three files for the examples. -/
def memExample : MemFs :=
  ⟨[("C:\\A.TXT".toList, [1, 2]), ("C:\\B.TXT".toList, [3]), ("C:\\C.TXT".toList, [4, 5])], []⟩

/-- The characters that have a meaning of their own in an argument of COPY or in a
path. -/
def copySpecial : List Char := ['"', '+', '*', '?', ':', '\\', ' ']

/-- A plain file name: not empty, in capitals, free of the special characters, and
not the name of the console device. -/
def plainName (n : List Char) : Prop :=
  n ≠ [] ∧ n.map toupper = n ∧ (∀ c ∈ n, c ∉ copySpecial) ∧ n ≠ "CON".toList

instance plainNameDecidable (n : List Char) : Decidable (plainName n) := by
  unfold plainName
  exact inferInstance

/-- A name as it may stand in a word of the command line: free of the special
characters, and a plain name once its letters are capitals. -/
def wordName (n : List Char) : Prop :=
  (∀ c ∈ n, c ∉ copySpecial) ∧ plainName (n.map toupper)

instance wordNameDecidable (n : List Char) : Decidable (wordName n) := by
  unfold wordName
  exact inferInstance

/-- The loop over the files of `COPY A.TXT a.txt` on the three files. -/
def copyExampleCtx : CopyCtx :=
  ⟨⟨"A.TXT".toList, false⟩, ⟨"a.txt".toList, false⟩, "C:\\".toList, "C:\\A.TXT".toList, none, 0,
    true, 0x1000, true⟩

/-- The state in which that loop starts. -/
def copyExampleState : CopyState MemFs :=
  ⟨memExample, [], [], 0x2000, true, false, 0, [], CopyStatus.running⟩

/-! ## DEL: what the prompt echoes -/

/-- The characters a list of outputs echoes with `DOS_WriteFile`, in order. -/
def echoed : List Out → List Char
  | [] => []
  | Out.echo c :: os => c :: echoed os
  | _ :: os => echoed os

/-- The characters the prompt reads from `input` when it starts in state `s`: the
input without what the run leaves unread. -/
def sureConsumed (s : PromptState) (input : List Char) : List Char :=
  input.take (input.length - (sureRun s input).2.2.length)

/-- The amended claim in its own words: of the characters the prompt reads, those read
in `AwaitingInput` that are none of Enter, Ctrl-C, Tab and Backspace. -/
def sureFirstChars : PromptState → List Char → List Char
  | _, [] => []
  | s, c :: cs =>
    if s.resolved then []
    else
      (if s = PromptState.AwaitingInput ∧ c ≠ '\r' ∧ c ≠ '\x03' ∧ c ≠ '\t' ∧ c ≠ '\x08'
        then [c] else []) ++ sureFirstChars (sureStep s c).1 cs

/-- The amended claim in its own words: what the prompt writes on the character `c`
read in the state `s`.  Enter writes a line feed, and the question again where it
leads to a retry (in `AwaitingInput` and behind a character that is no answer);
Ctrl-C writes `^C`; in `AwaitingInput` Tab and Backspace write nothing and every
other character is echoed; behind a first character Backspace writes the erase
sequence and every other character nothing. -/
def sureWrites (s : PromptState) (c : Char) : List Out :=
  if c = '\r' then
    Out.text "\n" ::
      (if s = PromptState.AwaitingInput ∨ s = PromptState.AfterOther then
        [Out.msg "SHELL_CMD_DEL_SURE" []] else [])
  else if c = '\x03' then [Out.text "^C\n"]
  else if s = PromptState.AwaitingInput then
    (if c = '\t' ∨ c = '\x08' then [] else [Out.echo c])
  else if c = '\x08' then [Out.text "\x08 \x08"]
  else []

/-- What the amended claim has the prompt write on the characters it reads from
`input` when it starts in the state `s`. -/
def sureWritten : PromptState → List Char → List Out
  | _, [] => []
  | s, c :: cs =>
    if s.resolved then []
    else sureWrites s c ++ sureWritten (sureStep s c).1 cs

/-! ## DIR: the numbers (FormatNumber) -/

/-- The conversion `%d` of `sprintf` for a value that is not negative: its decimal
digits. -/
def printD (n : Nat) : List Char := Nat.toDigits 10 n

/-- The conversion `%03d` of `sprintf` for a value that is not negative: its decimal
digits, filled with zeros from the left to three characters. -/
def print03D (n : Nat) : List Char :=
  List.replicate (3 - (Nat.toDigits 10 n).length) '0' ++ Nat.toDigits 10 n

/-- The function `FormatNumber` of shell_cmds.cpp on a `Bit32u`: the number is cut into
groups of three decimal digits, and the groups from the first that is not zero on are
printed with commas between them. -/
def FormatNumber (num : Nat) : List Char :=
  let numb := num % 1000
  let num := num / 1000
  let numk := num % 1000
  let num := num / 1000
  let numm := num % 1000
  let num := num / 1000
  let numg := num
  if numg ≠ 0 then
    printD numg ++ [','] ++ print03D numm ++ [','] ++ print03D numk ++ [','] ++ print03D numb
  else if numm ≠ 0 then printD numm ++ [','] ++ print03D numk ++ [','] ++ print03D numb
  else if numk ≠ 0 then printD numk ++ [','] ++ print03D numb
  else printD numb

/-- A comma behind every third character of a list that is not the last. -/
def commaEveryThird : List Char → List Char
  | a :: b :: c :: d :: rest => a :: b :: c :: ',' :: commaEveryThird (d :: rest)
  | l => l

/-- The claim in its own words: the digits with a comma between each group of three
digits counted from the right. -/
def groupThousands (digits : List Char) : List Char :=
  (commaEveryThird digits.reverse).reverse

/-! ## GOTO (CMD_GOTO) -/

/-- The loop of lines 1958-1963 of CMD_GOTO, which writes the terminator over the first
blank or tab: the label ends there. -/
def gotoLabelEnd : List Char → List Char
  | [] => []
  | c :: cs => if c = ' ' ∨ c = '\t' then [] else c :: gotoLabelEnd cs

/-- Lines 1954-1963 of CMD_GOTO: the label, from the arguments. -/
def gotoLabel (args : List Char) : List Char :=
  gotoLabelEnd
    (match StripSpaces args with
      | ':' :: rest => rest
      | stripped => stripped)

/-- What a call of CMD_GOTO does: the labels handed to `bf->Goto`, and what is
written. -/
structure GotoRun where
  calls : List (List Char)
  out : List Out
  deriving DecidableEq

/-- The handler CMD_GOTO from line 1954 on (the macro `HELP` needs `ScanCMDBool`, which
is not among the sources).  `bf` is the batch file that is active, as its method
`Goto`, which tells whether the label exists; `none` when no batch file is active. -/
def CMD_GOTO (bf : Option (List Char → Bool)) (args : List Char) : GotoRun :=
  match bf with
  | none => ⟨[], []⟩
  | some Goto =>
    if (gotoLabel args).length = 0 then ⟨[], [Out.msg "SHELL_CMD_GOTO_MISSING_LABEL" []]⟩
    else if Goto (gotoLabel args) then ⟨[gotoLabel args], []⟩
    else ⟨[gotoLabel args], [Out.msg "SHELL_CMD_GOTO_LABEL_NOT_FOUND" (gotoLabel args)]⟩

/-- The claim in its own words: the argument with the leading white space, a leading
colon and the trailing white space removed. -/
def gotoLabelClaimed (args : List Char) : List Char :=
  ((match args.dropWhile isspace with
    | ':' :: rest => rest
    | stripped => stripped).reverse.dropWhile isspace).reverse

/-- The amended claim in its own words: the argument with the leading white space and a
leading colon removed, up to its first blank or tab. -/
def gotoLabelAmended (args : List Char) : List Char :=
  (match args.dropWhile isspace with
    | ':' :: rest => rest
    | stripped => stripped).takeWhile (fun c => c != ' ' && c != '\t')

/-! ## RENAME: the vector of names and the renaming loop (CMD_RENAME, lines 493-616) -/

/-- What DOS hands to lines 493-616 of CMD_RENAME: the enumerator as the list of its
results for a search string and mask (empty when find-first fails), and `DOS_Rename`
on a file system of type `σ`, with its success.  The limits of the names and the
stray pointer difference of `renameDest` come along. -/
structure RenEnv (σ : Type) where
  uselfn : Bool
  lim : NameLimits
  crossBound : Nat
  findAll : σ → List Char → Nat → List DtaResult
  DOS_Rename : σ → List Char → List Char → Bool × σ

/-- The expression `(s[0]!='"' ? "\"" : "") + s + (s[strlen(s)-1]!='"' ? "\"" : "")` of
lines 594-595. -/
def renameQuote (s : List Char) : List Char :=
  (if s.head? != some '"' then ['"'] else []) ++ s ++
    (if s.getLast? != some '"' then ['"'] else [])

/-- The test of line 510: the entry is a directory named `.` or `..`. -/
def renameSkips (entry : DtaResult) : Bool :=
  entry.has DOS_ATTR_DIRECTORY &&
    (strcmp entry.name ".".toList == 0 || strcmp entry.name "..".toList == 0)

/-- Lines 513-515: `sargs`, the directory of the source and the name of the entry. -/
def renameSargs {σ : Type} (env : RenEnv σ) (dir_source : List Char) (entry : DtaResult) :
    List Char :=
  (if env.uselfn then removeChar dir_source '"' else dir_source) ++
    (if env.uselfn then entry.lname else entry.name)

/-- Lines 591-593: `targs`, the directory of the source and the destination name. -/
def renameTargs {σ : Type} (env : RenEnv σ) (dir_source target : List Char)
    (entry : DtaResult) : List Char :=
  (if env.uselfn then removeChar dir_source '"' else dir_source) ++
    renameDest env.lim env.crossBound env.uselfn target entry.name entry.lname

/-- The first string line 594 pushes: the source path. -/
def renameSourcePath {σ : Type} (env : RenEnv σ) (dir_source : List Char)
    (entry : DtaResult) : List Char :=
  if env.uselfn then renameQuote (renameSargs env dir_source entry)
  else renameSargs env dir_source entry

/-- The second string, of line 595: the target path. -/
def renameTargetPath {σ : Type} (env : RenEnv σ) (dir_source target : List Char)
    (entry : DtaResult) : List Char :=
  if env.uselfn then renameQuote (renameTargs env dir_source target entry)
  else renameTargs env dir_source target entry

/-- The third string, of line 596: the name shown in the error message, `sargs`
without a leading `.\`. -/
def renameDisplay {σ : Type} (env : RenEnv σ) (dir_source : List Char)
    (entry : DtaResult) : List Char :=
  if decide ((renameSargs env dir_source entry).length > 2) &&
      (renameSargs env dir_source entry).head? == some '.' &&
      (renameSargs env dir_source entry).getD 1 ' ' == '\\' then
    (renameSargs env dir_source entry).drop 2
  else renameSargs env dir_source entry

/-- The loop `do … while (DOS_FindNext())` of lines 507-599 over the results of the
enumerator: the vector `sources`. -/
def renameCollect {σ : Type} (env : RenEnv σ) (dir_source target : List Char) :
    List DtaResult → List (List Char) → List (List Char)
  | [], sources => sources
  | entry :: entries, sources =>
    if !renameSkips entry then
      renameCollect env dir_source target entries
        (((sources ++ [renameSourcePath env dir_source entry]) ++
          [renameTargetPath env dir_source target entry]) ++
          [renameDisplay env dir_source entry])
    else renameCollect env dir_source target entries sources

/-- The state of the renaming loop: the file system, what was written, the calls of
`DOS_Rename` made, the index the iterator `source` stands at, and the number of times
one of the two `break`s was taken. -/
structure RenState (σ : Type) where
  fs : σ
  out : List Out
  calls : List (List Char × List Char)
  pos : Nat
  breaks : Nat

/-- The loop of lines 603-612 over what is left of the vector from the iterator on:
`oname`, then `nname`, then `fname` are taken, the iterator moving on by one each
time, with a `break` when it reaches the end in between. -/
def renameLoop {σ : Type} (env : RenEnv σ) : List (List Char) → RenState σ → RenState σ
  | [], st => st
  | [_], st => { st with pos := st.pos + 1, breaks := st.breaks + 1 }
  | [_, _], st => { st with pos := st.pos + 2, breaks := st.breaks + 1 }
  | oname :: nname :: fname :: rest, st =>
    renameLoop env rest
      { fs := (env.DOS_Rename st.fs oname nname).2
        out :=
          if !(env.DOS_Rename st.fs oname nname).1 then
            st.out ++ [Out.msg "SHELL_CMD_RENAME_ERROR" fname]
          else st.out
        calls := st.calls ++ [(oname, nname)]
        pos := st.pos + 3
        breaks := st.breaks }

/-- The search string of line 499: `pfull`, in double quotes with long names. -/
def renameSearch (uselfn : Bool) (pfull : List Char) : List Char :=
  (if uselfn && decide (pfull.length ≠ 0) && pfull.head? != some '"' then ['"'] else [])
    ++ pfull ++
  (if uselfn && decide (pfull.length ≠ 0) && pfull.getLast? != some '"' then ['"'] else [])

/-- The attribute mask of line 499: directories are left out when the first argument
holds a wild card. -/
def renameMask (arg1 : List Char) : Nat :=
  if (strchr arg1 '*').isSome || (strchr arg1 '?').isSome then
    maskWithout (DOS_ATTR_VOLUME ||| DOS_ATTR_DIRECTORY)
  else maskWithout DOS_ATTR_VOLUME

/-- Lines 493-616 of CMD_RENAME: `pfull` is the search string (`spath` and `pattern`),
`arg1` the first argument, `dir_source` and `target` as lines 424-469 leave them.
`dos.dta()` holds `dos.tables.tempdta` in between and at the return `save_dta`
again, the second component of the result. -/
def renameRun {σ : Type} (env : RenEnv σ) (arg1 pfull dir_source target : List Char)
    (save_dta : Nat) (fs : σ) : RenState σ × Nat :=
  match env.findAll fs (renameSearch env.uselfn pfull) (renameMask arg1) with
  | [] => (⟨fs, [Out.msg "SHELL_CMD_RENAME_ERROR" arg1], [], 0, 0⟩, save_dta)
  | first :: others =>
    if (renameCollect env dir_source target (first :: others) []).isEmpty then
      (⟨fs, [Out.msg "SHELL_CMD_RENAME_ERROR" arg1], [], 0, 0⟩, save_dta)
    else
      (renameLoop env (renameCollect env dir_source target (first :: others) [])
        ⟨fs, [], [], 0, 0⟩, save_dta)

/-- An environment for examples: short names, the usual limits, an enumerator that
finds `entries`, and a `DOS_Rename` that fails on the sources in `locked`; the file
system is the list of renamings done.  The stray difference `star - text2` of two
pointers into the arrays `tname2` and `text2` of 256 bytes each, read as an unsigned
number, is beyond both name limits wherever the arrays lie; it is taken as
`2^64 - 512`. -/
def renExampleEnv (entries : List DtaResult) (locked : List (List Char)) :
    RenEnv (List (List Char × List Char)) :=
  { uselfn := false
    lim := dosLimits
    crossBound := 2 ^ 64 - 512
    findAll := fun _ _ _ => entries
    DOS_Rename := fun fs o n => if o ∈ locked then (false, fs) else (true, fs ++ [(o, n)]) }

/-- The first step of the segment rule of the claim: every `?` at an index the source
segment has is replaced by the character of the source segment at that index; `i` is
the index of the first character of the list. -/
def questionFill (src : List Char) : Nat → List Char → List Char
  | _, [] => []
  | i, c :: cs =>
    (if c = '?' ∧ i < src.length then src.getD i c else c) :: questionFill src (i + 1) cs

/-- The segment rule `S` of the claim: in the part of the template segment in front of
its first `*` the question marks are filled from the source segment; with a `*` the
rest of the source segment from that position follows; the question marks left are
deleted. -/
def segmentRule (seg src : List Char) : List Char :=
  removeChar
    (questionFill src 0 (seg.takeWhile (· != '*')) ++
      (if '*' ∈ seg then src.drop (seg.takeWhile (· != '*')).length else []))
    '?'

/-- The destination of the claim: template and matched name are split at their last dot
and the segment rule is applied to the two halves. -/
def renameClaimed (template src : List Char) : List Char :=
  match strrchr template '.', strrchr src '.' with
  | some d2, some d1 =>
    segmentRule (template.take d2) (src.take d1) ++ ['.'] ++
      segmentRule (template.drop (d2 + 1)) (src.drop (d1 + 1))
  | _, _ => []

/-! ## COPY: the offset of the replacement -/

/-- The member function the field `process` points to. -/
inductive EnvelopeProcess where
  | Apply
  | Skip
  deriving DecidableEq

/-- The fields of the class `Envelope` that envelope.cpp reads and writes. -/
structure Envelope where
  process : EnvelopeProcess
  expire_after_frames : Nat
  frames_done : Nat
  edge : Nat
  edge_limit : Nat
  edge_increment : Nat
  deriving DecidableEq

/-- What envelope.cpp takes from envelope.h and support.h, which are not among the
sources: the number of bits of the unsigned fields of `Envelope` (`edge = 0u`,
`frames_done = 0u`), the number of bits of `intptr_t`, and the helpers `ceil_udivide`
and `clamp`. -/
structure EnvelopeEnv where
  fieldBits : Nat
  ptrBits : Nat
  ceil_udivide : Nat → Nat → Nat
  clamp : Int → Int → Int → Int

/-- The samples a call of `Apply` may touch: `prev[0]`, `prev[1]`, `next[0]` and
`next[1]`.  A sample is an `intptr_t`, taken as the integer it stands for. -/
structure Frame where
  prev0 : Int
  prev1 : Int
  next0 : Int
  next1 : Int
  deriving DecidableEq

/-- The conversion of an unsigned value to an `intptr_t` of `bits` bits. -/
def toIntptr (bits n : Nat) : Int :=
  if n % 2 ^ bits < 2 ^ (bits - 1) then ((n % 2 ^ bits : Nat) : Int)
  else ((n % 2 ^ bits : Nat) : Int) - ((2 ^ bits : Nat) : Int)

/-- Lines 27-32: `Envelope::Reactivate`. -/
def Envelope.Reactivate (e : Envelope) : Envelope :=
  { e with edge := 0, frames_done := 0, process := EnvelopeProcess.Apply }

/-- Lines 34-64: `Envelope::Update`; `none` stands for a failing assertion.  The two
products are products of `uint32_t`, and `expansion_phase_frames` is a `uint32_t`. -/
def Envelope.Update (env : EnvelopeEnv) (e : Envelope)
    (frame_rate peak_magnitude expansion_phase_ms expire_after_seconds : Nat) :
    Option Envelope :=
  if frame_rate = 0 ∨ peak_magnitude = 0 ∨ expansion_phase_ms = 0 then some e
  else
    let expire_after_frames := (expire_after_seconds * frame_rate) % 2 ^ 32 % 2 ^ env.fieldBits
    if expire_after_frames = 0 then none
    else
      let edge_limit := peak_magnitude % 2 ^ env.fieldBits
      let expansion_phase_frames :=
        env.ceil_udivide ((frame_rate * expansion_phase_ms) % 2 ^ 32) 1000 % 2 ^ 32
      if expansion_phase_frames = 0 then none
      else
        some { e with
          expire_after_frames := expire_after_frames
          edge_limit := edge_limit
          edge_increment :=
            env.ceil_udivide peak_magnitude expansion_phase_frames % 2 ^ env.fieldBits }

/-- Lines 66-73: `Envelope::ClampSample`: the sample afterwards and the result. -/
def Envelope.ClampSample (env : EnvelopeEnv) (e : Envelope) (sample lip : Int) : Int × Bool :=
  if sample.natAbs > e.edge then (env.clamp sample (-lip) lip, true) else (sample, false)

/-- Line 85 of `Apply`: `lip`, the sum of two fields as an `intptr_t`. -/
def Envelope.lip (env : EnvelopeEnv) (e : Envelope) : Int :=
  toIntptr env.ptrBits ((e.edge + e.edge_increment) % 2 ^ env.fieldBits)

/-- Lines 86-89 of `Apply`: the samples afterwards and `on_lip`.  The operators `||`
and `&&` do not evaluate their right side when the left side decides. -/
def Envelope.onLip (env : EnvelopeEnv) (e : Envelope) (is_stereo is_interpolated : Bool)
    (fr : Frame) : Frame × Bool :=
  let lip := e.lip env
  if (e.ClampSample env fr.prev0 lip).2 then
    ({ fr with prev0 := (e.ClampSample env fr.prev0 lip).1 }, true)
  else if is_stereo && (e.ClampSample env fr.prev1 lip).2 then
    ({ fr with prev1 := (e.ClampSample env fr.prev1 lip).1 }, true)
  else if is_interpolated then
    if (e.ClampSample env fr.next0 lip).2 then
      ({ fr with next0 := (e.ClampSample env fr.next0 lip).1 }, true)
    else if is_stereo && (e.ClampSample env fr.next1 lip).2 then
      ({ fr with next1 := (e.ClampSample env fr.next1 lip).1 }, true)
    else (fr, false)
  else (fr, false)

/-- Line 81 of `Apply`: the envelope has not started and `prev[0]` is silent. -/
def Envelope.idle (e : Envelope) (fr : Frame) : Bool :=
  fr.prev0 == 0 && e.frames_done == 0

/-- Lines 75-98: `Envelope::Apply`: the envelope and the samples afterwards. -/
def Envelope.Apply (env : EnvelopeEnv) (e : Envelope) (is_stereo is_interpolated : Bool)
    (fr : Frame) : Envelope × Frame :=
  if e.idle fr then (e, fr)
  else
    let r := e.onLip env is_stereo is_interpolated fr
    let edge := if r.2 then (e.edge + e.edge_increment) % 2 ^ env.fieldBits else e.edge
    let frames_done := (e.frames_done + 1) % 2 ^ env.fieldBits
    ({ e with
        edge := edge
        frames_done := frames_done
        process :=
          if frames_done > e.expire_after_frames || edge ≥ e.edge_limit then
            EnvelopeProcess.Skip
          else e.process },
      r.1)

/-- Lines 100-109: `Envelope::Skip`. -/
def Envelope.Skip (e : Envelope) (_is_stereo _is_interpolated : Bool) (fr : Frame) :
    Envelope × Frame :=
  (e, fr)

/-- A call through the field `process`. -/
def Envelope.Process (env : EnvelopeEnv) (e : Envelope) (is_stereo is_interpolated : Bool)
    (fr : Frame) : Envelope × Frame :=
  match e.process with
  | EnvelopeProcess.Apply => e.Apply env is_stereo is_interpolated fr
  | EnvelopeProcess.Skip => e.Skip is_stereo is_interpolated fr

/-- The envelope after one call through `process` for each of the frames. -/
def Envelope.run (env : EnvelopeEnv) (is_stereo is_interpolated : Bool) :
    Envelope → List Frame → Envelope
  | e, [] => e
  | e, fr :: frames =>
    Envelope.run env is_stereo is_interpolated (e.Process env is_stereo is_interpolated fr).1
      frames

/-- A frame presses on the edge: the call of `Apply` passes line 81 and finds a sample
out on the lip. -/
def Envelope.presses (env : EnvelopeEnv) (e : Envelope) (is_stereo is_interpolated : Bool)
    (fr : Frame) : Bool :=
  !e.idle fr && (e.onLip env is_stereo is_interpolated fr).2

/-- Every frame that reaches `Apply` in the run presses on the edge. -/
def Envelope.pressed (env : EnvelopeEnv) (is_stereo is_interpolated : Bool) :
    Envelope → List Frame → Bool
  | _, [] => true
  | e, fr :: frames =>
    (e.process != EnvelopeProcess.Apply || e.presses env is_stereo is_interpolated fr) &&
      Envelope.pressed env is_stereo is_interpolated
        (e.Process env is_stereo is_interpolated fr).1 frames

/-- One way to fill in the helpers: 32-bit fields, a 64-bit `intptr_t`, the rounded-up
quotient and the value held between the bounds. -/
def envelopeExample : EnvelopeEnv :=
  { fieldBits := 32
    ptrBits := 64
    ceil_udivide := fun x y => (x + y - 1) / y
    clamp := fun v lo hi => max lo (min v hi) }

/-- The sample of the frame at index 0 to 3 in the order `prev[0]`, `prev[1]`,
`next[0]`, `next[1]`. -/
def Frame.sample (fr : Frame) (i : Fin 4) : Int :=
  match i with
  | 0 => fr.prev0
  | 1 => fr.prev1
  | 2 => fr.next0
  | 3 => fr.next1

/-- Whether `Apply` looks at the sample at index `i` at all. -/
def Frame.enabled (is_stereo is_interpolated : Bool) (i : Fin 4) : Bool :=
  match i with
  | 0 => true
  | 1 => is_stereo
  | 2 => is_interpolated
  | 3 => is_interpolated && is_stereo

/-! ## DIR: what doDir writes for the entries (lines 932-1015) -/

/-- What doDir hands to `WriteOut` behind the format: a string or a number. -/
inductive PrintfArg where
  | str (s : List Char)
  | num (n : Nat)
  deriving DecidableEq

/-- A call of `WriteOut` by doDir: with a format of its own, or with the format the
message table holds under a key (`MSG_Get`). -/
inductive DirOut where
  | printf (format : String) (args : List PrintfArg)
  | msg (key : String) (args : List PrintfArg)
  deriving DecidableEq

/-- What the loop of doDir over `results` takes from outside: `uselfn`, the width of
`Bitu` (the type of `p_count` and `w_size`, from a header that is not among the
sources), and the value of `GetPauseCount()`, which reads the row of the cursor from
the BIOS data area and so depends on what has been written. -/
structure DirEnv where
  uselfn : Bool
  bituBits : Nat
  GetPauseCount : List DirOut → Nat

/-- The parameters of doDir the loop reads, with `sargs` as line 876 leaves it and what
`DOS_GetSFNPath(path, largs, true)` returns (`none` for failure). -/
structure DirShow where
  optW : Bool
  optZ : Bool
  optS : Bool
  optP : Bool
  optB : Bool
  sargs : List Char
  largs : Option (List Char)

/-- The parameter `w_size` of doDir, as line 1150 of CMD_DIR, its only caller, sets
it: `optW?5:1`. -/
def DirShow.w_size (o : DirShow) : Nat := if o.optW then 5 else 1

/-- The variables the loop works on: what was written, the characters `DOS_ReadFile`
still has to deliver, the local `first`, the counters of doDir and the global ones. -/
structure DirState where
  out : List DirOut
  input : List Char
  first : Bool
  w_count : Nat
  p_count : Nat
  cfile_count : Nat
  cbyte_count : Nat
  file_count : Nat
  byte_count : Nat
  dir_count : Nat
  deriving DecidableEq

/-- How the loop goes on: it runs, doDir has returned `false` on Ctrl-C, or it stands
at a read with no character left. -/
inductive DirStatus where
  | running
  | cancelled
  | waiting
  deriving DecidableEq

/-- The state after a call of `WriteOut`. -/
def DirState.write (st : DirState) (o : List DirOut) : DirState :=
  { st with out := st.out ++ o }

/-- The reads of a pause (lines 1005-1008, and 956-959 alike): one character, Ctrl-C ends
doDir, and behind a null byte one more character is read. -/
def dirKey (st : DirState) : DirState × DirStatus :=
  match st.input with
  | [] => (st, DirStatus.waiting)
  | c :: input =>
    if c = '\x03' then
      (({ st with input := input }).write [DirOut.printf "^C\r\n" []], DirStatus.cancelled)
    else if c = '\x00' then
      match input with
      | [] => ({ st with input := [] }, DirStatus.waiting)
      | _ :: input => ({ st with input := input }, DirStatus.running)
    else ({ st with input := input }, DirStatus.running)

/-- The pause of lines 1004-1008 (and 955-959): the message, then the reads. -/
def dirPause (st : DirState) : DirState × DirStatus :=
  dirKey (st.write [DirOut.msg "SHELL_CMD_PAUSE" []])

/-- The name shown for an entry: `uselfn&&!optZ?lname:name`. -/
def dirShown (env : DirEnv) (o : DirShow) (e : DtaResult) : List Char :=
  if env.uselfn && !o.optZ then e.lname else e.name

/-- The test of line 944: the name shown is neither `.` nor `..`. -/
def dirBare (env : DirEnv) (o : DirShow) (e : DtaResult) : Bool :=
  strcmp ".".toList (dirShown env o e) != 0 && strcmp "..".toList (dirShown env o e) != 0

/-- Lines 963-968: `name` cut at its last dot and `ext` behind it, unless `/W` is
given or the name starts with a dot. -/
def dirNameExt (optW : Bool) (name : List Char) : List Char × List Char :=
  if !optW && name.head? != some '.' then
    match strrchr name '.' with
    | some i => (name.take i, name.drop (i + 1))
    | none => (name, [])
  else (name, [])

/-- Lines 969-973: day, month, year, hour and minute of the packed date and time. -/
def dirDate (date time : Nat) : List PrintfArg :=
  [PrintfArg.num ((date &&& 0x001f) % 2 ^ 8),
   PrintfArg.num (((date >>> 5) &&& 0x000f) % 2 ^ 8),
   PrintfArg.num (((date >>> 9) + 1980) % 2 ^ 16),
   PrintfArg.num (((time >>> 5) >>> 6) % 2 ^ 8),
   PrintfArg.num (((time >>> 5) &&& 0x003f) % 2 ^ 8)]

/-- What lines 942-992 write for the entry itself: the bare name with `/B`, else the
name in brackets and its padding or the line of a directory, or the name or the line
of a file. -/
def dirEntryOut (env : DirEnv) (o : DirShow) (e : DtaResult) : List DirOut :=
  if o.optB then [DirOut.printf "%s\n" [PrintfArg.str (dirShown env o e)]]
  else
    let ne := dirNameExt o.optW e.name
    let long := if env.uselfn && !o.optZ then e.lname else []
    if e.attr &&& DOS_ATTR_DIRECTORY != 0 then
      if o.optW then
        DirOut.printf "[%s]" [PrintfArg.str ne.1] ::
          (if ne.1.length ≤ 14 then
            List.replicate (14 - ne.1.length) (DirOut.printf " " [])
          else [])
      else
        [DirOut.printf "%-8s %-3s   %-16s %02d-%02d-%04d %2d:%02d %s\n"
          ([PrintfArg.str ne.1, PrintfArg.str ne.2, PrintfArg.str "<DIR>".toList] ++
            dirDate e.date e.time ++ [PrintfArg.str long])]
    else
      if o.optW then [DirOut.printf "%-16s" [PrintfArg.str ne.1]]
      else
        [DirOut.printf "%-8s %-3s   %16s %02d-%02d-%04d %2d:%02d %s\n"
          ([PrintfArg.str ne.1, PrintfArg.str ne.2, PrintfArg.str (FormatNumber e.size)] ++
            dirDate e.date e.time ++ [PrintfArg.str long])]

/-- Lines 948-962: before the first entry of a listing with `/S` the path is written,
with a pause where `/P` asks for one. -/
def dirIntro (env : DirEnv) (o : DirShow) (st : DirState) : DirState × DirStatus :=
  if st.first && o.optS then
    let intro :=
      if env.uselfn && !o.optZ then
        match o.largs with
        | some l => l
        | none => o.sargs
      else o.sargs
    let st := ({ st with first := false }).write
      [DirOut.printf "\n" [], DirOut.msg "SHELL_CMD_DIR_INTRO" [PrintfArg.str intro]]
    if o.optP then
      let st :=
        { st with p_count := (st.p_count + (if o.optW then 15 else 3)) % 2 ^ env.bituBits }
      if o.optS && decide (st.p_count % (env.GetPauseCount st.out * o.w_size) < 3) then
        dirPause st
      else (st, DirStatus.running)
    else (st, DirStatus.running)
  else (st, DirStatus.running)

/-- Lines 975-1000: the counters behind the line of an entry. -/
def dirCount (o : DirShow) (e : DtaResult) (st : DirState) : DirState :=
  let st :=
    if e.attr &&& DOS_ATTR_DIRECTORY != 0 then
      { st with dir_count := (st.dir_count + 1) % 2 ^ 32 }
    else
      let st :=
        if o.optS then
          { st with
            cfile_count := (st.cfile_count + 1) % 2 ^ 32
            cbyte_count := (st.cbyte_count + e.size) % 2 ^ 32 }
        else st
      { st with
        file_count := (st.file_count + 1) % 2 ^ 32
        byte_count := (st.byte_count + e.size) % 2 ^ 32 }
  if o.optW then { st with w_count := (st.w_count + 1) % 2 ^ 32 } else st

/-- Lines 941-1001: the output for one entry of `results`.  With `/B` the name is
written unless it is `.` or `..`; else the path comes first where it is due, then the
line of the entry, then the counters. -/
def dirShowEntry (env : DirEnv) (o : DirShow) (e : DtaResult) (st : DirState) :
    DirState × DirStatus :=
  if o.optB then
    (if dirBare env o e then st.write (dirEntryOut env o e) else st, DirStatus.running)
  else if (dirIntro env o st).2 != DirStatus.running then dirIntro env o st
  else (dirCount o e ((dirIntro env o st).1.write (dirEntryOut env o e)), DirStatus.running)

/-- Lines 1002-1009: with `/P` the count of lines goes up by one behind each entry
of `results`, and at a multiple of the page the listing pauses. -/
def dirAfterEntry (env : DirEnv) (o : DirShow) (st : DirState) : DirState × DirStatus :=
  if o.optP then
    let st := { st with p_count := (st.p_count + 1) % 2 ^ env.bituBits }
    if st.p_count % (env.GetPauseCount st.out * o.w_size) == 0 then
      dirPause
        (if o.optW && st.w_count % 5 != 0 then
          ({ st with w_count := 0 }).write [DirOut.printf "\n" []]
        else st)
    else (st, DirStatus.running)
  else (st, DirStatus.running)

/-- The body of the loop of lines 932-1010 for one entry of `results`. -/
def dirWriteEntry (env : DirEnv) (o : DirShow) (e : DtaResult) (st : DirState) :
    DirState × DirStatus :=
  if (dirShowEntry env o e st).2 != DirStatus.running then dirShowEntry env o e st
  else dirAfterEntry env o (dirShowEntry env o e st).1

/-- The loop of lines 932-1010 over the sorted `results`. -/
def doDirWrite (env : DirEnv) (o : DirShow) : List DtaResult → DirState →
    DirState × DirStatus
  | [], st => (st, DirStatus.running)
  | e :: results, st =>
    if (dirWriteEntry env o e st).2 != DirStatus.running then dirWriteEntry env o e st
    else doDirWrite env o results (dirWriteEntry env o e st).1

/-- Lines 887-1015 of doDir on the results `entries` of the enumerator: they are
filtered, sorted and written, and a line of `/W` left open is closed. -/
def doDirShow (env : DirEnv) (sort : SortFn) (a : AttrOpts) (so : SortOpts) (o : DirShow)
    (entries : List DtaResult) (st : DirState) : DirState × DirStatus :=
  let r := doDirWrite env o (doDirList sort a so entries) st
  if r.2 != DirStatus.running then r
  else if (doDirList sort a so entries).length != 0 && (o.optW && r.1.w_count % 5 != 0) then
    (r.1.write [DirOut.printf "\n" []], DirStatus.running)
  else r

/-- The entries doDir writes for, in the words of the amended claims: the filtered
and sorted results, without those shown as `.` or `..` where `/B` is given. -/
def dirListed (env : DirEnv) (o : DirShow) (results : List DtaResult) : List DtaResult :=
  results.filter (fun e => !o.optB || dirBare env o e)

/-- The formats of the calls of `WriteOut` that write an entry (lines 945, 977, 980,
983, 988 and 991); the path, the pause, `^C` and the line feeds have others. -/
def dirFormats : List String :=
  ["%s\n", "[%s]", " ", "%-16s", "%-8s %-3s   %-16s %02d-%02d-%04d %2d:%02d %s\n",
   "%-8s %-3s   %16s %02d-%02d-%04d %2d:%02d %s\n"]

/-- The call of `WriteOut` writes an entry. -/
def DirOut.isEntry : DirOut → Bool
  | DirOut.printf format _ => dirFormats.contains format
  | DirOut.msg _ _ => false

/-- What of the output was written for the entries. -/
def dirLines (out : List DirOut) : List DirOut := out.filter DirOut.isEntry

/-- A listing for examples: short names, `Bitu` of 32 bits, and a cursor that leaves
`pause` lines to the page. -/
def dirExampleEnv (pause : Nat) : DirEnv := ⟨false, 32, fun _ => pause⟩

/-- The switches of the output for examples: `/P` and `/B` as given, the others
off. -/
def dirExampleShow (optP optB : Bool) : DirShow :=
  ⟨false, false, false, optP, optB, "C:\\".toList, none⟩

/-- No sorting switch. -/
def noSortOpts : SortOpts := ⟨false, false, false, false, false, false, false⟩

/-- The state in which the loop starts when nothing was written yet and `input` is
what the keyboard will deliver. -/
def dirStart (input : List Char) : DirState := ⟨[], input, true, 0, 0, 0, 0, 0, 0, 0⟩

theorem strchr_eq_none_iff (s : List Char) (c : Char) : strchr s c = none ↔ c ∉ s := by
  induction s with
  | nil => simp [strchr]
  | cons x xs ih =>
    by_cases h : x = c
    · simp [strchr, h]
    · have h2 : ¬ c = x := fun e => h e.symm
      simp [strchr, h, h2, ih]

theorem strchr_isSome_iff (s : List Char) (c : Char) : (strchr s c).isSome = true ↔ c ∈ s := by
  rw [← not_iff_not, ← strchr_eq_none_iff s c]
  cases strchr s c <;> simp

theorem strrchr_eq_none_iff (s : List Char) (c : Char) : strrchr s c = none ↔ c ∉ s := by
  induction s with
  | nil => simp [strrchr]
  | cons x xs ih =>
    cases hr : strrchr xs c with
    | some k =>
      have : c ∈ xs := by
        by_contra hc
        rw [ih.mpr hc] at hr
        cases hr
      simp [strrchr, hr, this]
    | none =>
      have hc : c ∉ xs := ih.mp hr
      by_cases h : x = c
      · simp [strrchr, hr, h]
      · have h2 : ¬ c = x := fun e => h e.symm
        simp [strrchr, hr, h, hc, h2]

theorem strrchr_append_cons (a b : List Char) (c : Char) (hb : c ∉ b) :
    strrchr (a ++ c :: b) c = some a.length := by
  induction a with
  | nil =>
    have : strrchr b c = none := (strrchr_eq_none_iff b c).mpr hb
    simp [strrchr, this]
  | cons x xs ih => simp [strrchr, ih]

theorem strrchr_some_split (s : List Char) (c : Char) (k : Nat) (h : strrchr s c = some k) :
    s = s.take k ++ c :: s.drop (k + 1) ∧ c ∉ s.drop (k + 1) ∧ k < s.length := by
  induction s generalizing k with
  | nil => simp [strrchr] at h
  | cons x xs ih =>
    cases hr : strrchr xs c with
    | some j =>
      simp only [strrchr, hr, Option.some.injEq] at h
      subst h
      obtain ⟨h1, h2, h3⟩ := ih j hr
      refine ⟨?_, ?_, ?_⟩
      · simp only [List.take_succ_cons, List.drop_succ_cons, List.cons_append]
        rw [← h1]
      · simpa using h2
      · simpa using h3
    | none =>
      simp only [strrchr, hr] at h
      by_cases hx : x = c
      · simp only [hx, if_true, Option.some.injEq] at h
        subst h
        subst hx
        refine ⟨by simp, ?_, by simp⟩
        simpa using (strrchr_eq_none_iff xs x).mp hr
      · simp [hx] at h

theorem removeChar_eq_filter (s : List Char) (c : Char) :
    removeChar s c = s.filter (fun x => decide (x ≠ c)) := by
  induction s with
  | nil => rfl
  | cons x xs ih =>
    by_cases h : x = c
    · simp [removeChar, h, ih]
    · simp [removeChar, h, ih]

theorem removeChar_of_not_mem (s : List Char) (c : Char) (h : c ∉ s) : removeChar s c = s := by
  rw [removeChar_eq_filter, List.filter_eq_self]
  intro x hx
  have : x ≠ c := fun e => h (e ▸ hx)
  simpa using this

theorem removeChar_append (s t : List Char) (c : Char) :
    removeChar (s ++ t) c = removeChar s c ++ removeChar t c := by
  simp [removeChar_eq_filter]

theorem not_mem_removeChar (s : List Char) (c : Char) : c ∉ removeChar s c := by
  simp [removeChar_eq_filter]

theorem mem_removeChar_iff (s : List Char) (c x : Char) :
    x ∈ removeChar s c ↔ x ∈ s ∧ x ≠ c := by
  simp [removeChar_eq_filter]

/-- A segment without `*` and `?` is left as it is by the wildcard block. -/
theorem substSegment_literal (limit : Nat) (seg src : List Char)
    (h1 : '*' ∉ seg) (h2 : '?' ∉ seg) : substSegment limit seg src = seg := by
  have e1 : strchr seg '*' = none := (strchr_eq_none_iff _ _).mpr h1
  have e2 : strchr seg '?' = none := (strchr_eq_none_iff _ _).mpr h2
  simp [substSegment, e1, e2]

/-- The segment `*` becomes the whole source segment. -/
theorem substSegment_star (limit : Nat) (src : List Char) :
    substSegment limit ['*'] src = src := by
  cases src with
  | nil => simp [substSegment, strchr]
  | cons x xs => simp [substSegment, strchr]

/-! ## RENAME -/

/-- The destination names of some templates, evaluated. -/
theorem renameDest_examples :
    renameDest dosLimits 0 false "*.bak".toList "A.TXT".toList "a.txt".toList
      = "A.bak".toList ∧
    renameDest dosLimits 0 true "*.bak".toList "REPORT.DOC".toList "report.doc".toList
      = "report.bak".toList ∧
    renameDest dosLimits 0 true "best.*".toList "TEST.TXT".toList "test.txt".toList
      = "best.txt".toList ∧
    renameDest dosLimits 0 true "\"a b\".*".toList "TEST.TXT".toList "test.txt".toList
      = "a b.txt".toList ∧
    renameDest dosLimits 0 false "?b*".toList "TEST.TXT".toList "test.txt".toList
      = "TbST.TXT".toList := by
  decide

theorem renameExt_literal (limit crossBound : Nat) (star dot1 : Option Nat)
    (text2 src : List Char) (h1 : '*' ∉ text2) (h2 : '?' ∉ text2) :
    renameExt limit crossBound star dot1 text2 src = text2 := by
  have f1 : strchr text2 '*' = none := (strchr_eq_none_iff _ _).mpr h1
  have f2 : strchr text2 '?' = none := (strchr_eq_none_iff _ _).mpr h2
  cases dot1 with
  | some d1 =>
    simp only [renameExt]
    rw [substSegment_literal _ _ _ h1 h2, removeChar_of_not_mem _ _ h2]
  | none =>
    simp only [renameExt, f1, f2, Option.isSome_none, Bool.false_eq_true, or_self, if_false]
    exact removeChar_of_not_mem _ _ h2

theorem renameFromTemplate_literal (lim : NameLimits) (crossBound : Nat) (uselfn : Bool)
    (A name lname : List Char) (a1 : '*' ∉ A) (a2 : '?' ∉ A) :
    renameFromTemplate lim crossBound uselfn A name lname = A := by
  unfold renameFromTemplate
  cases hd : strrchr A '.' with
  | none =>
    show removeChar (substSegment (lim.limit uselfn) A name) '?' = A
    rw [substSegment_literal _ _ _ a1 a2, removeChar_of_not_mem _ _ a2]
  | some d2 =>
    obtain ⟨hs, -, -⟩ := strrchr_some_split A '.' d2 hd
    have t1 : '*' ∉ A.take d2 := fun h => a1 (List.mem_of_mem_take h)
    have t2 : '?' ∉ A.take d2 := fun h => a2 (List.mem_of_mem_take h)
    have x1 : '*' ∉ A.drop (d2 + 1) := fun h => a1 (List.mem_of_mem_drop h)
    have x2 : '?' ∉ A.drop (d2 + 1) := fun h => a2 (List.mem_of_mem_drop h)
    simp only []
    rw [substSegment_literal _ _ _ t1 t2, removeChar_of_not_mem _ _ t2,
      renameExt_literal _ _ _ _ _ _ x1 x2]
    simpa using hs.symm

theorem prepareTarget_no_star (uselfn : Bool) (T : List Char) (h1 : '*' ∉ T) :
    prepareTarget uselfn T = removeChar T '"' := by
  have a1 : '*' ∉ removeChar T '"' := fun h => h1 ((mem_removeChar_iff _ _ _).mp h).1
  have e1 : strchr (removeChar T '"') '*' = none := (strchr_eq_none_iff _ _).mpr a1
  simp [prepareTarget, e1]

/-- What `renameDest` computes from a template that holds neither `*` nor `?`: the
template without its double quotes. -/
theorem renameDest_literal_aux (lim : NameLimits) (crossBound : Nat) (uselfn : Bool)
    (T name lname : List Char) (h1 : '*' ∉ T) (h2 : '?' ∉ T) :
    renameDest lim crossBound uselfn T name lname = removeChar T '"' := by
  have a1 : '*' ∉ removeChar T '"' := fun h => h1 ((mem_removeChar_iff _ _ _).mp h).1
  have a2 : '?' ∉ removeChar T '"' := fun h => h2 ((mem_removeChar_iff _ _ _).mp h).1
  rw [renameDest, prepareTarget_no_star uselfn T h1]
  exact renameFromTemplate_literal lim crossBound uselfn _ name lname a1 a2

/-- C1 (amended): for a destination template `T` that contains no `*` and no `?`,
and for every matched entry, the destination name RENAME computes is `T` with
every double quote removed; it is exactly `T` when `T` contains no double quote. -/
theorem rename_literal_template (lim : NameLimits) (crossBound : Nat) (uselfn : Bool)
    (T name lname : List Char) (h1 : '*' ∉ T) (h2 : '?' ∉ T) :
    renameDest lim crossBound uselfn T name lname = removeChar T '"' ∧
    ('"' ∉ T → renameDest lim crossBound uselfn T name lname = T) := by
  refine ⟨renameDest_literal_aux lim crossBound uselfn T name lname h1 h2, fun hq => ?_⟩
  rw [renameDest_literal_aux lim crossBound uselfn T name lname h1 h2,
    removeChar_of_not_mem _ _ hq]

/-- Witness of C1: the template `new.txt` applied to the entry `OLD.DAT`. -/
theorem rename_literal_template_witness :
    renameDest dosLimits 0 false "new.txt".toList "OLD.DAT".toList "old.dat".toList
        = removeChar "new.txt".toList '"' ∧
    ('"' ∉ "new.txt".toList →
      renameDest dosLimits 0 false "new.txt".toList "OLD.DAT".toList "old.dat".toList
        = "new.txt".toList) :=
  rename_literal_template dosLimits 0 false "new.txt".toList "OLD.DAT".toList
    "old.dat".toList (by decide) (by decide)

/-- C1 as stated fails: the quoted template `"a b.txt"` holds no `*` and no `?`, and
the destination computed for it is `a b.txt`, not the template. -/
theorem rename_literal_template_counterexample :
    ¬ (∀ (lim : NameLimits) (crossBound : Nat) (uselfn : Bool) (T name lname : List Char),
        '*' ∉ T → '?' ∉ T → renameDest lim crossBound uselfn T name lname = T) := by
  intro h
  have h0 := h dosLimits 0 true "\"a b.txt\"".toList "OLD.DAT".toList "old.dat".toList
    (by decide) (by decide)
  revert h0
  decide

theorem removeChar_quote_star_dot (X : List Char) :
    removeChar ('*' :: '.' :: X) '"' = '*' :: '.' :: removeChar X '"' := by
  simp [removeChar]

/-- The template `*.X` with a literal extension: the name part of the source is kept
(minus `?`), the extension is `X` without double quotes. -/
theorem renameDest_star_ext (lim : NameLimits) (crossBound : Nat) (uselfn : Bool)
    (X name lname : List Char) (h1 : '*' ∉ X) (h2 : '?' ∉ X) (h3 : '.' ∉ X) :
    renameDest lim crossBound uselfn ('*' :: '.' :: X) name lname =
      removeChar (match strrchr (if uselfn then lname else name) '.' with
        | some d1 => (if uselfn then lname else name).take d1
        | none => if uselfn then lname else name) '?' ++ '.' :: removeChar X '"' := by
  have a1 : '*' ∉ removeChar X '"' := fun h => h1 ((mem_removeChar_iff _ _ _).mp h).1
  have a2 : '?' ∉ removeChar X '"' := fun h => h2 ((mem_removeChar_iff _ _ _).mp h).1
  have a3 : '.' ∉ removeChar X '"' := fun h => h3 ((mem_removeChar_iff _ _ _).mp h).1
  have hp : prepareTarget uselfn ('*' :: '.' :: X) = '*' :: '.' :: removeChar X '"' := by
    simp [prepareTarget, removeChar_quote_star_dot, strchr]
  have hd : strrchr ('*' :: '.' :: removeChar X '"') '.' = some 1 :=
    strrchr_append_cons ['*'] (removeChar X '"') '.' a3
  rw [renameDest, hp]
  unfold renameFromTemplate
  rw [hd]
  simp only [List.take_succ_cons, List.take_zero, List.drop_succ_cons, List.drop_zero]
  rw [substSegment_star, renameExt_literal _ _ _ _ _ _ a1 a2]
  simp

/-- C2 (amended): for every matched entry and every literal extension `X` (no `*`,
`?` or `.`), the RENAME destination computed from the template `*.X` is the entry's
name part (everything before its last `.`, or the whole name when it has no `.`)
with any `?` removed (a file name holds none), followed by `.` and by `X` with
every double quote removed: the extension is replaced and the name is preserved. -/
theorem rename_star_ext (lim : NameLimits) (crossBound : Nat) (uselfn : Bool)
    (X name lname : List Char) (h1 : '*' ∉ X) (h2 : '?' ∉ X) (h3 : '.' ∉ X) :
    (∀ a b : List Char, (if uselfn then lname else name) = a ++ '.' :: b → '.' ∉ b →
      renameDest lim crossBound uselfn ('*' :: '.' :: X) name lname
        = removeChar a '?' ++ '.' :: removeChar X '"') ∧
    ('.' ∉ (if uselfn then lname else name) →
      renameDest lim crossBound uselfn ('*' :: '.' :: X) name lname
        = removeChar (if uselfn then lname else name) '?' ++ '.' :: removeChar X '"') := by
  constructor
  · intro a b hN hb
    rw [renameDest_star_ext lim crossBound uselfn X name lname h1 h2 h3, hN,
      strrchr_append_cons a b '.' hb]
    simp
  · intro hN
    rw [renameDest_star_ext lim crossBound uselfn X name lname h1 h2 h3,
      (strrchr_eq_none_iff _ _).mpr hN]

/-- Witness of C2: `*.bak` applied to `report.doc` gives `report.bak`. -/
theorem rename_star_ext_witness :
    renameDest dosLimits 0 true "*.bak".toList "REPORT.DOC".toList "report.doc".toList
      = removeChar "report".toList '?' ++ '.' :: removeChar "bak".toList '"' :=
  (rename_star_ext dosLimits 0 true "bak".toList "REPORT.DOC".toList "report.doc".toList
    (by decide) (by decide) (by decide)).1 "report".toList "doc".toList (by decide) (by decide)

/-- C2 as stated fails: `"bak"` in double quotes is an extension without `*`, `?`
and `.`, and the template `*."bak"` applied to `a.txt` gives `a.bak`, which is not
the name part followed by `.` and the extension as written. -/
theorem rename_star_ext_counterexample :
    ¬ (∀ (lim : NameLimits) (crossBound : Nat) (uselfn : Bool) (X name lname : List Char),
        '*' ∉ X → '?' ∉ X → '.' ∉ X →
        (∀ a b : List Char, (if uselfn then lname else name) = a ++ '.' :: b → '.' ∉ b →
          renameDest lim crossBound uselfn ('*' :: '.' :: X) name lname = a ++ '.' :: X) ∧
        ('.' ∉ (if uselfn then lname else name) →
          renameDest lim crossBound uselfn ('*' :: '.' :: X) name lname
            = (if uselfn then lname else name) ++ '.' :: X)) := by
  intro h
  have h0 := (h dosLimits 0 true "\"bak\"".toList "A.TXT".toList "a.txt".toList
    (by decide) (by decide) (by decide)).1 "a".toList "txt".toList (by decide) (by decide)
  revert h0
  decide

/-- The template `L.*` with a literal name, applied to a source name with a dot. -/
theorem renameDest_name_star (lim : NameLimits) (crossBound : Nat) (uselfn : Bool)
    (L name lname a E : List Char) (h1 : '*' ∉ L) (h2 : '?' ∉ L)
    (hN : (if uselfn then lname else name) = a ++ '.' :: E) (hE : '.' ∉ E) :
    renameDest lim crossBound uselfn (L ++ ['.', '*']) name lname =
      removeChar L '"' ++ '.' :: removeChar E '?' := by
  have a1 : '*' ∉ removeChar L '"' := fun h => h1 ((mem_removeChar_iff _ _ _).mp h).1
  have a2 : '?' ∉ removeChar L '"' := fun h => h2 ((mem_removeChar_iff _ _ _).mp h).1
  have hr : removeChar (L ++ ['.', '*']) '"' = removeChar L '"' ++ ['.', '*'] := by
    rw [removeChar_append]; simp [removeChar]
  have hdot : (strchr (removeChar L '"' ++ ['.', '*']) '.').isNone = false := by
    have : (strchr (removeChar L '"' ++ ['.', '*']) '.').isSome = true :=
      (strchr_isSome_iff _ _).mpr (by simp)
    cases hc : strchr (removeChar L '"' ++ ['.', '*']) '.' with
    | none => rw [hc] at this; cases this
    | some k => rfl
  have hp : prepareTarget uselfn (L ++ ['.', '*']) = removeChar L '"' ++ ['.', '*'] := by
    simp [prepareTarget, hr, hdot]
  have hd : strrchr (removeChar L '"' ++ ['.', '*']) '.' = some (removeChar L '"').length :=
    strrchr_append_cons (removeChar L '"') ['*'] '.' (by decide)
  rw [renameDest, hp]
  unfold renameFromTemplate
  rw [hd, hN]
  simp only [strrchr_append_cons a E '.' hE]
  have hdrop : List.drop ((removeChar L '"').length + 1) (removeChar L '"' ++ ['.', '*'])
      = ['*'] := by
    rw [List.drop_append_eq_append_drop]
    simp
  have hdropE : List.drop (a.length + 1) (a ++ '.' :: E) = E := by
    rw [List.drop_append_eq_append_drop]
    simp
  rw [List.take_left, hdrop, substSegment_literal _ _ _ a1 a2, removeChar_of_not_mem _ _ a2]
  simp [renameExt, substSegment_star, hdropE]

/-- C3 (amended): for every literal name `L` (no `*`, `?` or `.`) and every matched
entry whose name has an extension `E` (the text after its last `.`), the RENAME
destination computed from the template `L.*` is `L` with every double quote
removed, followed by `.` and by `E` with any `?` removed (a file name holds none);
`best.*` applied to `test.txt` yields `best.txt`. -/
theorem rename_name_star (lim : NameLimits) (crossBound : Nat) (uselfn : Bool)
    (L name lname a E : List Char) (h1 : '*' ∉ L) (h2 : '?' ∉ L) (_h3 : '.' ∉ L)
    (hN : (if uselfn then lname else name) = a ++ '.' :: E) (hE : '.' ∉ E) :
    renameDest lim crossBound uselfn (L ++ ['.', '*']) name lname =
      removeChar L '"' ++ '.' :: removeChar E '?' :=
  renameDest_name_star lim crossBound uselfn L name lname a E h1 h2 hN hE

/-- Witness of C3: `best.*` applied to `test.txt`. -/
theorem rename_name_star_witness :
    renameDest dosLimits 0 true ("best".toList ++ ['.', '*']) "TEST.TXT".toList
        "test.txt".toList
      = removeChar "best".toList '"' ++ '.' :: removeChar "txt".toList '?' ∧
    removeChar "best".toList '"' ++ '.' :: removeChar "txt".toList '?' = "best.txt".toList :=
  ⟨rename_name_star dosLimits 0 true "best".toList "TEST.TXT".toList "test.txt".toList
    "test".toList "txt".toList (by decide) (by decide) (by decide) (by decide) (by decide),
   by decide⟩

/-- C3 as stated fails: the quoted name `"new name"` holds no `*`, `?` or `.`, and
the template `"new name".*` applied to `test.txt` gives `new name.txt`, without the
quotes of the name as written. -/
theorem rename_name_star_counterexample :
    ¬ (∀ (lim : NameLimits) (crossBound : Nat) (uselfn : Bool) (L name lname a E : List Char),
        '*' ∉ L → '?' ∉ L → '.' ∉ L →
        (if uselfn then lname else name) = a ++ '.' :: E → '.' ∉ E →
        renameDest lim crossBound uselfn (L ++ ['.', '*']) name lname = L ++ '.' :: E) := by
  intro h
  have h0 := h dosLimits 0 true "\"new name\"".toList "TEST.TXT".toList "test.txt".toList
    "test".toList "txt".toList (by decide) (by decide) (by decide) (by decide) (by decide)
  revert h0
  decide

/-! ## DIR: sorting -/

theorem strcmp_self (a : List Char) : strcmp a a = 0 := by
  induction a with
  | nil => rfl
  | cons x xs ih => simp [strcmp, ih]

theorem strcmp_eq_zero (a b : List Char) (h : strcmp a b = 0) : a = b := by
  induction a generalizing b with
  | nil => cases b <;> simp_all [strcmp]
  | cons x xs ih =>
    cases b with
    | nil => simp [strcmp] at h
    | cons y ys =>
      simp only [strcmp] at h
      split_ifs at h with h1 h2
      · omega
      · have hnat : x.toNat = y.toNat := by omega
        have hxy : x = y := by
          have hc := congrArg Char.ofNat hnat
          simpa [Char.ofNat_toNat] using hc
        rw [hxy, ih ys h]

theorem strcmp_neg_swap (a b : List Char) : strcmp a b < 0 ↔ 0 < strcmp b a := by
  induction a generalizing b with
  | nil => cases b <;> simp [strcmp]
  | cons x xs ih =>
    cases b with
    | nil => simp [strcmp]
    | cons y ys =>
      simp only [strcmp]
      split_ifs <;> first | omega | simp | exact ih ys

theorem strcmp_trans (a b c : List Char) (h1 : strcmp a b < 0) (h2 : strcmp b c < 0) :
    strcmp a c < 0 := by
  induction a generalizing b c with
  | nil =>
    cases c with
    | nil => cases b <;> simp [strcmp] at h1 h2
    | cons z zs => simp [strcmp]
  | cons x xs ih =>
    cases b with
    | nil => simp [strcmp] at h1
    | cons y ys =>
      cases c with
      | nil => simp [strcmp] at h2
      | cons z zs =>
        simp only [strcmp] at h1 h2 ⊢
        split_ifs at h1 h2 ⊢ <;> first | omega | exact ih ys zs h1 h2

theorem strcmp_trichotomy (a b : List Char) : strcmp a b < 0 ∨ a = b ∨ strcmp b a < 0 := by
  rcases lt_trichotomy (strcmp a b) 0 with h | h | h
  · exact Or.inl h
  · exact Or.inr (Or.inl (strcmp_eq_zero a b h))
  · exact Or.inr (Or.inr ((strcmp_neg_swap b a).mpr h))

theorem strcmp_irrefl (a : List Char) : ¬ strcmp a a < 0 := by
  rw [strcmp_self]; decide

theorem strcmp_asymm (a b : List Char) (h : strcmp a b < 0) : ¬ strcmp b a < 0 := by
  intro h2
  exact strcmp_irrefl a (strcmp_trans a b a h h2)

theorem strcmp_not_lt (a b : List Char) (h : ¬ strcmp b a < 0) : strcmp a b ≤ 0 := by
  by_contra hc
  have : 0 < strcmp a b := by omega
  exact h ((strcmp_neg_swap b a).mpr this)

theorem groupDef_iff (a b : DtaResult) :
    a.groupDef b = true ↔
      (a.isDir = true ∧ b.isDir = false) ∨ (a.isDir = b.isDir ∧ strcmp a.name b.name < 0) := by
  unfold DtaResult.groupDef
  cases a.isDir <;> cases b.isDir <;> simp

theorem groupDef_false_iff (a b : DtaResult) :
    a.groupDef b = false ↔
      ¬ (a.isDir = true ∧ b.isDir = false) ∧ (a.isDir = b.isDir → ¬ strcmp a.name b.name < 0) := by
  rw [← Bool.not_eq_true, groupDef_iff]
  tauto

theorem groupDef_incomp (a b : DtaResult) (h1 : a.groupDef b = false)
    (h2 : b.groupDef a = false) : a.isDir = b.isDir ∧ a.name = b.name := by
  rw [groupDef_false_iff] at h1 h2
  have hd : a.isDir = b.isDir := by
    cases ha : a.isDir <;> cases hb : b.isDir <;> simp_all
  refine ⟨hd, ?_⟩
  rcases strcmp_trichotomy a.name b.name with h | h | h
  · exact absurd h (h1.2 hd)
  · exact h
  · exact absurd h (h2.2 hd.symm)

/-- The comparator groupDef is a strict weak ordering. -/
theorem groupDef_strictWeakOrder : StrictWeakOrder DtaResult.groupDef where
  irrefl a := by
    rw [groupDef_false_iff]
    exact ⟨by cases a.isDir <;> simp, fun _ => strcmp_irrefl a.name⟩
  trans a b c h1 h2 := by
    rw [groupDef_iff] at h1 h2 ⊢
    rcases h1 with ⟨ha, hb⟩ | ⟨hab, hl1⟩ <;> rcases h2 with ⟨hb2, hc⟩ | ⟨hbc, hl2⟩
    · rw [hb] at hb2; cases hb2
    · exact Or.inl ⟨ha, by rw [← hbc]; exact hb⟩
    · exact Or.inl ⟨by rw [hab]; exact hb2, hc⟩
    · exact Or.inr ⟨hab.trans hbc, strcmp_trans _ _ _ hl1 hl2⟩
  incomp_trans a b c h1 h2 h3 h4 := by
    obtain ⟨d1, n1⟩ := groupDef_incomp a b h1 h2
    obtain ⟨d2, n2⟩ := groupDef_incomp b c h3 h4
    have hd : a.isDir = c.isDir := d1.trans d2
    have hn : a.name = c.name := n1.trans n2
    constructor
    · rw [groupDef_false_iff]
      exact ⟨by rw [hd]; cases c.isDir <;> simp, fun _ => by rw [hn]; exact strcmp_irrefl _⟩
    · rw [groupDef_false_iff]
      exact ⟨by rw [hd]; cases c.isDir <;> simp, fun _ => by rw [hn]; exact strcmp_irrefl _⟩

theorem StrictWeakOrder.asymm {α : Type} {comp : α → α → Bool} (h : StrictWeakOrder comp)
    (a b : α) (hab : comp a b = true) : comp b a = false := by
  cases hba : comp b a with
  | false => rfl
  | true =>
    have := h.trans a b a hab hba
    rw [h.irrefl a] at this
    cases this

/-- For a strict weak ordering "not less than" is transitive. -/
theorem StrictWeakOrder.not_lt_trans {α : Type} {comp : α → α → Bool}
    (h : StrictWeakOrder comp) (a b c : α) (h1 : comp b a = false) (h2 : comp c b = false) :
    comp c a = false := by
  cases hca : comp c a with
  | false => rfl
  | true =>
    cases hbc : comp b c with
    | true =>
      have := h.trans b c a hbc hca
      rw [h1] at this
      cases this
    | false =>
      cases hab : comp a b with
      | true =>
        have := h.trans c a b hca hab
        rw [h2] at this
        cases this
      | false =>
        have := (h.incomp_trans a b c hab h1 hbc h2).2
        rw [hca] at this
        cases this

/-- Insertion sort keeps the promise of `std::sort`. -/
theorem insertionStdSort_isStdSort : IsStdSort insertionStdSort := by
  intro comp hswo l
  refine ⟨List.perm_insertionSort _ l, ?_⟩
  haveI : IsTotal DtaResult (fun a b => comp b a = false) :=
    ⟨fun a b => by
      cases hba : comp b a with
      | false => exact Or.inl rfl
      | true => exact Or.inr (hswo.asymm b a hba)⟩
  haveI : IsTrans DtaResult (fun a b => comp b a = false) :=
    ⟨fun a b c h1 h2 => hswo.not_lt_trans a b c h1 h2⟩
  exact List.sorted_insertionSort (fun a b => comp b a = false) l

theorem doDirOrder_groupName (sort : SortFn) (r : Bool) (results : List DtaResult) :
    doDirOrder sort (optsGroupName r) results =
      if r then (sort DtaResult.groupDef results).reverse
      else sort DtaResult.groupDef results := by
  simp [doDirOrder, optsGroupName]

/-- Two sorted arrangements of the same elements are equal when no two different
elements are equivalent under the comparator. -/
theorem sorted_perm_unique {α : Type} (comp : α → α → Bool) (l₁ l₂ : List α)
    (hp : l₁.Perm l₂)
    (h1 : l₁.Pairwise (fun a b => comp b a = false))
    (h2 : l₂.Pairwise (fun a b => comp b a = false))
    (hanti : ∀ a ∈ l₂, ∀ b ∈ l₂, comp a b = false → comp b a = false → a = b) :
    l₁ = l₂ := by
  induction l₁ generalizing l₂ with
  | nil => exact (List.Perm.nil_eq hp)
  | cons a t ih =>
    cases l₂ with
    | nil => exact absurd hp.symm (List.not_perm_nil_cons _ _)
    | cons b t₂ =>
      rw [List.pairwise_cons] at h1 h2
      have ha : a ∈ b :: t₂ := hp.subset (List.mem_cons_self _ _)
      have hb : b ∈ a :: t := hp.symm.subset (List.mem_cons_self _ _)
      have hab : a = b := by
        rcases List.mem_cons.mp ha with e | m
        · exact e
        · rcases List.mem_cons.mp hb with e | m'
          · exact e.symm
          · exact hanti a ha b (List.mem_cons_self _ _) (h2.1 a m) (h1.1 b m')
      subst hab
      have hp' : t.Perm t₂ := (List.perm_cons a).mp hp
      rw [ih t₂ hp' h1.2 h2.2
        (fun x hx y hy => hanti x (List.mem_cons_of_mem _ hx) y (List.mem_cons_of_mem _ hy))]

theorem sort_example (sort : SortFn) (hs : IsStdSort sort) :
    sort DtaResult.groupDef exampleEntries = exampleSorted := by
  obtain ⟨hp, hsorted⟩ := hs DtaResult.groupDef groupDef_strictWeakOrder exampleEntries
  have hp2 : (sort DtaResult.groupDef exampleEntries).Perm exampleSorted :=
    hp.trans (by decide)
  exact sorted_perm_unique DtaResult.groupDef _ _ hp2 hsorted (by decide) (by decide)

/-- C4: for every list of directory entries, sorting with the group+name key (DIR
/O, comparator groupDef, reverse off), by any routine that keeps the promise of
std::sort, yields a permutation of the input in which no non-directory precedes a
directory and, inside each of the two groups, names are in ascending order; the
list [dir B, file a.txt, dir A] becomes [dir A, dir B, file a.txt]. -/
theorem dir_group_name_order (sort : SortFn) (hs : IsStdSort sort)
    (results : List DtaResult) :
    (doDirOrder sort (optsGroupName false) results).Perm results ∧
    (doDirOrder sort (optsGroupName false) results).Pairwise
      (fun a b => ¬ (a.isDir = false ∧ b.isDir = true) ∧
        (a.isDir = b.isDir → strcmp a.name b.name ≤ 0)) ∧
    doDirOrder sort (optsGroupName false) exampleEntries = exampleSorted := by
  rw [doDirOrder_groupName, doDirOrder_groupName]
  simp only [Bool.false_eq_true, if_false]
  obtain ⟨hp, hsorted⟩ := hs DtaResult.groupDef groupDef_strictWeakOrder results
  refine ⟨hp, hsorted.imp ?_, sort_example sort hs⟩
  intro a b hba
  rw [groupDef_false_iff] at hba
  refine ⟨fun h => hba.1 ⟨h.2, h.1⟩, fun hd => strcmp_not_lt _ _ (hba.2 hd.symm)⟩

/-- Witness of C4: insertion sort on the example list. -/
theorem dir_group_name_order_witness :
    (doDirOrder insertionStdSort (optsGroupName false) exampleEntries).Perm exampleEntries ∧
    (doDirOrder insertionStdSort (optsGroupName false) exampleEntries).Pairwise
      (fun a b => ¬ (a.isDir = false ∧ b.isDir = true) ∧
        (a.isDir = b.isDir → strcmp a.name b.name ≤ 0)) ∧
    doDirOrder insertionStdSort (optsGroupName false) exampleEntries = exampleSorted :=
  dir_group_name_order insertionStdSort insertionStdSort_isStdSort exampleEntries

/-- C5: for every entry list and every combination of sort keys, the order doDir
produces with reverse on is the reversal of the order it produces with reverse
off; for the group+name key, with any routine that keeps the promise of std::sort,
no directory then precedes a non-directory and names are descending inside each
group, and [dir B, file a.txt, dir A] becomes [file a.txt, dir B, dir A]. -/
theorem dir_reverse_order (sort : SortFn) (o : SortOpts) (results : List DtaResult) :
    doDirOrder sort (o.withReverse true) results
      = (doDirOrder sort (o.withReverse false) results).reverse ∧
    (IsStdSort sort →
      (doDirOrder sort (optsGroupName true) results).Pairwise
        (fun a b => ¬ (a.isDir = true ∧ b.isDir = false) ∧
          (a.isDir = b.isDir → 0 ≤ strcmp a.name b.name)) ∧
      doDirOrder sort (optsGroupName true) exampleEntries = exampleSorted.reverse) := by
  refine ⟨by simp [doDirOrder, SortOpts.withReverse], fun hs => ?_⟩
  rw [doDirOrder_groupName, doDirOrder_groupName]
  simp only [if_true]
  obtain ⟨-, hsorted⟩ := hs DtaResult.groupDef groupDef_strictWeakOrder results
  refine ⟨?_, by rw [sort_example sort hs]⟩
  rw [List.pairwise_reverse]
  refine hsorted.imp ?_
  intro a b hba
  rw [groupDef_false_iff] at hba
  refine ⟨fun h => hba.1 h, fun hd => ?_⟩
  have := strcmp_not_lt _ _ (hba.2 hd)
  have h2 := strcmp_neg_swap b.name a.name
  by_contra hc
  have h3 : strcmp b.name a.name < 0 := by omega
  exact hba.2 hd h3

/-- Witness of C5: insertion sort on the example list, reversed. -/
theorem dir_reverse_order_witness :
    doDirOrder insertionStdSort (optsGroupName true) exampleEntries = exampleSorted.reverse :=
  ((dir_reverse_order insertionStdSort (optsGroupName false) exampleEntries).2
    insertionStdSort_isStdSort).2

/-! ## IF -/

theorem skipNots_of_not_NOT (fuel : Nat) (args : List Char) (b : Bool)
    (h : startsWithNoCase args "NOT".toList = false) : skipNots fuel args b = (b, args) := by
  cases fuel with
  | zero => rfl
  | succ n =>
    unfold skipNots
    rw [h]
    simp only [Bool.false_eq_true, if_false]

theorem StripSpacesAlso_length_le (args : List Char) (also : Char) :
    (StripSpacesAlso args also).length ≤ args.length :=
  (List.dropWhile_sublist _).length_le

/-- The loop over the leading `NOT`s never stops for lack of fuel: with the length
of the line as fuel, more fuel changes nothing. -/
theorem skipNots_fuel_succ (fuel : Nat) (args : List Char) (b : Bool)
    (h : args.length ≤ fuel) : skipNots (fuel + 1) args b = skipNots fuel args b := by
  induction fuel generalizing args b with
  | zero =>
    have : args = [] := List.length_eq_zero.mp (Nat.le_zero.mp h)
    subst this
    rfl
  | succ n ih =>
    have hlen : (StripSpacesAlso (List.drop 3 args) '=').length ≤ n := by
      by_cases h3 : args.length < 3
      · have h0 : List.drop 3 args = [] := List.drop_eq_nil_of_le (by omega)
        rw [h0]
        exact Nat.zero_le _
      · have h1 := StripSpacesAlso_length_le (List.drop 3 args) '='
        rw [List.length_drop] at h1
        omega
    have e1 : ∀ m, skipNots (m + 1) args b =
        if startsWithNoCase args "NOT".toList then
          if !((args.drop 3).head?.any isspace) && (args.drop 3).head? != some '=' then
            (b, args)
          else skipNots m (StripSpacesAlso (args.drop 3) '=') (!b)
        else (b, args) := fun m => rfl
    rw [e1 (n + 1), e1 n, ih _ _ hlen]

theorem startsWithNoCase_append (kw tail : List Char) :
    startsWithNoCase (kw ++ tail) kw = true := by
  simp [startsWithNoCase]

theorem CMD_IF_errorlevel (env : ShellEnv) (tail : List Char) :
    CMD_IF env (" ERRORLEVEL".toList ++ tail) = ifErrorlevel env false tail := by
  have h1 : StripSpacesAlso (" ERRORLEVEL".toList ++ tail) '=' = "ERRORLEVEL".toList ++ tail := by
    simp [StripSpacesAlso, List.dropWhile, isspace]
  have h2 : startsWithNoCase ("ERRORLEVEL".toList ++ tail) "NOT".toList = false := by
    simp [startsWithNoCase, tolower]
  have h3 : startsWithNoCase ("ERRORLEVEL".toList ++ tail) "ERRORLEVEL".toList = true :=
    startsWithNoCase_append _ _
  have h5 : List.drop 10 ("ERRORLEVEL".toList ++ tail) = tail := by simp
  unfold CMD_IF
  simp only []
  rw [h1, skipNots_of_not_NOT _ _ _ h2]
  simp only [h3, if_true, h5]

theorem CMD_IF_not_errorlevel (env : ShellEnv) (tail : List Char) :
    CMD_IF env (" NOT ERRORLEVEL".toList ++ tail) = ifErrorlevel env true tail := by
  have h1 : StripSpacesAlso (" NOT ERRORLEVEL".toList ++ tail) '='
      = "NOT ERRORLEVEL".toList ++ tail := by
    simp [StripSpacesAlso, List.dropWhile, isspace]
  have h2 : startsWithNoCase ("ERRORLEVEL".toList ++ tail) "NOT".toList = false := by
    simp [startsWithNoCase, tolower]
  have h3 : startsWithNoCase ("ERRORLEVEL".toList ++ tail) "ERRORLEVEL".toList = true :=
    startsWithNoCase_append _ _
  have h5 : List.drop 10 ("ERRORLEVEL".toList ++ tail) = tail := by simp
  have h4 : skipNots ("NOT ERRORLEVEL".toList ++ tail).length
      ("NOT ERRORLEVEL".toList ++ tail) false = (true, "ERRORLEVEL".toList ++ tail) := by
    have hl : ("NOT ERRORLEVEL".toList ++ tail).length = (tail.length + 13) + 1 := by
      simp
    have e1 : startsWithNoCase ("NOT ERRORLEVEL".toList ++ tail) "NOT".toList = true :=
      startsWithNoCase_append "NOT".toList (" ERRORLEVEL".toList ++ tail)
    have e2 : StripSpacesAlso (List.drop 3 ("NOT ERRORLEVEL".toList ++ tail)) '='
        = "ERRORLEVEL".toList ++ tail := by
      simp [StripSpacesAlso, List.dropWhile, isspace]
    have e3 : (List.drop 3 ("NOT ERRORLEVEL".toList ++ tail)).head? = some ' ' := by
      simp
    rw [hl]
    unfold skipNots
    rw [e1, e2, e3, skipNots_of_not_NOT _ _ _ h2]
    simp [isspace]
  unfold CMD_IF
  simp only []
  rw [h1, h4]
  simp only [h3, if_true, h5]

theorem foldl_digits_mod (l : List Char) (m : Nat) :
    List.foldl (fun acc c => acc * 10 + (c.toNat - 48)) (m % 256) l % 256
      = List.foldl (fun acc c => acc * 10 + (c.toNat - 48)) m l % 256 := by
  induction l generalizing m with
  | nil => simp
  | cons x xs ih =>
    simp only [List.foldl_cons]
    rw [← ih (m % 256 * 10 + (x.toNat - 48)), ← ih (m * 10 + (x.toNat - 48))]
    congr 2
    omega

/-- The digit loop computes the decimal value of the digits modulo 256 and stops at
the end of an all-digit word. -/
theorem errorlevelDigits_all (n : Nat) (c : Char) (cs : List Char)
    (h : ∀ d ∈ cs, isdigit d = true) :
    errorlevelDigits n c cs
      = (List.foldl (fun acc c => acc * 10 + (c.toNat - 48)) n (c :: cs) % 256, []) := by
  induction cs generalizing n c with
  | nil => simp [errorlevelDigits]
  | cons d ds ih =>
    have hd : isdigit d = true := h d (List.mem_cons_self _ _)
    have hds : ∀ x ∈ ds, isdigit x = true := fun x hx => h x (List.mem_cons_of_mem _ hx)
    rw [errorlevelDigits, if_pos hd, ih _ _ hds]
    simp only [List.foldl_cons]
    have key := foldl_digits_mod (d :: ds) (n * 10 + (c.toNat - 48))
    simp only [List.foldl_cons] at key
    rw [key]

theorem StripSpacesAlso_digit (c : Char) (l : List Char) (h : isdigit c = true) :
    StripSpacesAlso (' ' :: c :: l) '=' = c :: l := by
  have h1 : isspace c = false := by
    simp only [isdigit, Bool.and_eq_true, decide_eq_true_eq] at h
    simp only [isspace, Bool.or_eq_false_iff, decide_eq_false_iff_not, Bool.and_eq_false_iff]
    omega
  have h2 : (c == '=') = false := by
    simp only [isdigit, Bool.and_eq_true, decide_eq_true_eq] at h
    rw [beq_eq_false_iff_ne]
    intro e
    rw [e] at h
    revert h
    decide
  have h3 : isspace ' ' = true := by decide
  simp only [StripSpacesAlso, List.dropWhile, h1, h2, h3, Bool.or_false, Bool.true_or]

/-- The outcome of the ERRORLEVEL branch on digits, a white-space character and a
command. -/
theorem ifErrorlevel_digits (env : ShellEnv) (has_not : Bool) (digits cmd : List Char)
    (w : Char) (hne : digits ≠ []) (hd : ∀ d ∈ digits, isdigit d = true)
    (hSW : env.StripWord (digits ++ w :: cmd) = (digits, cmd)) :
    ifErrorlevel env has_not (' ' :: digits ++ w :: cmd) =
      if decide (env.return_code ≥ decimalValue digits % 256) == !has_not
      then Outcome.DoCommand cmd else Outcome.nothing := by
  cases digits with
  | nil => exact absurd rfl hne
  | cons c cs =>
    have hc : isdigit c = true := hd c (List.mem_cons_self _ _)
    have hcs : ∀ x ∈ cs, isdigit x = true := fun x hx => hd x (List.mem_cons_of_mem _ hx)
    unfold ifErrorlevel
    have e0 : StripSpacesAlso (' ' :: (c :: cs) ++ w :: cmd) '=' = (c :: cs) ++ w :: cmd :=
      StripSpacesAlso_digit c (cs ++ w :: cmd) hc
    rw [e0, hSW]
    simp only [hc, Bool.not_true, Bool.false_eq_true, if_false]
    rw [errorlevelDigits_all 0 c cs hcs]
    simp [decimalValue]

/-- C6 (amended): for every decimal digit string n followed by white space and a
command, and every last exit code r, `IF ERRORLEVEL n command` dispatches the
command if and only if r >= (the numeric value of n) mod 256, the number being
accumulated in an 8-bit counter, and does nothing otherwise; with one NOT it
dispatches if and only if r < that value mod 256.  For n up to 255 this is r >= n
and r < n. -/
theorem if_errorlevel_threshold (env : ShellEnv) (digits cmd : List Char) (w : Char)
    (hne : digits ≠ []) (hd : ∀ d ∈ digits, isdigit d = true) (_hw : isspace w = true)
    (hSW : env.StripWord (digits ++ w :: cmd) = (digits, cmd)) :
    CMD_IF env (" ERRORLEVEL ".toList ++ digits ++ w :: cmd)
      = (if env.return_code ≥ decimalValue digits % 256
         then Outcome.DoCommand cmd else Outcome.nothing) ∧
    CMD_IF env (" NOT ERRORLEVEL ".toList ++ digits ++ w :: cmd)
      = (if env.return_code < decimalValue digits % 256
         then Outcome.DoCommand cmd else Outcome.nothing) ∧
    (decimalValue digits ≤ 255 → decimalValue digits % 256 = decimalValue digits) := by
  have e1 : " ERRORLEVEL ".toList ++ digits ++ w :: cmd
      = " ERRORLEVEL".toList ++ (' ' :: digits ++ w :: cmd) := by simp
  have e2 : " NOT ERRORLEVEL ".toList ++ digits ++ w :: cmd
      = " NOT ERRORLEVEL".toList ++ (' ' :: digits ++ w :: cmd) := by simp
  refine ⟨?_, ?_, fun h => Nat.mod_eq_of_lt (by omega)⟩
  · rw [e1, CMD_IF_errorlevel, ifErrorlevel_digits env false digits cmd w hne hd hSW]
    by_cases h : env.return_code ≥ decimalValue digits % 256 <;> simp [h]
  · rw [e2, CMD_IF_not_errorlevel, ifErrorlevel_digits env true digits cmd w hne hd hSW]
    by_cases h : env.return_code ≥ decimalValue digits % 256
    · have h' : ¬ env.return_code < decimalValue digits % 256 := by omega
      simp [h, h']
    · have h' : env.return_code < decimalValue digits % 256 := by omega
      simp [h, h']

/-- Witness of C6: `IF ERRORLEVEL 2 echo hi` with last exit code 3. -/
theorem if_errorlevel_threshold_witness :
    CMD_IF (exampleEnv 3 []) (" ERRORLEVEL ".toList ++ "2".toList ++ ' ' :: "echo hi".toList)
      = (if (exampleEnv 3 []).return_code ≥ decimalValue "2".toList % 256
         then Outcome.DoCommand "echo hi".toList else Outcome.nothing) :=
  (if_errorlevel_threshold (exampleEnv 3 []) "2".toList "echo hi".toList ' '
    (by decide) (by decide) (by decide) (by decide)).1

/-- C6 as stated fails: with last exit code 0, `IF ERRORLEVEL 256 echo hi` dispatches
the command although 0 < 256; the 8-bit counter holds 0 after the digits 256. -/
theorem if_errorlevel_threshold_counterexample :
    ¬ (∀ (env : ShellEnv) (digits cmd : List Char) (w : Char),
        digits ≠ [] → (∀ d ∈ digits, isdigit d = true) → isspace w = true →
        env.return_code ≤ 255 →
        env.StripWord (digits ++ w :: cmd) = (digits, cmd) →
        (CMD_IF env (" ERRORLEVEL ".toList ++ digits ++ w :: cmd) = Outcome.DoCommand cmd
          ↔ env.return_code ≥ decimalValue digits)) := by
  intro h
  have h0 := h (exampleEnv 0 []) "256".toList "echo hi".toList ' '
    (by decide) (by decide) (by decide) (by decide) (by decide)
  revert h0
  decide

theorem CMD_IF_exist (env : ShellEnv) (line : List Char) :
    CMD_IF env (" EXIST ".toList ++ line) = ifExist env false line := by
  have h1 : StripSpacesAlso (" EXIST ".toList ++ line) '=' = "EXIST ".toList ++ line := by
    simp [StripSpacesAlso, List.dropWhile, isspace]
  have h2 : startsWithNoCase ("EXIST ".toList ++ line) "NOT".toList = false := by
    simp [startsWithNoCase, tolower]
  have h3 : startsWithNoCase ("EXIST ".toList ++ line) "ERRORLEVEL".toList = false := by
    simp [startsWithNoCase, tolower]
  have h4 : startsWithNoCase ("EXIST ".toList ++ line) "EXIST ".toList = true :=
    startsWithNoCase_append _ _
  have h5 : List.drop 6 ("EXIST ".toList ++ line) = line := by simp
  unfold CMD_IF
  simp only []
  rw [h1, skipNots_of_not_NOT _ _ _ h2]
  simp only [h3, h4, if_true, h5, Bool.false_eq_true, if_false]

theorem CMD_IF_not_exist (env : ShellEnv) (line : List Char) :
    CMD_IF env (" NOT EXIST ".toList ++ line) = ifExist env true line := by
  have h1 : StripSpacesAlso (" NOT EXIST ".toList ++ line) '=' = "NOT EXIST ".toList ++ line := by
    simp [StripSpacesAlso, List.dropWhile, isspace]
  have h2 : startsWithNoCase ("EXIST ".toList ++ line) "NOT".toList = false := by
    simp [startsWithNoCase, tolower]
  have h3 : startsWithNoCase ("EXIST ".toList ++ line) "ERRORLEVEL".toList = false := by
    simp [startsWithNoCase, tolower]
  have h4 : startsWithNoCase ("EXIST ".toList ++ line) "EXIST ".toList = true :=
    startsWithNoCase_append _ _
  have h5 : List.drop 6 ("EXIST ".toList ++ line) = line := by simp
  have h6 : skipNots ("NOT EXIST ".toList ++ line).length
      ("NOT EXIST ".toList ++ line) false = (true, "EXIST ".toList ++ line) := by
    have hl : ("NOT EXIST ".toList ++ line).length = (line.length + 9) + 1 := by
      simp
    have e1 : startsWithNoCase ("NOT EXIST ".toList ++ line) "NOT".toList = true :=
      startsWithNoCase_append "NOT".toList (" EXIST ".toList ++ line)
    have e2 : StripSpacesAlso (List.drop 3 ("NOT EXIST ".toList ++ line)) '='
        = "EXIST ".toList ++ line := by
      simp [StripSpacesAlso, List.dropWhile, isspace]
    have e3 : (List.drop 3 ("NOT EXIST ".toList ++ line)).head? = some ' ' := by
      simp
    rw [hl]
    unfold skipNots
    rw [e1, e2, e3, skipNots_of_not_NOT _ _ _ h2]
    simp [isspace]
  unfold CMD_IF
  simp only []
  rw [h1, h6]
  simp only [h3, h4, if_true, h5, Bool.false_eq_true, if_false]

/-- C7 (amended): for every line after `EXIST` from which StripArg cuts the path p
and leaves the command rest, p not empty: when the canonicalizer accepts p, `IF
EXIST p rest` dispatches rest if and only if find-first, asked for entries that are
neither directories nor volume labels, finds a match for the search string built
from p, and `IF NOT EXIST p rest` dispatches rest if and only if it finds none;
when the canonicalizer rejects p, nothing is dispatched, with or without NOT. -/
theorem if_exist_dispatch (env : ShellEnv) (line p rest : List Char)
    (hSA : env.StripArg (StripSpaces line) = (p, rest)) (hp : p ≠ []) :
    (∀ full, env.DOS_Canonicalize p = some full →
      CMD_IF env (" EXIST ".toList ++ line)
        = (if env.DOS_FindFirst (existSearch env p full)
              (maskWithout (DOS_ATTR_VOLUME ||| DOS_ATTR_DIRECTORY)) = true
           then Outcome.DoCommand rest else Outcome.nothing) ∧
      CMD_IF env (" NOT EXIST ".toList ++ line)
        = (if env.DOS_FindFirst (existSearch env p full)
              (maskWithout (DOS_ATTR_VOLUME ||| DOS_ATTR_DIRECTORY)) = true
           then Outcome.nothing else Outcome.DoCommand rest)) ∧
    (env.DOS_Canonicalize p = none →
      CMD_IF env (" EXIST ".toList ++ line) = Outcome.nothing ∧
      CMD_IF env (" NOT EXIST ".toList ++ line) = Outcome.nothing) := by
  cases p with
  | nil => exact absurd rfl hp
  | cons c cs =>
    constructor
    · intro full hc
      rw [CMD_IF_exist, CMD_IF_not_exist]
      unfold ifExist
      rw [hSA]
      simp only [hc]
      cases env.DOS_FindFirst (existSearch env (c :: cs) full)
        (maskWithout (DOS_ATTR_VOLUME ||| DOS_ATTR_DIRECTORY)) <;> simp
    · intro hc
      rw [CMD_IF_exist, CMD_IF_not_exist]
      unfold ifExist
      rw [hSA]
      simp only [hc, and_self]

/-- Witness of C7: `IF EXIST X.TXT goto a` and `IF NOT EXIST X.TXT goto a` where the
search for `X.TXT` succeeds. -/
theorem if_exist_dispatch_witness :
    CMD_IF (exampleEnv 0 ["X.TXT".toList]) (" EXIST ".toList ++ "X.TXT goto a".toList)
      = Outcome.DoCommand "goto a".toList ∧
    CMD_IF (exampleEnv 0 ["X.TXT".toList]) (" NOT EXIST ".toList ++ "X.TXT goto a".toList)
      = Outcome.nothing :=
  (if_exist_dispatch (exampleEnv 0 ["X.TXT".toList]) "X.TXT goto a".toList "X.TXT".toList
    "goto a".toList (by decide) (by decide)).1 "X.TXT".toList (by decide)

/-- C7 as stated fails: where the canonicalizer rejects the path, and find-first
finds nothing whatever it is asked, `IF NOT EXIST q:\x goto skip` does not dispatch
the GOTO: the handler returns without doing anything. -/
theorem if_exist_dispatch_counterexample :
    rejectingEnv.StripArg (StripSpaces "q:\\x goto skip".toList)
      = ("q:\\x".toList, "goto skip".toList) ∧
    rejectingEnv.DOS_FindFirst = (fun _ _ => false) ∧
    CMD_IF rejectingEnv (" NOT EXIST ".toList ++ "q:\\x goto skip".toList) = Outcome.nothing ∧
    CMD_IF rejectingEnv (" NOT EXIST ".toList ++ "q:\\x goto skip".toList)
      ≠ Outcome.DoCommand "goto skip".toList := by
  refine ⟨by decide, rfl, by decide, by decide⟩

/-! ## DEL -/

theorem sureRun_resolved (s : PromptState) (l : List Char) (h : s.resolved = true) :
    sureRun s l = (s, [], l) := by
  cases l with
  | nil => rfl
  | cons c cs => simp [sureRun, h]

theorem sureRun_cons (s : PromptState) (c : Char) (cs : List Char) (h : s.resolved = false) :
    sureRun s (c :: cs) =
      ((sureRun (sureStep s c).1 cs).1, (sureStep s c).2 ++ (sureRun (sureStep s c).1 cs).2.1,
        (sureRun (sureStep s c).1 cs).2.2) := by
  simp [sureRun, h]

/-- Two characters that lead from `s1` through `s2` to a resolved state `s3`. -/
theorem sureRun_two (s1 s2 s3 : PromptState) (c1 c2 : Char) (rest : List Char)
    (o1 o2 : List Out) (h1 : s1.resolved = false) (e1 : sureStep s1 c1 = (s2, o1))
    (h2 : s2.resolved = false) (e2 : sureStep s2 c2 = (s3, o2)) (h3 : s3.resolved = true) :
    sureRun s1 (c1 :: c2 :: rest) = (s3, o1 ++ o2, rest) := by
  rw [sureRun_cons s1 c1 _ h1, e1]
  simp only []
  rw [sureRun_cons s2 c2 _ h2, e2]
  simp only []
  rw [sureRun_resolved s3 rest h3]
  simp

/-- Backspace takes every state that has not resolved to `AwaitingInput`. -/
theorem sureStep_backspace (s : PromptState) (h : s.resolved = false) :
    (sureStep s '\x08').1 = PromptState.AwaitingInput := by
  cases s <;> first | rfl | cases h

/-- A run that has not resolved on `u` has read all of `u` and goes on from the
state it reached. -/
theorem sureRun_append (s : PromptState) (u v : List Char)
    (h : (sureRun s u).1.resolved = false) :
    (sureRun s (u ++ v)).1 = (sureRun (sureRun s u).1 v).1 ∧
    (sureRun s (u ++ v)).2.2 = (sureRun (sureRun s u).1 v).2.2 := by
  induction u generalizing s with
  | nil => simp [sureRun]
  | cons c cs ih =>
    cases hs : s.resolved with
    | true =>
      rw [sureRun_resolved s _ hs] at h
      rw [hs] at h
      cases h
    | false =>
      rw [sureRun_cons s c cs hs] at h ⊢
      rw [List.cons_append, sureRun_cons s c (cs ++ v) hs]
      exact ih (sureStep s c).1 h

/-- The outcome of some `IF` lines, evaluated. -/
theorem CMD_IF_examples :
    CMD_IF (exampleEnv 2 []) " ERRORLEVEL 2 echo hi".toList
      = Outcome.DoCommand "echo hi".toList ∧
    CMD_IF (exampleEnv 3 []) " ERRORLEVEL 2 echo hi".toList
      = Outcome.DoCommand "echo hi".toList ∧
    CMD_IF (exampleEnv 0 []) " ERRORLEVEL 2 echo hi".toList = Outcome.nothing ∧
    CMD_IF (exampleEnv 1 []) " ERRORLEVEL 2 echo hi".toList = Outcome.nothing ∧
    CMD_IF (exampleEnv 1 []) " NOT ERRORLEVEL 2 echo hi".toList
      = Outcome.DoCommand "echo hi".toList ∧
    CMD_IF (exampleEnv 0 ["X.TXT".toList]) " EXIST X.TXT goto a".toList
      = Outcome.DoCommand "goto a".toList ∧
    CMD_IF (exampleEnv 0 []) " NOT EXIST X.TXT goto a".toList
      = Outcome.DoCommand "goto a".toList ∧
    CMD_IF (exampleEnv 0 []) " a==a goto a".toList = Outcome.DoCommand "goto a".toList ∧
    CMD_IF (exampleEnv 0 []) " not a==b goto a".toList = Outcome.DoCommand "goto a".toList ∧
    CMD_IF (exampleEnv 0 []) " a=b goto a".toList = Outcome.SyntaxError := by
  decide

theorem unlinkEntry_unlinks {σ : Type} (env : DelEnv σ) (optF : Bool) (full shown : List Char)
    (attr : Nat) (st : DelState σ) (hfull : full ≠ []) :
    MutCall.UnlinkFile (quotePath env.uselfn full)
      ∈ (unlinkEntry env optF full shown attr st).calls ∧
    ∀ c ∈ st.calls, c ∈ (unlinkEntry env optF full shown attr st).calls := by
  have h0 : (full.length != 0) = true := by
    simpa using hfull
  unfold unlinkEntry
  simp only [h0, if_true]
  constructor
  · simp
  · intro c hc
    simp [hc]

theorem delLoop_mono {σ : Type} (env : DelEnv σ) (optP optF : Bool) (dir sdir : List Char)
    (es : List DtaResult) (input : List Char) (st : DelState σ) :
    ∀ c ∈ st.calls, c ∈ (delLoop env optP optF dir sdir es input st).1.calls := by
  induction es generalizing input st with
  | nil => intro c hc; exact hc
  | cons e es ih =>
    intro c hc
    have hu : ∀ (shown : List Char) (st2 : DelState σ), c ∈ st2.calls →
        c ∈ (unlinkEntry env optF (dir ++ e.name) shown e.attr st2).calls := by
      intro shown st2 h2
      unfold unlinkEntry
      split_ifs
      · simp [h2]
      · exact h2
    cases input with
    | nil =>
      simp only [delLoop]
      split_ifs <;>
        first
        | exact hc
        | exact ih _ _ c hc
        | exact ih _ _ c (hu _ _ hc)
    | cons ch cs =>
      simp only [delLoop]
      split_ifs <;>
        first
        | exact hc
        | exact ih _ _ c hc
        | exact ih _ _ c (hu _ _ hc)

/-- Without `/P` the loop calls `DOS_UnlinkFile` on the path of every entry that is
no directory and is not read-only unless `/F` is given. -/
theorem delLoop_unlinks {σ : Type} (env : DelEnv σ) (optF : Bool) (dir sdir : List Char)
    (es : List DtaResult) (input : List Char) (st : DelState σ) (hdir : dir ≠ []) :
    ∀ e ∈ es, e.isDir = false → (optF = true ∨ e.attr &&& DOS_ATTR_READ_ONLY = 0) →
      MutCall.UnlinkFile (quotePath env.uselfn (dir ++ e.name))
        ∈ (delLoop env false optF dir sdir es input st).1.calls := by
  induction es generalizing input st with
  | nil => intro e he; cases he
  | cons x es ih =>
    intro e he hfile hro
    have hne : dir ++ x.name ≠ [] := fun h => hdir (List.append_eq_nil.mp h).1
    rcases List.mem_cons.mp he with rfl | hin
    · have hskip : (!optF && (e.attr &&& DOS_ATTR_READ_ONLY != 0)) = false := by
        rcases hro with h | h
        · simp [h]
        · simp [h]
      simp only [delLoop, hfile, Bool.not_false, Bool.and_true, hskip, Bool.false_eq_true,
        if_false, if_true]
      exact delLoop_mono env false optF dir sdir es input _ _
        (unlinkEntry_unlinks env optF _ _ _ _ hne).1
    · simp only [delLoop, Bool.false_eq_true, if_false]
      split_ifs <;> exact ih _ _ e hin hfile hro

/-- C8: in the confirmation prompt of DEL started in AwaitingInput, `y` or `Y`
followed by Enter resolves to Confirmed(yes) and the command goes on with the
deletion: it is the deletion phase run on the input that is left, and (without
`/P`, on a path the canonicalizer accepts) it returns after a call of
`DOS_UnlinkFile` on the path of every entry the enumerator delivers that is no
directory and is not read-only unless `/F` is given; `y` or `Y` followed by Ctrl-C
resolves to Cancelled and the command returns without a call of a mutator; `n` or
`N` followed by Enter resolves to Confirmed(no) and the command returns without a
call of a mutator. -/
theorem del_sure_resolution {σ : Type} (env : DelEnv σ) (optP optF : Bool)
    (args rest : List Char) (fs : σ) (c : Char) (hall : deletesAll args = true) :
    (c = 'y' ∨ c = 'Y' →
      (sureRun PromptState.AwaitingInput (c :: '\r' :: rest)).1 = PromptState.ConfirmedYes ∧
      CMD_DELETE env optP optF false args (c :: '\r' :: rest) fs
        = deletePhase env optP optF args rest
            ⟨fs, [Out.msg "SHELL_CMD_DEL_SURE" [], Out.echo c, Out.text "\n"], [],
              false, false, false⟩ ∧
      (∀ (full : List Char) (r : Nat), optP = false →
        env.DOS_Canonicalize args = some full → strrchr full '\\' = some r →
        ∃ fin, CMD_DELETE env optP optF false args (c :: '\r' :: rest) fs = some fin ∧
          ∀ e ∈ env.findAll fs (delSearch env args full) (maskWithout DOS_ATTR_VOLUME),
            e.isDir = false → (optF = true ∨ e.attr &&& DOS_ATTR_READ_ONLY = 0) →
            MutCall.UnlinkFile (quotePath env.uselfn (full.take (r + 1) ++ e.name))
              ∈ fin.calls)) ∧
    (c = 'y' ∨ c = 'Y' →
      (sureRun PromptState.AwaitingInput (c :: '\x03' :: rest)).1 = PromptState.Cancelled ∧
      CMD_DELETE env optP optF false args (c :: '\x03' :: rest) fs
        = some ⟨fs, [Out.msg "SHELL_CMD_DEL_SURE" [], Out.echo c, Out.text "^C\n"], [],
            false, true, false⟩) ∧
    (c = 'n' ∨ c = 'N' →
      (sureRun PromptState.AwaitingInput (c :: '\r' :: rest)).1 = PromptState.ConfirmedNo ∧
      CMD_DELETE env optP optF false args (c :: '\r' :: rest) fs
        = some ⟨fs, [Out.msg "SHELL_CMD_DEL_SURE" [], Out.echo c, Out.text "\n"], [],
            false, false, false⟩) := by
  have hy1 : ∀ d, d = 'y' ∨ d = 'Y' →
      sureRun PromptState.AwaitingInput (d :: '\r' :: rest)
        = (PromptState.ConfirmedYes, [Out.echo d, Out.text "\n"], rest) := by
    intro d hd
    have e1 : sureStep PromptState.AwaitingInput d = (PromptState.AfterYes, [Out.echo d]) := by
      rcases hd with rfl | rfl <;> rfl
    exact sureRun_two PromptState.AwaitingInput PromptState.AfterYes PromptState.ConfirmedYes
      d '\r' rest _ _ rfl e1 rfl rfl rfl
  have hy2 : ∀ d, d = 'y' ∨ d = 'Y' →
      sureRun PromptState.AwaitingInput (d :: '\x03' :: rest)
        = (PromptState.Cancelled, [Out.echo d, Out.text "^C\n"], rest) := by
    intro d hd
    have e1 : sureStep PromptState.AwaitingInput d = (PromptState.AfterYes, [Out.echo d]) := by
      rcases hd with rfl | rfl <;> rfl
    exact sureRun_two PromptState.AwaitingInput PromptState.AfterYes PromptState.Cancelled
      d '\x03' rest _ _ rfl e1 rfl rfl rfl
  have hn1 : ∀ d, d = 'n' ∨ d = 'N' →
      sureRun PromptState.AwaitingInput (d :: '\r' :: rest)
        = (PromptState.ConfirmedNo, [Out.echo d, Out.text "\n"], rest) := by
    intro d hd
    have e1 : sureStep PromptState.AwaitingInput d = (PromptState.AfterNo, [Out.echo d]) := by
      rcases hd with rfl | rfl <;> rfl
    exact sureRun_two PromptState.AwaitingInput PromptState.AfterNo PromptState.ConfirmedNo
      d '\r' rest _ _ rfl e1 rfl rfl rfl
  have hdel : c = 'y' ∨ c = 'Y' →
      CMD_DELETE env optP optF false args (c :: '\r' :: rest) fs
        = deletePhase env optP optF args rest
            ⟨fs, [Out.msg "SHELL_CMD_DEL_SURE" [], Out.echo c, Out.text "\n"], [],
              false, false, false⟩ := by
    intro hc
    simp [CMD_DELETE, hall, hy1 c hc, DelState.write]
  refine ⟨fun hc => ⟨by rw [hy1 c hc], hdel hc, ?_⟩, fun hc => ⟨by rw [hy2 c hc], ?_⟩,
    fun hc => ⟨by rw [hn1 c hc], ?_⟩⟩
  · intro full r hP hcan hr
    subst hP
    rw [hdel hc]
    unfold deletePhase
    simp only [hcan, hr]
    have hdirne : full.take (r + 1) ≠ [] := by
      have hlt := (strrchr_some_split full '\\' r hr).2.2
      intro h
      have hl := List.length_take (r + 1) full
      rw [h, List.length_nil] at hl
      omega
    cases hfind : env.findAll fs (delSearch env args full) (maskWithout DOS_ATTR_VOLUME) with
    | nil => exact ⟨_, rfl, fun e he => absurd he (List.not_mem_nil _)⟩
    | cons x xs =>
      refine ⟨_, rfl, fun e he hfile hro => ?_⟩
      have hmem := delLoop_unlinks env optF (full.take (r + 1)) (full.take (r + 1)) (x :: xs)
        rest ⟨fs, [Out.msg "SHELL_CMD_DEL_SURE" [], Out.echo c, Out.text "\n"], [],
          false, false, false⟩ hdirne e he hfile hro
      split_ifs
      · exact hmem
      · exact hmem
  · simp [CMD_DELETE, hall, hy2 c hc, DelState.write]
  · simp [CMD_DELETE, hall, hn1 c hc, DelState.write]

/-- C9: in every state of the confirmation prompt of DEL that has not resolved,
Backspace leads to AwaitingInput without a decision: for every input prefix u on
which the prompt has not resolved and every suffix v, the state reached and the
characters left unread on u, Backspace, v are those on v alone. -/
theorem del_sure_backspace (u v : List Char)
    (h : (sureRun PromptState.AwaitingInput u).1.resolved = false) :
    (sureStep (sureRun PromptState.AwaitingInput u).1 '\x08').1 = PromptState.AwaitingInput ∧
    (sureRun PromptState.AwaitingInput (u ++ '\x08' :: v)).1
      = (sureRun PromptState.AwaitingInput v).1 ∧
    (sureRun PromptState.AwaitingInput (u ++ '\x08' :: v)).2.2
      = (sureRun PromptState.AwaitingInput v).2.2 := by
  have hb := sureStep_backspace _ h
  obtain ⟨h1, h2⟩ := sureRun_append PromptState.AwaitingInput u ('\x08' :: v) h
  rw [h1, h2, sureRun_cons _ _ _ h, hb]
  exact ⟨rfl, rfl, rfl⟩

/-- Witness of C9: after `y`, `x`, a Backspace and then `n`, Enter resolve to
Confirmed(no), as `n`, Enter alone do. -/
theorem del_sure_backspace_witness :
    (sureStep (sureRun PromptState.AwaitingInput ['y', 'x']).1 '\x08').1
      = PromptState.AwaitingInput ∧
    (sureRun PromptState.AwaitingInput (['y', 'x'] ++ '\x08' :: ['n', '\r'])).1
      = (sureRun PromptState.AwaitingInput ['n', '\r']).1 ∧
    (sureRun PromptState.AwaitingInput (['y', 'x'] ++ '\x08' :: ['n', '\r'])).2.2
      = (sureRun PromptState.AwaitingInput ['n', '\r']).2.2 :=
  del_sure_backspace ['y', 'x'] ['n', '\r'] (by decide)

/-- Witness of C8: `DEL *.*` answered `y`, Enter, with the one file A.TXT: the file is
unlinked and is gone. -/
theorem del_sure_resolution_witness :
    (sureRun PromptState.AwaitingInput ('y' :: '\r' :: [])).1 = PromptState.ConfirmedYes ∧
    (∃ fin,
      CMD_DELETE (listEnv [fileEntry "A.TXT" 0x20]) false false false "*.*".toList
          ('y' :: '\r' :: []) ["C:\\A.TXT".toList] = some fin ∧
      MutCall.UnlinkFile "C:\\A.TXT".toList ∈ fin.calls) ∧
    CMD_DELETE (listEnv [fileEntry "A.TXT" 0x20]) false false false "*.*".toList
        ('y' :: '\r' :: []) ["C:\\A.TXT".toList]
      = some ⟨[], [Out.msg "SHELL_CMD_DEL_SURE" [], Out.echo 'y', Out.text "\n"],
          [MutCall.UnlinkFile "C:\\A.TXT".toList], true, false, false⟩ :=
  have h := (del_sure_resolution (listEnv [fileEntry "A.TXT" 0x20]) false false "*.*".toList []
    ["C:\\A.TXT".toList] 'y' (by decide)).1 (Or.inl rfl)
  ⟨h.1,
    match h.2.2 "C:\\*.*".toList 2 rfl rfl (by decide) with
    | ⟨fin, hfin, hall⟩ =>
      ⟨fin, hfin, hall (fileEntry "A.TXT" 0x20) (by decide) (by decide) (Or.inr (by decide))⟩,
    rfl⟩

theorem unlinkEntry_calls {σ : Type} (env : DelEnv σ) (optF : Bool) (full shown : List Char)
    (attr : Nat) (st : DelState σ) :
    ∀ c ∈ (unlinkEntry env optF full shown attr st).calls,
      c ∈ st.calls ∨ c.path = quotePath env.uselfn full := by
  intro c hc
  unfold unlinkEntry at hc
  by_cases h0 : (full.length != 0) = true
  · simp only [h0, if_true, List.mem_append, List.mem_singleton] at hc
    rcases hc with ((h | h) | h) | h
    · exact Or.inl h
    · right
      split_ifs at h
      · rw [List.mem_singleton.mp h]; rfl
      · cases h
    · right
      rw [h]; rfl
    · right
      split_ifs at h <;>
        first
        | (rw [List.mem_singleton.mp h]; rfl)
        | cases h
  · simp only [h0, Bool.false_eq_true, if_false, DelState.write] at hc
    exact Or.inl hc

theorem unlinkEntry_flags {σ : Type} (env : DelEnv σ) (optF : Bool) (full shown : List Char)
    (attr : Nat) (st : DelState σ) :
    (unlinkEntry env optF full shown attr st).cancelled = st.cancelled ∧
    (unlinkEntry env optF full shown attr st).waiting = st.waiting := by
  unfold unlinkEntry
  by_cases h0 : (full.length != 0) = true
  · simp only [h0, if_true, and_self]
  · simp only [h0, Bool.false_eq_true, if_false, DelState.write, and_self]

/-- A run of the loop over `pre` that was neither cancelled nor left waiting has
passed every entry of `pre`; the loop over `pre ++ l` goes on with `l` from there. -/
theorem delLoop_append {σ : Type} (env : DelEnv σ) (optP optF : Bool) (dir sdir : List Char)
    (pre l : List DtaResult) (input : List Char) (st : DelState σ)
    (hc : (delLoop env optP optF dir sdir pre input st).1.cancelled = false)
    (hw : (delLoop env optP optF dir sdir pre input st).1.waiting = false) :
    delLoop env optP optF dir sdir (pre ++ l) input st
      = delLoop env optP optF dir sdir l (delLoop env optP optF dir sdir pre input st).2
          (delLoop env optP optF dir sdir pre input st).1 := by
  induction pre generalizing input st with
  | nil => simp [delLoop]
  | cons e es ih =>
    cases input with
    | nil =>
      simp only [List.cons_append, delLoop] at hc hw ⊢
      split_ifs at hc hw ⊢ <;> exact ih _ _ hc hw
    | cons c cs =>
      simp only [List.cons_append, delLoop] at hc hw ⊢
      split_ifs at hc hw ⊢ <;> exact ih _ _ hc hw

/-- Every mutator call of the loop is made on the path of one of its entries. -/
theorem delLoop_calls {σ : Type} (env : DelEnv σ) (optP optF : Bool) (dir sdir : List Char)
    (es : List DtaResult) (input : List Char) (st : DelState σ) :
    ∀ c ∈ (delLoop env optP optF dir sdir es input st).1.calls,
      c ∈ st.calls ∨ ∃ e ∈ es, c.path = quotePath env.uselfn (dir ++ e.name) := by
  induction es generalizing input st with
  | nil => intro c hc; exact Or.inl hc
  | cons e es ih =>
    intro c hc
    have lift : ∀ (inp : List Char) (st2 : DelState σ),
        (∀ d ∈ st2.calls, d ∈ st.calls ∨ d.path = quotePath env.uselfn (dir ++ e.name)) →
        c ∈ (delLoop env optP optF dir sdir es inp st2).1.calls →
        c ∈ st.calls ∨ ∃ x ∈ e :: es, c.path = quotePath env.uselfn (dir ++ x.name) := by
      intro inp st2 h2 hmem
      rcases ih inp st2 c hmem with h | ⟨x, hx, hp⟩
      · rcases h2 c h with h' | h'
        · exact Or.inl h'
        · exact Or.inr ⟨e, List.mem_cons_self _ _, h'⟩
      · exact Or.inr ⟨x, List.mem_cons_of_mem _ hx, hp⟩
    cases input with
    | nil =>
      simp only [delLoop] at hc
      split_ifs at hc <;>
        first
        | exact Or.inl hc
        | (refine lift _ _ ?_ hc
           intro d hd
           first
           | exact Or.inl hd
           | (have hu := unlinkEntry_calls env optF _ _ _ _ d hd
              exact hu))
    | cons ch cs =>
      simp only [delLoop] at hc
      split_ifs at hc <;>
        first
        | exact Or.inl hc
        | (refine lift _ _ ?_ hc
           intro d hd
           first
           | exact Or.inl hd
           | (have hu := unlinkEntry_calls env optF _ _ _ _ d hd
              exact hu))

/-- C10: for DEL /P over the matched entries, when the run over the entries before
`ek` has passed them all and Ctrl-C is the character read at the prompt for `ek` (an
entry that is prompted for: no directory, and not read-only unless `/F` is given),
the loop ends there: the file system and the list of mutator calls are those
reached after the entries before `ek`, so every call of unlink or set-attribute is
on the path of an entry before `ek`, the deletions made for them stay, and no entry
from `ek` on is touched. -/
theorem del_cancel_frame {σ : Type} (env : DelEnv σ) (optF : Bool) (dir sdir : List Char)
    (pre post : List DtaResult) (ek : DtaResult) (input rest : List Char) (st : DelState σ)
    (hnext : (delLoop env true optF dir sdir pre input st).2 = '\x03' :: rest)
    (hc : (delLoop env true optF dir sdir pre input st).1.cancelled = false)
    (hw : (delLoop env true optF dir sdir pre input st).1.waiting = false)
    (hro : (!optF && (ek.attr &&& DOS_ATTR_READ_ONLY != 0) && !ek.isDir) = false)
    (hdir : ek.isDir = false) :
    (delLoop env true optF dir sdir (pre ++ ek :: post) input st).1.fs
      = (delLoop env true optF dir sdir pre input st).1.fs ∧
    (delLoop env true optF dir sdir (pre ++ ek :: post) input st).1.calls
      = (delLoop env true optF dir sdir pre input st).1.calls ∧
    (delLoop env true optF dir sdir (pre ++ ek :: post) input st).1.cancelled = true ∧
    (delLoop env true optF dir sdir (pre ++ ek :: post) input st).2 = rest ∧
    (∀ c ∈ (delLoop env true optF dir sdir (pre ++ ek :: post) input st).1.calls,
      c ∈ st.calls ∨ ∃ e ∈ pre, c.path = quotePath env.uselfn (dir ++ e.name)) := by
  have happ := delLoop_append env true optF dir sdir pre (ek :: post) input st hc hw
  have hstep : delLoop env true optF dir sdir (ek :: post) ('\x03' :: rest)
        (delLoop env true optF dir sdir pre input st).1
      = (⟨(delLoop env true optF dir sdir pre input st).1.fs,
          (delLoop env true optF dir sdir pre input st).1.out ++
            [Out.msg "Delete %s (Y/N)?" (if env.uselfn then sdir ++ ek.lname else dir ++ ek.name),
             Out.text "^C\r\n"],
          (delLoop env true optF dir sdir pre input st).1.calls, true, true,
          (delLoop env true optF dir sdir pre input st).1.waiting⟩, rest) := by
    have hro2 : (!optF && (ek.attr &&& DOS_ATTR_READ_ONLY != 0) && true) = false := by
      rw [hdir] at hro
      exact hro
    rw [delLoop]
    simp only [hdir, hro2, Bool.false_eq_true, if_false, Bool.not_false, if_true]
  rw [happ, hnext, hstep]
  refine ⟨rfl, rfl, rfl, rfl, ?_⟩
  exact delLoop_calls env true optF dir sdir pre input st

/-- Witness of C10: `DEL /P` over A.TXT, B.TXT, C.TXT answered `y`, Ctrl-C: A.TXT is
unlinked, B.TXT and C.TXT are still there. -/
theorem del_cancel_frame_witness :
    (delLoop (listEnv []) true false "C:\\".toList "C:\\".toList
      ([fileEntry "A.TXT" 0x20] ++ fileEntry "B.TXT" 0x20 :: [fileEntry "C.TXT" 0x20])
      ['y', '\x03']
      ⟨["C:\\A.TXT".toList, "C:\\B.TXT".toList, "C:\\C.TXT".toList], [], [],
        false, false, false⟩).1.fs
      = ["C:\\B.TXT".toList, "C:\\C.TXT".toList] :=
  (del_cancel_frame (listEnv []) false "C:\\".toList "C:\\".toList
    [fileEntry "A.TXT" 0x20] [fileEntry "C.TXT" 0x20] (fileEntry "B.TXT" 0x20)
    ['y', '\x03'] []
    ⟨["C:\\A.TXT".toList, "C:\\B.TXT".toList, "C:\\C.TXT".toList], [], [], false, false, false⟩
    (by decide) (by decide) (by decide) (by decide) (by decide)).1.trans (by decide)

/-! ## DIR: the attribute filter -/

theorem strcmp_ne_zero_iff (a b : List Char) : (strcmp a b != 0) = true ↔ a ≠ b := by
  constructor
  · intro h e
    rw [e, strcmp_self] at h
    cases h
  · intro h
    rw [bne_iff_ne]
    exact fun e => h (strcmp_eq_zero a b e)

/-- Line 902 of doDir: with no attribute switch an entry is pushed onto `results`
if and only if it carries neither the SYSTEM nor the HIDDEN attribute, or its name is
`..`. -/
theorem dirCollect_default (entries : List DtaResult) (e : DtaResult) :
    (dirSkips noAttrOpts e = false ↔
      (e.has DOS_ATTR_SYSTEM = false ∧ e.has DOS_ATTR_HIDDEN = false) ∨ e.name = "..".toList) ∧
    (e ∈ dirCollect noAttrOpts entries ↔
      e ∈ entries ∧
        ((e.has DOS_ATTR_SYSTEM = false ∧ e.has DOS_ATTR_HIDDEN = false)
          ∨ e.name = "..".toList)) := by
  have key : dirSkips noAttrOpts e = false ↔
      (e.has DOS_ATTR_SYSTEM = false ∧ e.has DOS_ATTR_HIDDEN = false)
        ∨ e.name = "..".toList := by
    have hne := strcmp_ne_zero_iff e.name "..".toList
    unfold dirSkips
    by_cases hn : e.name = "..".toList
    · have h0 : (strcmp e.name "..".toList != 0) = false := by
        rw [hn, strcmp_self]; rfl
      rw [h0]
      simp [noAttrOpts, AttrOpts.any, hn]
    · have h1 : (strcmp e.name "..".toList != 0) = true := hne.mpr hn
      rw [h1]
      cases hs : e.has DOS_ATTR_SYSTEM <;> cases hh : e.has DOS_ATTR_HIDDEN <;>
        simp [noAttrOpts, AttrOpts.any] <;> exact hn
  refine ⟨key, ?_⟩
  rw [dirCollect, List.mem_filter, ← key]
  simp

/-- Lines 892-902 of doDir: with an attribute switch an entry is pushed onto
`results` if and only if it has every attribute named by an active include switch and
lacks every attribute named by an active exclude switch. -/
theorem dirCollect_switch (o : AttrOpts) (entries : List DtaResult) (e : DtaResult)
    (h : o.any = true) :
    (e ∈ dirCollect o entries ↔
      e ∈ entries ∧
        (o.optAD = true → e.has DOS_ATTR_DIRECTORY = true) ∧
        (o.optAS = true → e.has DOS_ATTR_SYSTEM = true) ∧
        (o.optAH = true → e.has DOS_ATTR_HIDDEN = true) ∧
        (o.optAR = true → e.has DOS_ATTR_READ_ONLY = true) ∧
        (o.optAA = true → e.has DOS_ATTR_ARCHIVE = true) ∧
        (o.optAminusD = true → e.has DOS_ATTR_DIRECTORY = false) ∧
        (o.optAminusS = true → e.has DOS_ATTR_SYSTEM = false) ∧
        (o.optAminusH = true → e.has DOS_ATTR_HIDDEN = false) ∧
        (o.optAminusR = true → e.has DOS_ATTR_READ_ONLY = false) ∧
        (o.optAminusA = true → e.has DOS_ATTR_ARCHIVE = false)) := by
  rw [dirCollect, List.mem_filter]
  have key : (!dirSkips o e) = true ↔
      ((o.optAD = true → e.has DOS_ATTR_DIRECTORY = true) ∧
        (o.optAS = true → e.has DOS_ATTR_SYSTEM = true) ∧
        (o.optAH = true → e.has DOS_ATTR_HIDDEN = true) ∧
        (o.optAR = true → e.has DOS_ATTR_READ_ONLY = true) ∧
        (o.optAA = true → e.has DOS_ATTR_ARCHIVE = true) ∧
        (o.optAminusD = true → e.has DOS_ATTR_DIRECTORY = false) ∧
        (o.optAminusS = true → e.has DOS_ATTR_SYSTEM = false) ∧
        (o.optAminusH = true → e.has DOS_ATTR_HIDDEN = false) ∧
        (o.optAminusR = true → e.has DOS_ATTR_READ_ONLY = false) ∧
        (o.optAminusA = true → e.has DOS_ATTR_ARCHIVE = false)) := by
    unfold dirSkips
    rw [h]
    generalize e.has DOS_ATTR_DIRECTORY = hD
    generalize e.has DOS_ATTR_SYSTEM = hS
    generalize e.has DOS_ATTR_HIDDEN = hH
    generalize e.has DOS_ATTR_READ_ONLY = hR
    generalize e.has DOS_ATTR_ARCHIVE = hA
    simp only [Bool.not_true, Bool.false_and, Bool.false_eq_true, if_false, Bool.not_eq_true',
      Bool.and_eq_true, ite_eq_right_iff, Bool.true_eq_false, imp_false, not_and,
      Bool.not_eq_false, Bool.not_eq_true, ite_not]
    cases hD <;> cases hS <;> cases hH <;> cases hR <;> cases hA <;> simp <;> tauto
  rw [key]

/-! ## DIR: the order without a sort key -/

theorem doDirOrder_noKey (sort : SortFn) (r : Bool) (results : List DtaResult) :
    doDirOrder sort ⟨false, false, false, false, false, false, r⟩ results
      = if r then results.reverse else results := by
  simp [doDirOrder]

theorem dirSortFlags_reverse (scan : String → Bool)
    (h : (dirSortFlags scan).anyKey = false) : (dirSortFlags scan).reverseSort = false := by
  unfold dirSortFlags at h ⊢
  unfold SortOpts.anyKey at h
  generalize scan "-O" = mO at h ⊢
  generalize scan "O-N" = rN at h ⊢
  generalize scan "O-D" = rD at h ⊢
  generalize scan "O-E" = rE at h ⊢
  generalize scan "O-S" = rS at h ⊢
  generalize scan "O-G" = rG at h ⊢
  cases mO <;> cases rN <;> cases rD <;> cases rE <;> cases rS <;> cases rG <;> simp_all

/-- The function doDir taken alone, handed the reverse flag without a key, reverses
the enumeration order; by `dirSortFlags_reverse` CMD_DIR, its only caller, never
hands it that. -/
theorem doDirList_reverse_noKey (sort : SortFn) (a : AttrOpts) (entries : List DtaResult) :
    doDirList sort a ⟨false, false, false, false, false, false, true⟩ entries
      = (dirCollect a entries).reverse := by
  simp [doDirList, doDirOrder]

/-! ## IF: negation, string comparison, parse errors -/

theorem CMD_IF_eq_ifBody (env : ShellEnv) (args : List Char) :
    CMD_IF env args =
      ifBody env
        (skipNots (StripSpacesAlso args '=').length (StripSpacesAlso args '=') false).1
        (skipNots (StripSpacesAlso args '=').length (StripSpacesAlso args '=') false).2 := by
  unfold CMD_IF ifBody
  rfl

theorem skipNots_stop (fuel : Nat) (args : List Char) (b : Bool)
    (h : negatingNot args = false) : skipNots fuel args b = (b, args) := by
  cases fuel with
  | zero => rfl
  | succ n =>
    unfold skipNots
    unfold negatingNot at h
    cases hs : startsWithNoCase args "NOT".toList with
    | false => simp
    | true =>
      rw [hs] at h
      simp only [Bool.true_and, Bool.or_eq_false_iff] at h
      have hc : (!((args.drop 3).head?.any isspace) && (args.drop 3).head? != some '=')
          = true := by
        rw [h.1]
        simp only [bne, h.2, Bool.not_false, Bool.and_self]
      simp only [if_true, hc]

theorem StripSpacesAlso_blank (X : List Char) :
    StripSpacesAlso (' ' :: X) '=' = StripSpacesAlso X '=' := by
  simp [StripSpacesAlso, List.dropWhile, isspace]

theorem StripSpacesAlso_nots (k : Nat) (C : List Char) (hC : StripSpacesAlso C '=' = C) :
    StripSpacesAlso (nots k ++ C) '=' = nots k ++ C := by
  cases k with
  | zero => simpa [nots] using hC
  | succ n => simp [nots, StripSpacesAlso, List.dropWhile, isspace]

/-- The loop over `k` tokens `NOT` in front of a line that starts no further round:
the flag is toggled `k` times and the line is what is left. -/
theorem skipNots_nots (k : Nat) (C : List Char) (hC1 : StripSpacesAlso C '=' = C)
    (hC2 : negatingNot C = false) (fuel : Nat) (hf : k ≤ fuel) (b : Bool) :
    skipNots fuel (nots k ++ C) b = (xor b (decide (k % 2 = 1)), C) := by
  induction k generalizing fuel b with
  | zero => simpa [nots] using skipNots_stop fuel C b hC2
  | succ n ih =>
    cases fuel with
    | zero => omega
    | succ f =>
      have e1 : startsWithNoCase (nots (n + 1) ++ C) "NOT".toList = true := by
        have := startsWithNoCase_append "NOT".toList (' ' :: (nots n ++ C))
        simpa [nots] using this
      have e2 : List.drop 3 (nots (n + 1) ++ C) = ' ' :: (nots n ++ C) := by
        simp [nots]
      unfold skipNots
      rw [e1, e2, StripSpacesAlso_blank, StripSpacesAlso_nots n C hC1,
        ih f (by omega) (!b)]
      have hpar : xor (!b) (decide (n % 2 = 1)) = xor b (decide ((n + 1) % 2 = 1)) := by
        rcases Nat.mod_two_eq_zero_or_one n with h | h
        · have h2 : (n + 1) % 2 = 1 := by omega
          cases b <;> simp [h, h2]
        · have h2 : (n + 1) % 2 = 0 := by omega
          cases b <;> simp [h, h2]
      simp [isspace, hpar]

theorem nots_length (k : Nat) : (nots k).length = 4 * k := by
  induction k with
  | zero => rfl
  | succ n ih => simp [nots, ih]; omega

theorem CMD_IF_nots (env : ShellEnv) (k : Nat) (C : List Char)
    (hC1 : StripSpacesAlso C '=' = C) (hC2 : negatingNot C = false) :
    CMD_IF env (' ' :: (nots k ++ C)) = ifBody env (decide (k % 2 = 1)) C := by
  rw [CMD_IF_eq_ifBody, StripSpacesAlso_blank, StripSpacesAlso_nots k C hC1,
    skipNots_nots k C hC1 hC2 _ (by rw [List.length_append, nots_length]; omega) false]
  simp

/-- C15: for every condition line C (not itself starting with a negating NOT) and
every k, the line of k tokens `NOT ` followed by C is handled as C with the
negation flag set exactly when k is odd; so where C is well formed, with truth
value `cond` and command `rest`, the line dispatches `rest` exactly when C alone
does if k is even and exactly when C alone does not if k is odd.  A leading `NOT`
that is not followed by white space or `=` sets no negation. -/
theorem if_not_toggles (env : ShellEnv) (k : Nat) (C : List Char)
    (hC1 : StripSpacesAlso C '=' = C) (hC2 : negatingNot C = false) :
    CMD_IF env (' ' :: (nots k ++ C)) = ifBody env (decide (k % 2 = 1)) C ∧
    CMD_IF env (' ' :: C) = ifBody env false C ∧
    (∀ (cond : Bool) (rest : List Char),
      (∀ b, ifBody env b C
        = if cond == !b then Outcome.DoCommand rest else Outcome.nothing) →
      (k % 2 = 0 →
        (CMD_IF env (' ' :: (nots k ++ C)) = Outcome.DoCommand rest
          ↔ CMD_IF env (' ' :: C) = Outcome.DoCommand rest)) ∧
      (k % 2 = 1 →
        (CMD_IF env (' ' :: (nots k ++ C)) = Outcome.DoCommand rest
          ↔ CMD_IF env (' ' :: C) ≠ Outcome.DoCommand rest))) := by
  have h0 : CMD_IF env (' ' :: C) = ifBody env false C := by
    have := CMD_IF_nots env 0 C hC1 hC2
    simpa [nots] using this
  refine ⟨CMD_IF_nots env k C hC1 hC2, h0, fun cond rest hwf => ⟨fun hk => ?_, fun hk => ?_⟩⟩
  · rw [CMD_IF_nots env k C hC1 hC2, h0]
    simp [hk]
  · have hd : decide (k % 2 = 1) = true := by simp [hk]
    rw [CMD_IF_nots env k C hC1 hC2, h0, hd, hwf true, hwf false]
    cases cond <;> simp

/-- Witness of C15: `NOT NOT NOT ERRORLEVEL 2 echo hi` with exit code 3 is handled as
`ERRORLEVEL 2 echo hi` with the negation flag set. -/
theorem if_not_toggles_witness :
    CMD_IF (exampleEnv 3 []) (' ' :: (nots 3 ++ "ERRORLEVEL 2 echo hi".toList))
      = ifBody (exampleEnv 3 []) (decide (3 % 2 = 1)) "ERRORLEVEL 2 echo hi".toList ∧
    CMD_IF (exampleEnv 3 []) (' ' :: (nots 3 ++ "ERRORLEVEL 2 echo hi".toList))
      = Outcome.nothing :=
  ⟨(if_not_toggles (exampleEnv 3 []) 3 "ERRORLEVEL 2 echo hi".toList
    (by decide) (by decide)).1, by decide⟩

/-- The digit loop stops at the first character that is no digit. -/
theorem errorlevelDigits_stop (n : Nat) (c : Char) (cs : List Char) (d : Char)
    (more : List Char) (h : ∀ x ∈ cs, isdigit x = true) (hd : isdigit d = false) :
    (errorlevelDigits n c (cs ++ d :: more)).2 = d :: more := by
  induction cs generalizing n c with
  | nil => simp [errorlevelDigits, hd]
  | cons x xs ih =>
    have hx : isdigit x = true := h x (List.mem_cons_self _ _)
    have hxs : ∀ y ∈ xs, isdigit y = true := fun y hy => h y (List.mem_cons_of_mem _ hy)
    rw [List.cons_append, errorlevelDigits, if_pos hx]
    exact ih _ _ hxs

/-- C17: if the word CMD_IF cuts off behind ERRORLEVEL does not start with a decimal
digit, or is digits immediately followed by a character that is neither a digit nor
white space, CMD_IF writes an error message and does not dispatch the rest of the
line, with and without NOT. -/
theorem if_errorlevel_parse_error (env : ShellEnv) (tail word rest : List Char)
    (hSW : env.StripWord (StripSpacesAlso tail '=') = (word, rest)) :
    ((∀ c, word.head? = some c → isdigit c = false) →
      CMD_IF env (" ERRORLEVEL".toList ++ tail)
        = Outcome.WriteOut "SHELL_CMD_IF_ERRORLEVEL_MISSING_NUMBER" ∧
      CMD_IF env (" NOT ERRORLEVEL".toList ++ tail)
        = Outcome.WriteOut "SHELL_CMD_IF_ERRORLEVEL_MISSING_NUMBER") ∧
    (∀ (digits : List Char) (c : Char) (more : List Char),
      word = digits ++ c :: more → digits ≠ [] → (∀ d ∈ digits, isdigit d = true) →
      isdigit c = false → isspace c = false →
      CMD_IF env (" ERRORLEVEL".toList ++ tail)
        = Outcome.WriteOut "SHELL_CMD_IF_ERRORLEVEL_INVALID_NUMBER" ∧
      CMD_IF env (" NOT ERRORLEVEL".toList ++ tail)
        = Outcome.WriteOut "SHELL_CMD_IF_ERRORLEVEL_INVALID_NUMBER") := by
  rw [CMD_IF_errorlevel, CMD_IF_not_errorlevel]
  constructor
  · intro h
    have key : ∀ b, ifErrorlevel env b tail
        = Outcome.WriteOut "SHELL_CMD_IF_ERRORLEVEL_MISSING_NUMBER" := by
      intro b
      unfold ifErrorlevel
      rw [hSW]
      cases word with
      | nil => rfl
      | cons c cs =>
        have hc : isdigit c = false := h c rfl
        simp [hc]
    exact ⟨key false, key true⟩
  · intro digits c more hw hne hd hc hs
    have key : ∀ b, ifErrorlevel env b tail
        = Outcome.WriteOut "SHELL_CMD_IF_ERRORLEVEL_INVALID_NUMBER" := by
      intro b
      unfold ifErrorlevel
      rw [hSW, hw]
      cases digits with
      | nil => exact absurd rfl hne
      | cons d ds =>
        have hd0 : isdigit d = true := hd d (List.mem_cons_self _ _)
        have hds : ∀ x ∈ ds, isdigit x = true := fun x hx => hd x (List.mem_cons_of_mem _ hx)
        have hstop := errorlevelDigits_stop 0 d ds c more hds hc
        simp only [List.cons_append, hd0, Bool.not_true, Bool.false_eq_true, if_false]
        rw [hstop]
        simp [hs]
    exact ⟨key false, key true⟩

/-- Witness of C17: `IF ERRORLEVEL 2x echo hi` and `IF NOT ERRORLEVEL 2x echo hi`. -/
theorem if_errorlevel_parse_error_witness :
    CMD_IF (exampleEnv 0 []) (" ERRORLEVEL".toList ++ " 2x echo hi".toList)
      = Outcome.WriteOut "SHELL_CMD_IF_ERRORLEVEL_INVALID_NUMBER" ∧
    CMD_IF (exampleEnv 0 []) (" NOT ERRORLEVEL".toList ++ " 2x echo hi".toList)
      = Outcome.WriteOut "SHELL_CMD_IF_ERRORLEVEL_INVALID_NUMBER" :=
  (if_errorlevel_parse_error (exampleEnv 0 []) " 2x echo hi".toList "2x".toList
    "echo hi".toList (by decide)).2 "2".toList 'x' [] (by decide) (by decide) (by decide)
    (by decide) (by decide)

theorem startsWithNoCase_iff (s kw : List Char) :
    startsWithNoCase s kw = true ↔ (s.take kw.length).map tolower = kw.map tolower := by
  simp [startsWithNoCase]

/-- A line that starts with a keyword, cut in front of a character the keyword does
not hold: the keyword lies in the part in front of the cut. -/
theorem startsWithNoCase_of_append (kw w t : List Char) (c : Char)
    (hc : tolower c ∉ kw.map tolower)
    (h : startsWithNoCase (w ++ c :: t) kw = true) :
    startsWithNoCase w kw = true ∧ kw.length ≤ w.length := by
  induction kw generalizing w with
  | nil => simp [startsWithNoCase]
  | cons x xs ih =>
    have hc' : tolower c ∉ xs.map tolower := fun hm => hc (by simp [hm])
    cases w with
    | nil =>
      rw [startsWithNoCase_iff] at h
      simp at h
      exact absurd (by simp [h.1]) hc
    | cons y ys =>
      rw [startsWithNoCase_iff] at h ⊢
      simp only [List.cons_append, List.length_cons, List.take_succ_cons, List.map_cons,
        List.cons.injEq] at h ⊢
      have ih' := ih ys hc' ((startsWithNoCase_iff _ _).mpr h.2)
      exact ⟨⟨h.1, (startsWithNoCase_iff _ _).mp ih'.1⟩, by omega⟩

theorem inWord_not_strip (c : Char) (h : inWord c = true) :
    (isspace c || c == '=') = false := by
  unfold inWord at h
  cases hs : isspace c <;> cases he : (c == '=') <;> simp_all

theorem StripSpacesAlso_word (c : Char) (l : List Char) (h : inWord c = true) :
    StripSpacesAlso (c :: l) '=' = c :: l := by
  simp only [StripSpacesAlso, List.dropWhile, inWord_not_strip c h]

theorem takeWhile_inWord_append (w : List Char) (d : Char) (t : List Char)
    (hw : ∀ c ∈ w, inWord c = true) (hd : inWord d = false) :
    (w ++ d :: t).takeWhile inWord = w ∧ (w ++ d :: t).dropWhile inWord = d :: t := by
  induction w with
  | nil => simp [List.takeWhile, List.dropWhile, hd]
  | cons x xs ih =>
    have hx : inWord x = true := hw x (List.mem_cons_self _ _)
    have hxs : ∀ c ∈ xs, inWord c = true := fun c hc => hw c (List.mem_cons_of_mem _ hc)
    simp only [List.cons_append, List.takeWhile_cons, List.dropWhile_cons, hx, if_true]
    exact ⟨by rw [(ih hxs).1], (ih hxs).2⟩

theorem tolower_blank (c : Char) (h : tolower c = ' ') : c = ' ' := by
  unfold tolower at h
  split_ifs at h with hc
  · exfalso
    obtain ⟨h1, h2⟩ := hc
    generalize c.toNat = n at h h1 h2
    interval_cases n <;> revert h <;> decide
  · exact h

theorem inWord_ne_blank (c : Char) (h : inWord c = true) : c ≠ ' ' := by
  intro e
  rw [e] at h
  revert h
  decide

/-- A word in front of `=` starts no round of the loop over the `NOT`s, unless the
word is `NOT` itself. -/
theorem negatingNot_word (w t : List Char) (hw : ∀ c ∈ w, inWord c = true)
    (hk : w.map tolower ≠ "not".toList) : negatingNot (w ++ '=' :: t) = false := by
  unfold negatingNot
  cases hs : startsWithNoCase (w ++ '=' :: t) "NOT".toList with
  | false => rfl
  | true =>
    obtain ⟨h1, h2⟩ := startsWithNoCase_of_append "NOT".toList w t '=' (by decide) hs
    rw [startsWithNoCase_iff] at h1
    match w, hw, hk, h1, h2 with
    | [a, b, c], _, hk, h1, _ =>
      exact absurd (by simpa using h1) hk
    | a :: b :: c :: d :: w', hw, _, _, _ =>
      have hd : inWord d = true := hw d (by simp)
      have hd2 := inWord_not_strip d hd
      simp only [Bool.or_eq_false_iff] at hd2
      simp [hd2.1, hd2.2]

theorem not_EXIST_word (w t : List Char) (hw : ∀ c ∈ w, inWord c = true) :
    startsWithNoCase (w ++ '=' :: t) "EXIST ".toList = false := by
  cases hs : startsWithNoCase (w ++ '=' :: t) "EXIST ".toList with
  | false => rfl
  | true =>
    exfalso
    obtain ⟨h1, h2⟩ := startsWithNoCase_of_append "EXIST ".toList w t '=' (by decide) hs
    rw [startsWithNoCase_iff] at h1
    match w, hw, h1, h2 with
    | a :: b :: c :: d :: e :: f :: w', hw, h1, _ =>
      have hf : inWord f = true := hw f (by simp)
      have h6 : tolower f = ' ' := by
        simp at h1
        exact h1.2.2.2.2.2
      exact inWord_ne_blank f hf (tolower_blank f h6)

theorem not_ERRORLEVEL_word (w t : List Char)
    (hk : startsWithNoCase w "ERRORLEVEL".toList = false) :
    startsWithNoCase (w ++ '=' :: t) "ERRORLEVEL".toList = false := by
  cases hs : startsWithNoCase (w ++ '=' :: t) "ERRORLEVEL".toList with
  | false => rfl
  | true =>
    have := (startsWithNoCase_of_append "ERRORLEVEL".toList w t '=' (by decide) hs).1
    rw [hk] at this
    cases this

/-- A word in front of `=` is handled by the string comparison. -/
theorem CMD_IF_word (env : ShellEnv) (w t : List Char) (hne : w ≠ [])
    (hw : ∀ c ∈ w, inWord c = true) (hk1 : w.map tolower ≠ "not".toList)
    (hk2 : startsWithNoCase w "ERRORLEVEL".toList = false) :
    CMD_IF env (' ' :: (w ++ '=' :: t)) = ifCompare false (w ++ '=' :: t) ∧
    CMD_IF env (" NOT ".toList ++ (w ++ '=' :: t)) = ifCompare true (w ++ '=' :: t) := by
  have hstrip : StripSpacesAlso (w ++ '=' :: t) '=' = w ++ '=' :: t := by
    cases w with
    | nil => exact absurd rfl hne
    | cons c cs => exact StripSpacesAlso_word c _ (hw c (List.mem_cons_self _ _))
  have hneg := negatingNot_word w t hw hk1
  have hbody : ∀ b, ifBody env b (w ++ '=' :: t) = ifCompare b (w ++ '=' :: t) := by
    intro b
    unfold ifBody
    rw [not_ERRORLEVEL_word w t hk2, not_EXIST_word w t hw]
    simp
  have h0 := CMD_IF_nots env 0 (w ++ '=' :: t) hstrip hneg
  have h1 := CMD_IF_nots env 1 (w ++ '=' :: t) hstrip hneg
  simp only [nots, List.nil_append] at h0
  have e1 : ' ' :: (nots 1 ++ (w ++ '=' :: t)) = " NOT ".toList ++ (w ++ '=' :: t) := by
    simp [nots]
  rw [e1] at h1
  rw [h0, h1, hbody, hbody]
  simp

theorem strcmp_eq_zero_iff (a b : List Char) : strcmp a b = 0 ↔ a = b :=
  ⟨strcmp_eq_zero a b, fun h => by rw [h, strcmp_self]⟩

theorem ifCompare_double (b : Bool) (w1 w2 rest : List Char) (h2 : w2 ≠ [])
    (hw1 : ∀ c ∈ w1, inWord c = true) (hw2 : ∀ c ∈ w2, inWord c = true) :
    ifCompare b (w1 ++ '=' :: '=' :: (w2 ++ ' ' :: rest)) =
      if decide (w1 = w2) == !b then Outcome.DoCommand (StripSpacesAlso rest '=')
      else Outcome.nothing := by
  have hEq : inWord '=' = false := by decide
  have hSp : inWord ' ' = false := by decide
  obtain ⟨t1, d1⟩ := takeWhile_inWord_append w1 '=' ('=' :: (w2 ++ ' ' :: rest)) hw1 hEq
  obtain ⟨t2, d2⟩ := takeWhile_inWord_append w2 ' ' rest hw2 hSp
  have hstrip : StripSpacesAlso (w2 ++ ' ' :: rest) '=' = w2 ++ ' ' :: rest := by
    cases w2 with
    | nil => exact absurd rfl h2
    | cons c cs => exact StripSpacesAlso_word c _ (hw2 c (List.mem_cons_self _ _))
  unfold ifCompare
  simp only [t1, d1]
  have e1 : List.dropWhile (fun c => c != '=') ('=' :: '=' :: (w2 ++ ' ' :: rest))
      = '=' :: '=' :: (w2 ++ ' ' :: rest) := by
    simp [List.dropWhile]
  rw [e1]
  simp only [List.head?_cons, bne_self_eq_false, Bool.false_eq_true, if_false,
    List.drop_succ_cons, List.drop_zero, hstrip, t2, d2]
  by_cases h : w1 = w2
  · simp [h, strcmp_self]
  · have hne : strcmp w1 w2 ≠ 0 := fun e => h (strcmp_eq_zero _ _ e)
    simp [h, hne]

theorem ifCompare_single (b : Bool) (w1 w2 rest : List Char) (h2 : w2 ≠ [])
    (hw1 : ∀ c ∈ w1, inWord c = true) (hw2 : ∀ c ∈ w2, inWord c = true) :
    ifCompare b (w1 ++ '=' :: (w2 ++ ' ' :: rest)) = Outcome.SyntaxError := by
  have hEq : inWord '=' = false := by decide
  obtain ⟨t1, d1⟩ := takeWhile_inWord_append w1 '=' (w2 ++ ' ' :: rest) hw1 hEq
  unfold ifCompare
  simp only [t1, d1]
  have e1 : List.dropWhile (fun c => c != '=') ('=' :: (w2 ++ ' ' :: rest))
      = '=' :: (w2 ++ ' ' :: rest) := by
    simp [List.dropWhile]
  rw [e1]
  cases w2 with
  | nil => exact absurd rfl h2
  | cons c cs =>
    have hc : inWord c = true := hw2 c (List.mem_cons_self _ _)
    have hce : c ≠ '=' := by
      intro e
      rw [e] at hc
      revert hc
      decide
    simp [hce]

/-- C16 (amended): for all non-empty words w1, w2 containing no white space and no
`=`, where w1 is not `NOT` and does not begin with `ERRORLEVEL` (in any case), and
every command rest: `IF w1==w2 rest` dispatches rest if and only if w1 and w2 are
equal character by character, and does nothing otherwise; with one NOT it
dispatches if and only if they differ; and `IF w1=w2 rest`, with a single `=`,
reports a syntax error and dispatches nothing. -/
theorem if_string_compare (env : ShellEnv) (w1 w2 rest : List Char)
    (h1 : w1 ≠ []) (h2 : w2 ≠ [])
    (hw1 : ∀ c ∈ w1, inWord c = true) (hw2 : ∀ c ∈ w2, inWord c = true)
    (hk1 : w1.map tolower ≠ "not".toList)
    (hk2 : startsWithNoCase w1 "ERRORLEVEL".toList = false) :
    CMD_IF env (' ' :: (w1 ++ '=' :: '=' :: (w2 ++ ' ' :: rest)))
      = (if w1 = w2 then Outcome.DoCommand (StripSpacesAlso rest '=') else Outcome.nothing) ∧
    CMD_IF env (" NOT ".toList ++ (w1 ++ '=' :: '=' :: (w2 ++ ' ' :: rest)))
      = (if w1 = w2 then Outcome.nothing else Outcome.DoCommand (StripSpacesAlso rest '=')) ∧
    CMD_IF env (' ' :: (w1 ++ '=' :: (w2 ++ ' ' :: rest))) = Outcome.SyntaxError := by
  obtain ⟨a1, a2⟩ := CMD_IF_word env w1 ('=' :: (w2 ++ ' ' :: rest)) h1 hw1 hk1 hk2
  obtain ⟨b1, -⟩ := CMD_IF_word env w1 (w2 ++ ' ' :: rest) h1 hw1 hk1 hk2
  rw [a1, a2, b1, ifCompare_double false w1 w2 rest h2 hw1 hw2,
    ifCompare_double true w1 w2 rest h2 hw1 hw2, ifCompare_single false w1 w2 rest h2 hw1 hw2]
  by_cases h : w1 = w2 <;> simp [h]

/-- Witness of C16: `IF a==a goto x`. -/
theorem if_string_compare_witness :
    CMD_IF (exampleEnv 0 []) (' ' :: ("a".toList ++ '=' :: '=' :: ("a".toList ++ ' ' ::
      "goto x".toList)))
      = (if "a".toList = "a".toList then
          Outcome.DoCommand (StripSpacesAlso "goto x".toList '=') else Outcome.nothing) :=
  (if_string_compare (exampleEnv 0 []) "a".toList "a".toList "goto x".toList
    (by decide) (by decide) (by decide) (by decide) (by decide) (by decide)).1

/-- C16 as stated fails: the words `NOT` and `NOT` are equal, and `IF NOT==NOT echo hi`
dispatches nothing: the first word is taken for a negation and the line ends in a
syntax error. -/
theorem if_string_compare_counterexample :
    ¬ (∀ (env : ShellEnv) (w1 w2 rest : List Char), w1 ≠ [] → w2 ≠ [] → rest ≠ [] →
        (∀ c ∈ w1, inWord c = true) → (∀ c ∈ w2, inWord c = true) →
        ((∃ line, CMD_IF env (' ' :: (w1 ++ '=' :: '=' :: (w2 ++ ' ' :: rest)))
            = Outcome.DoCommand line) ↔ w1 = w2)) := by
  intro h
  have h0 := (h (exampleEnv 0 []) "NOT".toList "NOT".toList "echo hi".toList
    (by decide) (by decide) (by decide) (by decide) (by decide)).mpr rfl
  obtain ⟨line, hl⟩ := h0
  have h1 : CMD_IF (exampleEnv 0 []) (' ' :: ("NOT".toList ++ '=' :: '=' ::
      ("NOT".toList ++ ' ' :: "echo hi".toList))) = Outcome.SyntaxError := by decide
  rw [h1] at hl
  cases hl

/-! ## The command dispatcher -/

theorem DoCommand_examples :
    DoCommand id "dir /w".toList
      = Dispatch.handler ⟨"DIR", 0, "CMD_DIR", "SHELL_CMD_DIR_HELP"⟩ " /w".toList ∧
    DoCommand id "cd..".toList
      = Dispatch.handler ⟨"CD", 0, "CMD_CHDIR", "SHELL_CMD_CHDIR_HELP"⟩ "..".toList ∧
    DoCommand id "Del=x".toList
      = Dispatch.handler ⟨"DEL", 0, "CMD_DELETE", "SHELL_CMD_DELETE_HELP"⟩ "=x".toList ∧
    DoCommand id "foo.exe a".toList = Dispatch.external "foo.exe".toList " a".toList ∧
    DoCommand id "/x".toList = Dispatch.empty := by
  decide

/-- On a token without `.` and `\` the loop of DoCommand copies the token and goes
on behind the loop with the rest of the line. -/
theorem scanCommand_token (line cmd_buffer : List Char) (q : Nat)
    (h1 : '.' ∉ (commandToken line q).1) (h2 : '\\' ∉ (commandToken line q).1) :
    scanCommand line cmd_buffer q
      = afterScan (cmd_buffer ++ (commandToken line q).1) (commandToken line q).2 := by
  induction line generalizing cmd_buffer q with
  | nil => simp [scanCommand, commandToken]
  | cons c rest ih =>
    unfold scanCommand
    unfold commandToken at h1 h2 ⊢
    by_cases he : endsCommand c q = true
    · simp [he]
    · simp only [he, Bool.false_eq_true, if_false] at h1 h2 ⊢
      have hc1 : c ≠ '.' := fun e => h1 (by simp [e])
      have hc2 : c ≠ '\\' := fun e => h2 (by simp [e])
      have t1 : '.' ∉ (commandToken rest (if c = '"' then q + 1 else q)).1 :=
        fun hm => h1 (List.mem_cons_of_mem _ hm)
      have t2 : '\\' ∉ (commandToken rest (if c = '"' then q + 1 else q)).1 :=
        fun hm => h2 (List.mem_cons_of_mem _ hm)
      simp only [hc1, hc2, or_self, if_false]
      rw [ih _ _ t1 t2]
      simp

/-- No two rows of the table have the same name up to case. -/
theorem cmd_list_names_distinct :
    ∀ e1 ∈ cmd_list, ∀ e2 ∈ cmd_list,
      e1.name.toList.map tolower = e2.name.toList.map tolower → e1 = e2 := by
  decide

theorem lookupCmd_of_mem (e : SHELL_Cmd) (tok : List Char) (he : e ∈ cmd_list)
    (hm : strcasecmpEq e.name.toList tok = true) : lookupCmd tok = some e := by
  unfold lookupCmd
  cases hf : cmd_list.find? (fun e => strcasecmpEq e.name.toList tok) with
  | none =>
    rw [List.find?_eq_none] at hf
    exact absurd hm (hf e he)
  | some e' =>
    have hm' : strcasecmpEq e'.name.toList tok = true := by
      have h0 := List.find?_some hf
      exact h0
    have he' : e' ∈ cmd_list := List.mem_of_find?_eq_some hf
    unfold strcasecmpEq at hm hm'
    rw [beq_iff_eq] at hm hm'
    rw [cmd_list_names_distinct e' he' e he (hm'.trans hm.symm)]

theorem lookupCmd_some_ne_nil (e : SHELL_Cmd) (tok : List Char) (h : lookupCmd tok = some e) :
    tok ≠ [] := by
  intro ht
  have h0 : lookupCmd [] = none := by decide
  rw [ht, h0] at h
  cases h

theorem tolower_letter (c : Char) (h : 97 ≤ (tolower c).toNat ∧ (tolower c).toNat ≤ 122) :
    (97 ≤ c.toNat ∧ c.toNat ≤ 122) ∨ (65 ≤ c.toNat ∧ c.toNat ≤ 90) := by
  unfold tolower at h
  by_cases hc : 65 ≤ c.toNat ∧ c.toNat ≤ 90
  · exact Or.inr hc
  · rw [if_neg hc] at h
    exact Or.inl h

theorem cmd_list_lower :
    ∀ e ∈ cmd_list, ∀ x ∈ e.name.toList.map tolower, 97 ≤ x.toNat ∧ x.toNat ≤ 122 := by
  decide

theorem cmd_name_letters (e : SHELL_Cmd) (pre : List Char) (he : e ∈ cmd_list)
    (hm : strcasecmpEq e.name.toList pre = true) :
    ∀ ch ∈ pre, (97 ≤ ch.toNat ∧ ch.toNat ≤ 122) ∨ (65 ≤ ch.toNat ∧ ch.toNat ≤ 90) := by
  intro ch hch
  unfold strcasecmpEq at hm
  rw [beq_iff_eq] at hm
  apply tolower_letter
  apply cmd_list_lower e he
  rw [hm]
  exact List.mem_map_of_mem _ hch

theorem letter_scan (ch : Char) (q : Nat)
    (h : (97 ≤ ch.toNat ∧ ch.toNat ≤ 122) ∨ (65 ≤ ch.toNat ∧ ch.toNat ≤ 90)) :
    endsCommand ch q = false ∧ ch ≠ '.' ∧ ch ≠ '\\' ∧ ch ≠ '"' := by
  have ne : ∀ d : Char, d.toNat < 65 ∨ (90 < d.toNat ∧ d.toNat < 97) ∨ 122 < d.toNat → ch ≠ d := by
    intro d hd e
    rw [e] at h
    omega
  have h1 := ne '/' (by decide)
  have h2 := ne '\t' (by decide)
  have h3 := ne ' ' (by decide)
  have h4 := ne '=' (by decide)
  refine ⟨?_, ne '.' (by decide), ne '\\' (by decide), ne '"' (by decide)⟩
  simp [endsCommand, h1, h2, h3, h4]

theorem scanCommand_letters (pre rest cmd_buffer : List Char) (q : Nat)
    (hpre : ∀ ch ∈ pre, (97 ≤ ch.toNat ∧ ch.toNat ≤ 122) ∨ (65 ≤ ch.toNat ∧ ch.toNat ≤ 90)) :
    scanCommand (pre ++ rest) cmd_buffer q = scanCommand rest (cmd_buffer ++ pre) q := by
  induction pre generalizing cmd_buffer with
  | nil => simp
  | cons ch pre ih =>
    obtain ⟨h1, h2, h3, h4⟩ := letter_scan ch q (hpre ch (List.mem_cons_self _ _))
    rw [List.cons_append, scanCommand]
    simp only [h1, Bool.false_eq_true, if_false, h2, h3, h4, or_self]
    rw [ih _ (fun x hx => hpre x (List.mem_cons_of_mem _ hx))]
    simp

theorem scanCommand_abbreviated (pre rest : List Char) (c : Char) (e : SHELL_Cmd)
    (hc : c = '.' ∨ c = '\\') (he : e ∈ cmd_list)
    (hm : strcasecmpEq e.name.toList pre = true) :
    scanCommand (pre ++ c :: rest) [] 0 = Dispatch.handler e (c :: rest) := by
  rw [scanCommand_letters pre (c :: rest) [] 0 (cmd_name_letters e pre he hm), List.nil_append,
    scanCommand]
  have hends : endsCommand c 0 = false := by
    rcases hc with rfl | rfl <;> decide
  simp only [hends, Bool.false_eq_true, if_false, hc, if_true, lookupCmd_of_mem e pre he hm]

/-- C20 (amended): for every input line whose command token (the prefix of the
trimmed line up to the first `/`, tab, or unquoted blank or `=`) contains no `.` or
`\` and equals the name of a row of the static table up to case, DoCommand calls
the handler of exactly that row with the rest of the line from the delimiter on,
and does not go on to the external path; a token that contains no `.` or `\` and
equals no table name up to case leads to no handler of the table.  On every line
that, trimmed, starts with a table name up to case followed by a `.` or `\`,
DoCommand calls the handler of that row with the line from that character on, as
`cd..` calls the handler of `CD` with `..`. -/
theorem doCommand_dispatch (trim : List Char → List Char) (line : List Char)
    (h1 : '.' ∉ (commandToken (trim line) 0).1)
    (h2 : '\\' ∉ (commandToken (trim line) 0).1) :
    (∀ e ∈ cmd_list, strcasecmpEq e.name.toList (commandToken (trim line) 0).1 = true →
      DoCommand trim line = Dispatch.handler e (commandToken (trim line) 0).2) ∧
    ((∀ e ∈ cmd_list, strcasecmpEq e.name.toList (commandToken (trim line) 0).1 = false) →
      DoCommand trim line = Dispatch.empty ∨
      DoCommand trim line
        = Dispatch.external (commandToken (trim line) 0).1 (commandToken (trim line) 0).2) ∧
    (∀ (other pre rest : List Char) (c : Char) (e : SHELL_Cmd),
      trim other = pre ++ c :: rest → (c = '.' ∨ c = '\\') → e ∈ cmd_list →
      strcasecmpEq e.name.toList pre = true →
      DoCommand trim other = Dispatch.handler e (c :: rest)) := by
  have hscan := scanCommand_token (trim line) [] 0 h1 h2
  rw [List.nil_append] at hscan
  refine ⟨fun e he hm => ?_, fun hnone => ?_, fun other pre rest c e ht hc he hm => ?_⟩
  · have hl := lookupCmd_of_mem e _ he hm
    have hne := lookupCmd_some_ne_nil e _ hl
    have hlen : ¬ (commandToken (trim line) 0).1.length = 0 := by
      intro h0
      exact hne (List.length_eq_zero.mp h0)
    rw [DoCommand, hscan, afterScan, if_neg hlen, hl]
  · have hl : lookupCmd (commandToken (trim line) 0).1 = none := by
      unfold lookupCmd
      rw [List.find?_eq_none]
      intro e he
      rw [hnone e he]
      decide
    rw [DoCommand, hscan, afterScan]
    by_cases hlen : (commandToken (trim line) 0).1.length = 0
    · left
      rw [if_pos hlen]
    · right
      rw [if_neg hlen, hl]
  · rw [DoCommand, ht]
    exact scanCommand_abbreviated pre rest c e hc he hm

/-- Witness of C20: `dir /w` calls the handler of the row `DIR` with ` /w`, and
`Dir\games` that of the same row with `\games`. -/
theorem doCommand_dispatch_witness :
    DoCommand id "dir /w".toList
      = Dispatch.handler ⟨"DIR", 0, "CMD_DIR", "SHELL_CMD_DIR_HELP"⟩
          (commandToken (id "dir /w".toList) 0).2 ∧
    DoCommand id "Dir\\games".toList
      = Dispatch.handler ⟨"DIR", 0, "CMD_DIR", "SHELL_CMD_DIR_HELP"⟩ "\\games".toList :=
  ⟨(doCommand_dispatch id "dir /w".toList (by decide) (by decide)).1
      ⟨"DIR", 0, "CMD_DIR", "SHELL_CMD_DIR_HELP"⟩ (by decide) (by decide),
    (doCommand_dispatch id "dir /w".toList (by decide) (by decide)).2.2
      "Dir\\games".toList "Dir".toList "games".toList '\\'
      ⟨"DIR", 0, "CMD_DIR", "SHELL_CMD_DIR_HELP"⟩ rfl (Or.inr rfl) (by decide) (by decide)⟩

/-- C20 as stated fails: the token `cd..` equals no table name, and DoCommand calls
the handler of the row `CD`. -/
theorem doCommand_dispatch_counterexample :
    ¬ (∀ (trim : List Char → List Char) (line : List Char),
        (∀ e ∈ cmd_list, strcasecmpEq e.name.toList (commandToken (trim line) 0).1 = false) →
        ∀ e args, DoCommand trim line ≠ Dispatch.handler e args) := by
  intro h
  exact h id "cd..".toList (by decide) ⟨"CD", 0, "CMD_CHDIR", "SHELL_CMD_CHDIR_HELP"⟩
    "..".toList (by decide)

/-! ## LS -/

/-- The runs of CMD_LS evaluated: a listing, a pattern nothing matches, and a drive
the short-name resolver rejects. -/
theorem CMD_LS_examples :
    CMD_LS (lsExampleEnv [fileEntry "A.TXT" 0x20, fileEntry "SUB" 0x10]) false false false
        false none "".toList [] 0x1000
      = ⟨0x1000, [Out.msg "%-*s" "a.txt  ".toList,
          Out.msg "\x1b[34;1m%-*s\x1b[0m" "SUB  ".toList, Out.text "\n"], false⟩ ∧
    CMD_LS (lsExampleEnv []) false false false false none "X".toList [] 0x1000
      = ⟨0x1000, [Out.msg "SHELL_CMD_FILE_NOT_FOUND" "X".toList], false⟩ := by
  decide

/-- Writing an entry leaves the address alone. -/
theorem lsPlace_dta (env : LsEnv) (optZ : Bool) (col : Nat) (max : List Nat)
    (entry : DtaResult) (w_count p_count : Nat) (st : LsState) :
    (lsPlace env optZ col max entry w_count p_count st).1.dta = st.dta := by
  unfold lsPlace
  simp only
  split_ifs <;> rfl

/-- The loop of CMD_LS leaves the address alone while it runs, and a run that is left
early has either put `save_dta` back (Ctrl-C) or waits for a character. -/
theorem lsLoop_dta (env : LsEnv) (optA optP optZ : Bool) (col : Nat) (max : List Nat)
    (save_dta : Nat) (results : List DtaResult) :
    ∀ (w_count p_count : Nat) (input : List Char) (st : LsState),
      ((lsLoop env optA optP optZ col max save_dta results w_count p_count input st).2.2
          = false →
        (lsLoop env optA optP optZ col max save_dta results w_count p_count input st).1.dta
          = st.dta) ∧
      ((lsLoop env optA optP optZ col max save_dta results w_count p_count input st).2.2
          = true →
        (lsLoop env optA optP optZ col max save_dta results w_count p_count input
          st).1.waiting = false →
        (lsLoop env optA optP optZ col max save_dta results w_count p_count input st).1.dta
          = save_dta) := by
  induction results with
  | nil => intro w_count p_count input st; simp [lsLoop]
  | cons entry results ih =>
    intro w_count p_count input st
    unfold lsLoop
    by_cases hs : lsShown env optA optZ entry = true
    · simp only [hs, Bool.not_true, Bool.false_eq_true, if_false]
      have hd := lsPlace_dta env optZ col max entry w_count p_count st
      generalize lsPlace env optZ col max entry w_count p_count st = placed at hd ⊢
      split
      · cases input with
        | nil => simp
        | cons c input =>
          by_cases hc : c = '\x03'
          · simp [hc]
          · simp only [hc, if_false]
            by_cases h0 : c = '\x00'
            · simp only [h0, if_true]
              cases input with
              | nil => simp
              | cons d input =>
                have h := ih placed.2.1 0 input
                  ⟨placed.1.dta, placed.1.out ++ [Out.msg "SHELL_CMD_PAUSE" []], false⟩
                simp only [hd] at h ⊢
                exact h
            · simp only [h0, if_false]
              have h := ih placed.2.1 0 input
                ⟨placed.1.dta, placed.1.out ++ [Out.msg "SHELL_CMD_PAUSE" []], false⟩
              simp only [hd] at h ⊢
              exact h
      · have h := ih placed.2.1 placed.2.2 input placed.1
        rw [hd] at h
        exact h
    · simp only [hs, Bool.not_false, if_true]
      exact ih _ _ _ _

/-- Every return of CMD_LS behind a successful `DOS_GetSFNPath` puts the address of
the entry back. -/
theorem CMD_LS_restores (env : LsEnv) (optA optL optP optZ : Bool)
    (rem : Option (List Char)) (args input spattern : List Char) (dta : Nat)
    (hsfn : env.DOS_GetSFNPath (lsPattern env args) false = some spattern)
    (hret : (CMD_LS env optA optL optP optZ rem args input dta).waiting = false) :
    (CMD_LS env optA optL optP optZ rem args input dta).dta = dta := by
  unfold CMD_LS at hret ⊢
  cases rem with
  | some r => rfl
  | none =>
    simp only [hsfn] at hret ⊢
    split
    · split <;> rfl
    · rename_i r rs hfind
      simp only [hfind] at hret
      generalize lsColumns optL (if env.nbCols = 0 then 80 else env.nbCols)
        (((r :: rs).filter (lsShown env optA optZ)).map (lsName env optZ)) 10 = cm at hret ⊢
      have k := lsLoop_dta env optA optP optZ cm.1 cm.2 dta (r :: rs) 0 0 input
        ⟨env.tempdta, [], false⟩
      generalize lsLoop env optA optP optZ cm.1 cm.2 dta (r :: rs) 0 0 input
        ⟨env.tempdta, [], false⟩ = fin at hret k ⊢
      by_cases hstop : fin.2.2 = true
      · simp only [hstop, if_true] at hret ⊢
        exact k.2 hstop hret
      · simp [hstop]

/-- Claim C18 at its failing path: when `DOS_GetSFNPath` rejects the pattern, CMD_LS
writes the illegal-path message and returns with `dos.tables.tempdta` in `dos.dta()`,
whatever the address was when the handler was entered. -/
theorem ls_illegal_path_dta (env : LsEnv) (optA optL optP optZ : Bool)
    (args input : List Char) (dta : Nat)
    (hsfn : env.DOS_GetSFNPath (lsPattern env args) false = none) :
    CMD_LS env optA optL optP optZ none args input dta
      = ⟨env.tempdta, [Out.msg "SHELL_ILLEGAL_PATH" []], false⟩ := by
  unfold CMD_LS
  simp only [hsfn]

/-- Claim C18, the failing input: `LS Q:` entered with the address 0x1000 returns
with the address 0x2000 of the internal area. -/
theorem ls_illegal_path_dta_witness :
    (lsExampleEnv []).DOS_GetSFNPath (lsPattern (lsExampleEnv []) "Q:".toList) false = none ∧
    CMD_LS (lsExampleEnv []) false false false false none "Q:".toList [] 0x1000
      = ⟨0x2000, [Out.msg "SHELL_ILLEGAL_PATH" []], false⟩ ∧
    (CMD_LS (lsExampleEnv []) false false false false none "Q:".toList [] 0x1000).dta
      ≠ 0x1000 :=
  ⟨by decide,
   ls_illegal_path_dta (lsExampleEnv []) false false false false "Q:".toList [] 0x1000
     (by decide),
   by decide⟩

/-! ## COPY -/

/-- Runs of CMD_COPY on three files in memory: `COPY A.TXT+B.TXT+C.TXT` appends to
A.TXT and counts one file; `COPY A.TXT a.txt` is refused. -/
theorem CMD_COPY_examples :
    (let st := CMD_COPY memEnv 1 false none ["A.TXT+B.TXT+C.TXT".toList] [] 0x1000 true memExample
     st.fs.files = [("C:\\A.TXT".toList, [1, 2, 3, 4, 5]), ("C:\\B.TXT".toList, [3]),
        ("C:\\C.TXT".toList, [4, 5])] ∧
      st.out = [Out.msg " %s\n" "B.TXT".toList, Out.msg " %s\n" "C.TXT".toList,
        Out.msg "SHELL_CMD_COPY_SUCCESS" "1".toList] ∧
      st.dta = 0x1000 ∧ st.status = CopyStatus.returned) ∧
    (let st := CMD_COPY memEnv 1 false none ["A.TXT".toList, "a.txt".toList] [] 0x1000 true
        memExample
     st.fs.files = memExample.files ∧
      st.out = [Out.text "File cannot be copied onto itself\r\n"] ∧
      st.calls = [FileCall.OpenFile "C:\\A.TXT".toList 0, FileCall.CloseFile 5] ∧
      st.dta = 0x1000 ∧ st.status = CopyStatus.returned) := by
  decide

/-- The comparison `strcasecmp(a, b) == 0` as an equation. -/
theorem strcasecmpEq_iff (a b : List Char) :
    strcasecmpEq a b = true ↔ a.map tolower = b.map tolower := by
  simp [strcasecmpEq]

/-- A source name that is not in double quotes gets them in `nametmp` when the target
name starts and ends with one; a source name that only starts with one gets the
other. -/
theorem copyNameTmp_quoted (S T : List Char) (hS : S ≠ []) (hhead : S.head? ≠ some '"')
    (hlast : S.getLast? ≠ some '"') :
    copyNameTmp S ('"' :: T ++ ['"']) = '"' :: S ++ ['"'] ∧
      copyNameTmp ('"' :: S) ('"' :: T ++ ['"']) = '"' :: S ++ ['"'] := by
  have hgen : ∀ L : List Char, (L ++ ['"']).getLast? = some '"' := by
    intro L
    simp
  have hl : ('"' :: (T ++ ['"'])).getLast? = some '"' := hgen ('"' :: T)
  have hl2 : ('"' :: S).getLast? = S.getLast? := by
    cases S with
    | nil => exact absurd rfl hS
    | cons x xs => simp [List.getLast?_cons_cons]
  have hn : S.length ≠ 0 := by
    intro h
    exact hS (List.length_eq_zero.mp h)
  constructor
  · unfold copyNameTmp
    simp [hn, hhead, hlast, hl]
  · unfold copyNameTmp
    rw [hl2]
    simp [hlast, hl]

/-- Claim C19: a matched source file whose full name `S` equals the full target name
`T` ignoring case, outside a run of concatenation, makes CMD_COPY write that a file
cannot be copied onto itself and return, with the DTA put back; the only calls on
the file layer are the opening of the source for reading and the closing of the
handles, so the target is neither created nor opened for writing nor written, and no
further file is handled. -/
theorem copy_onto_itself {σ : Type} (env : CopyEnv σ) (fuel : Nat) (ctx : CopyCtx)
    (entry : DtaResult) (rest : List DtaResult) (v : CopyVars) (st : CopyState σ)
    (sourceHandle : Nat) (S T : List Char)
    (hfile : entry.has DOS_ATTR_DIRECTORY = false)
    (hsrc : ctx.pathSource ++ entry.name = S ∨ ctx.pathSource ++ entry.name = '"' :: S)
    (hS : S ≠ []) (hhead : S.head? ≠ some '"') (hlast : S.getLast? ≠ some '"')
    (hopen : (env.DOS_OpenFile st.fs (ctx.pathSource ++ entry.name) 0).1 = some sourceHandle)
    (htarget : copyNameTarget env.uselfn ctx.pathTarget ctx.ext ctx.replacementOffset entry
      = some ('"' :: T ++ ['"']))
    (hrun : v.oldconcat = false)
    (hspecial : (v.second && ctx.target_is_file && (strchr ctx.target.filename '*').isNone)
      = false)
    (hsame : strcasecmpEq S T = true) :
    (copyFile env fuel ctx entry v st).2.1.status = CopyStatus.returned ∧
    (copyFile env fuel ctx entry v st).2.1.out
      = st.out ++ [Out.text "File cannot be copied onto itself\r\n"] ∧
    (copyFile env fuel ctx entry v st).2.1.dta = ctx.save_dta ∧
    (copyFile env fuel ctx entry v st).2.1.calls
      = st.calls ++ [FileCall.OpenFile (ctx.pathSource ++ entry.name) 0,
          FileCall.CloseFile sourceHandle] ++
        (if v.targetHandle ≠ 0 then [FileCall.CloseFile v.targetHandle] else []) ∧
    (copyFile env fuel ctx entry v st).2.1.count = st.count ∧
    (copyFiles env fuel ctx (entry :: rest) v st).2 = (copyFile env fuel ctx entry v st).2.1 := by
  have htmp : strcasecmpEq (copyNameTmp (ctx.pathSource ++ entry.name) ('"' :: T ++ ['"']))
      ('"' :: T ++ ['"']) = true := by
    have hq := copyNameTmp_quoted S T hS hhead hlast
    have hmap := (strcasecmpEq_iff S T).mp hsame
    have : strcasecmpEq ('"' :: S ++ ['"']) ('"' :: T ++ ['"']) = true := by
      rw [strcasecmpEq_iff]
      simp [hmap]
    rcases hsrc with h | h
    · rw [h, hq.1]; exact this
    · rw [h, hq.2]; exact this
  have key : copyFile env fuel ctx entry v st
      = (⟨v.targetHandle, false, true⟩,
          (if v.targetHandle != 0 then
            (((((st.call (FileCall.OpenFile (ctx.pathSource ++ entry.name) 0)
              (env.DOS_OpenFile st.fs (ctx.pathSource ++ entry.name) 0).2).write
              (Out.text "File cannot be copied onto itself\r\n")).ret ctx.save_dta).close env
              sourceHandle).2.close env v.targetHandle).2
          else
            ((((st.call (FileCall.OpenFile (ctx.pathSource ++ entry.name) 0)
              (env.DOS_OpenFile st.fs (ctx.pathSource ++ entry.name) 0).2).write
              (Out.text "File cannot be copied onto itself\r\n")).ret ctx.save_dta).close env
              sourceHandle).2),
          false) := by
    unfold copyFile
    simp only [hfile, Bool.false_eq_true, if_false, hopen, htarget, hrun, hspecial,
      Bool.or_false, Bool.not_false, Bool.true_and, htmp, Bool.or_true, if_true]
  have hstat : (copyFile env fuel ctx entry v st).2.1.status = CopyStatus.returned := by
    rw [key]
    by_cases ht : v.targetHandle = 0 <;>
      simp [ht, CopyState.close, CopyState.call, CopyState.ret, CopyState.write]
  refine ⟨hstat, ?_, ?_, ?_, ?_, ?_⟩
  · rw [key]
    by_cases ht : v.targetHandle = 0 <;>
      simp [ht, CopyState.close, CopyState.call, CopyState.ret, CopyState.write]
  · rw [key]
    by_cases ht : v.targetHandle = 0 <;>
      simp [ht, CopyState.close, CopyState.call, CopyState.ret, CopyState.write]
  · rw [key]
    by_cases ht : v.targetHandle = 0 <;>
      simp [ht, CopyState.close, CopyState.call, CopyState.ret, CopyState.write]
  · rw [key]
    by_cases ht : v.targetHandle = 0 <;>
      simp [ht, CopyState.close, CopyState.call, CopyState.ret, CopyState.write]
  · unfold copyFiles
    simp [hstat]

/-- Claim C19 on `COPY A.TXT a.txt`: the source is opened and closed, the message is
written, and nothing else happens. -/
theorem copy_onto_itself_witness :
    (copyFile memEnv 1 copyExampleCtx (memEntry ("C:\\A.TXT".toList, [1, 2])) ⟨0, false, false⟩
        copyExampleState).2.1.status = CopyStatus.returned ∧
    (copyFile memEnv 1 copyExampleCtx (memEntry ("C:\\A.TXT".toList, [1, 2])) ⟨0, false, false⟩
        copyExampleState).2.1.out = [Out.text "File cannot be copied onto itself\r\n"] ∧
    (copyFile memEnv 1 copyExampleCtx (memEntry ("C:\\A.TXT".toList, [1, 2])) ⟨0, false, false⟩
        copyExampleState).2.1.dta = 0x1000 ∧
    (copyFile memEnv 1 copyExampleCtx (memEntry ("C:\\A.TXT".toList, [1, 2])) ⟨0, false, false⟩
        copyExampleState).2.1.calls
      = [FileCall.OpenFile "C:\\A.TXT".toList 0, FileCall.CloseFile 5] :=
  have h := copy_onto_itself memEnv 1 copyExampleCtx (memEntry ("C:\\A.TXT".toList, [1, 2])) []
    ⟨0, false, false⟩ copyExampleState 5 "C:\\A.TXT".toList "C:\\A.TXT".toList
    (by decide) (Or.inl rfl) (by decide) (by decide) (by decide) (by decide) (by decide) rfl
    (by decide) (by decide)
  ⟨h.1, h.2.1, h.2.2.1, h.2.2.2.1⟩

/-! ### COPY on the file layer in memory -/

theorem strchr_lt (s : List Char) (c : Char) (k : Nat) (h : strchr s c = some k) :
    k < s.length := by
  induction s generalizing k with
  | nil => simp [strchr] at h
  | cons x xs ih =>
    unfold strchr at h
    by_cases hx : x = c
    · simp [hx] at h
      subst h
      simp
    · simp only [hx, if_false] at h
      cases hr : strchr xs c with
      | none => rw [hr] at h; simp at h
      | some j =>
        rw [hr] at h
        simp at h
        have := ih j hr
        subst h
        simp
        omega

theorem copyCut_rest_length (s piece rest : List Char) (h : copyCut s = (piece, some rest)) :
    rest.length < s.length := by
  unfold copyCut at h
  cases hs : strchr s '+' with
  | none => rw [hs] at h; simp at h
  | some k =>
    have hk := strchr_lt s '+' k hs
    rw [hs] at h
    simp only at h
    split at h
    · simp at h
    · simp only [Prod.mk.injEq, Option.some.injEq] at h
      rw [← h.2, List.length_drop]
      omega

/-- The fuel of `copyParseWord` is enough once it exceeds the length of the word: more
fuel does not change the result. -/
theorem copyParseWord_fuel {σ : Type} (env : CopyEnv σ) (fs : σ) :
    ∀ (fuel : Nat) (source_p : List Char) (sources : List copysource),
      source_p.length < fuel →
      copyParseWord env fs (fuel + 1) source_p sources
        = copyParseWord env fs fuel source_p sources := by
  intro fuel
  induction fuel with
  | zero => intro s S h; omega
  | succ f ih =>
    intro s S hlt
    conv_lhs => rw [copyParseWord]
    conv_rhs => rw [copyParseWord]
    simp only
    generalize hlead : (strchr s '+' == some 0 && S.length != 0) = lead
    generalize hS : (if lead = true then setLastConcat S else S) = S'
    generalize hs' : (if lead = true then List.drop 1 s else s) = s'
    have hlen : s'.length ≤ s.length := by
      rw [← hs']
      split
      · rw [List.length_drop]; omega
      · exact Nat.le_refl _
    cases hcut : copyCut s' with
    | mk piece next =>
      cases next with
      | none => rfl
      | some rest =>
        have hr := copyCut_rest_length s' piece rest hcut
        simp only
        by_cases h1 : (lead && s'.length == 0) = true
        · simp only [h1, if_true]
        · simp only [h1, if_false]
          by_cases h2 : (rest.length != 0) = true
          · simp only [h2, if_true]
            exact ih rest _ (by omega)
          · simp only [h2, Bool.false_eq_true, if_false]

theorem echoed_append (a b : List Out) : echoed (a ++ b) = echoed a ++ echoed b := by
  induction a with
  | nil => rfl
  | cons o os ih =>
    cases o <;> simp [echoed, ih]

/-- What one step of the prompt echoes: the character itself when it is read in
`AwaitingInput` and is none of Enter, Ctrl-C, Tab and Backspace, and nothing
otherwise. -/
theorem sureStep_echoed (s : PromptState) (c : Char) :
    echoed (sureStep s c).2
      = if s = PromptState.AwaitingInput ∧ c ≠ '\r' ∧ c ≠ '\x03' ∧ c ≠ '\t' ∧ c ≠ '\x08'
        then [c] else [] := by
  cases s
  case AwaitingInput =>
    unfold sureStep
    simp only [true_and]
    by_cases h1 : c = 'n' ∨ c = 'N'
    · rcases h1 with rfl | rfl <;> decide
    by_cases h2 : c = 'y' ∨ c = 'Y'
    · rcases h2 with rfl | rfl <;> decide
    by_cases h3 : c = '\r'
    · subst h3; decide
    by_cases h4 : c = '\x03'
    · subst h4; decide
    by_cases h5 : c = '\t' ∨ c = '\x08'
    · rcases h5 with rfl | rfl <;> decide
    · have h5a : c ≠ '\t' := fun e => h5 (Or.inl e)
      have h5b : c ≠ '\x08' := fun e => h5 (Or.inr e)
      simp [h1, h2, h3, h4, h5, h5a, h5b, echoed]
  all_goals
    unfold sureStep
    simp only [false_and, if_false, reduceCtorEq]
    first
      | rfl
      | (split_ifs <;> rfl)

/-- One step of the prompt writes what the amended claim says. -/
theorem sureStep_writes (s : PromptState) (c : Char) (h : s.resolved = false) :
    (sureStep s c).2 = sureWrites s c := by
  cases s
  case AwaitingInput =>
    unfold sureStep sureWrites
    by_cases h1 : c = 'n' ∨ c = 'N'
    · rcases h1 with rfl | rfl <;> decide
    by_cases h2 : c = 'y' ∨ c = 'Y'
    · rcases h2 with rfl | rfl <;> decide
    by_cases h3 : c = '\r'
    · subst h3; decide
    by_cases h4 : c = '\x03'
    · subst h4; decide
    by_cases h5 : c = '\t' ∨ c = '\x08'
    · rcases h5 with rfl | rfl <;> decide
    · simp [h1, h2, h3, h4, h5]
  case AfterNo =>
    unfold sureStep sureWrites
    by_cases h3 : c = '\r'
    · subst h3; decide
    by_cases h4 : c = '\x03'
    · subst h4; decide
    by_cases h5 : c = '\x08'
    · subst h5; decide
    · simp [h3, h4, h5]
  case AfterYes =>
    unfold sureStep sureWrites
    by_cases h3 : c = '\r'
    · subst h3; decide
    by_cases h4 : c = '\x03'
    · subst h4; decide
    by_cases h5 : c = '\x08'
    · subst h5; decide
    · simp [h3, h4, h5]
  case AfterOther =>
    unfold sureStep sureWrites
    by_cases h3 : c = '\r'
    · subst h3; decide
    by_cases h4 : c = '\x03'
    · subst h4; decide
    by_cases h5 : c = '\x08'
    · subst h5; decide
    · simp [h3, h4, h5]
  all_goals exact absurd h (by decide)

/-- Claim C21 as amended: what the prompt of DEL writes on the characters it reads
is, character by character, what `sureWrites` tells: the characters read in
AwaitingInput other than Enter, Ctrl-C, Tab and Backspace are echoed, each once and
in order, and no other character is echoed; Enter writes a line feed (and the
question again where it leads to a retry), Ctrl-C writes `^C`, a Backspace behind a
first character writes the erase sequence, and Tab and Backspace in AwaitingInput
and every other character behind a first character write nothing. -/
theorem del_sure_echo (s : PromptState) (input : List Char) :
    (sureRun s input).2.1 = sureWritten s input ∧
    echoed (sureRun s input).2.1 = sureFirstChars s input := by
  constructor
  · induction input generalizing s with
    | nil => rfl
    | cons c cs ih =>
      cases hs : s.resolved with
      | true =>
        rw [sureRun_resolved s _ hs]
        simp [sureWritten, hs]
      | false =>
        rw [sureRun_cons s c cs hs]
        simp only [sureWritten, hs, Bool.false_eq_true, if_false]
        rw [ih, sureStep_writes s c hs]
  · induction input generalizing s with
    | nil => rfl
    | cons c cs ih =>
      cases hs : s.resolved with
      | true =>
        rw [sureRun_resolved s _ hs]
        simp [sureFirstChars, hs, echoed]
      | false =>
        rw [sureRun_cons s c cs hs]
        simp only [sureFirstChars, hs, Bool.false_eq_true, if_false]
        rw [echoed_append, ih, sureStep_echoed]

/-- Claim C21 as stated fails: a Tab read in AwaitingInput is consumed and nothing is
written. -/
theorem del_sure_echo_counterexample :
    ¬ (∀ input : List Char,
        echoed (sureRun PromptState.AwaitingInput input).2.1
          = sureConsumed PromptState.AwaitingInput input) := by
  intro h
  have := h ['\t']
  revert this
  decide

/-- The prompt of DEL on some inputs: of `n`, `x`, Enter only the `n` is echoed; an
unrecognised first character followed by Enter brings the question again. -/
theorem sureRun_examples :
    sureRun PromptState.AwaitingInput "nx\r".toList
      = (PromptState.ConfirmedNo, [Out.echo 'n', Out.text "\n"], []) ∧
    sureRun PromptState.AwaitingInput "q\ry\r".toList
      = (PromptState.ConfirmedYes,
          [Out.echo 'q', Out.text "\n", Out.msg "SHELL_CMD_DEL_SURE" [], Out.echo 'y',
            Out.text "\n"], []) := by
  decide

/-- A step into Confirmed(yes) is Enter read in the loop behind `y`. -/
theorem sureStep_to_yes (s : PromptState) (c : Char) (hs : s.resolved = false)
    (h : (sureStep s c).1 = PromptState.ConfirmedYes) :
    s = PromptState.AfterYes ∧ c = '\r' := by
  cases s
  case AfterYes =>
    refine ⟨rfl, ?_⟩
    by_contra hc
    unfold sureStep at h
    simp only [hc, if_false] at h
    split_ifs at h
  case ConfirmedYes => cases hs
  case ConfirmedNo => cases hs
  case Cancelled => cases hs
  all_goals
    exfalso
    unfold sureStep at h
    simp only at h
    split_ifs at h

/-- A step into the loop behind `y` is `y` or `Y` read in AwaitingInput, or a
character other than Enter, Ctrl-C and Backspace read in that loop. -/
theorem sureStep_to_afterYes (s : PromptState) (c : Char) (hs : s.resolved = false)
    (h : (sureStep s c).1 = PromptState.AfterYes) :
    (s = PromptState.AwaitingInput ∧ (c = 'y' ∨ c = 'Y')) ∨
      (s = PromptState.AfterYes ∧ c ≠ '\r' ∧ c ≠ '\x03' ∧ c ≠ '\x08') := by
  cases s
  case AwaitingInput =>
    left
    refine ⟨rfl, ?_⟩
    by_contra hc
    unfold sureStep at h
    simp only [hc, if_false] at h
    split_ifs at h
  case AfterYes =>
    right
    refine ⟨rfl, ?_, ?_, ?_⟩ <;>
    · intro hc
      subst hc
      revert h
      decide
  case ConfirmedYes => cases hs
  case ConfirmedNo => cases hs
  case Cancelled => cases hs
  all_goals
    exfalso
    unfold sureStep at h
    simp only at h
    split_ifs at h

/-- A run that ends in Confirmed(yes) started there, or started in the loop behind `y`
and met Enter before Ctrl-C or Backspace, or came through AwaitingInput, read `y` or
`Y` there, and then met Enter before Ctrl-C or Backspace. -/
theorem sureRun_yes_aux (input : List Char) :
    ∀ s : PromptState, (sureRun s input).1 = PromptState.ConfirmedYes →
      s = PromptState.ConfirmedYes ∨
      (s = PromptState.AfterYes ∧ ∃ mid rest, input = mid ++ '\r' :: rest ∧
        ∀ d ∈ mid, d ≠ '\r' ∧ d ≠ '\x03' ∧ d ≠ '\x08') ∨
      (∃ pre c mid rest, input = pre ++ c :: (mid ++ '\r' :: rest) ∧ (c = 'y' ∨ c = 'Y') ∧
        (sureRun s pre).1 = PromptState.AwaitingInput ∧
        ∀ d ∈ mid, d ≠ '\r' ∧ d ≠ '\x03' ∧ d ≠ '\x08') := by
  induction input with
  | nil =>
    intro s h
    left
    exact h
  | cons c cs ih =>
    intro s h
    cases hs : s.resolved with
    | true =>
      rw [sureRun_resolved s _ hs] at h
      left
      exact h
    | false =>
      rw [sureRun_cons s c cs hs] at h
      simp only at h
      rcases ih (sureStep s c).1 h with hA | ⟨hB, mid, rest, hcs, hmid⟩ |
        ⟨pre, y, mid, rest, hcs, hy, hpre, hmid⟩
      · obtain ⟨h1, h2⟩ := sureStep_to_yes s c hs hA
        right; left
        exact ⟨h1, [], cs, by rw [h2]; rfl, by simp⟩
      · rcases sureStep_to_afterYes s c hs hB with ⟨h1, h2⟩ | ⟨h1, h2⟩
        · right; right
          exact ⟨[], c, mid, rest, by rw [hcs]; rfl, h2, by rw [h1]; rfl, hmid⟩
        · right; left
          refine ⟨h1, c :: mid, rest, by rw [hcs]; rfl, ?_⟩
          intro d hd
          rcases List.mem_cons.mp hd with e | e
          · rw [e]; exact h2
          · exact hmid d e
      · right; right
        refine ⟨c :: pre, y, mid, rest, by rw [hcs]; rfl, hy, ?_, hmid⟩
        rw [sureRun_cons s c pre hs]
        exact hpre

/-- Claim C22: a run of the prompt of DEL from AwaitingInput that resolves to
Confirmed(yes) has read `y` or `Y` in AwaitingInput and then Enter, with neither
Enter nor Ctrl-C nor Backspace between the two; and a first character other than
y, Y, n, N, Enter, Ctrl-C, Tab and Backspace followed by Enter writes the question
again and leaves the prompt in AwaitingInput, not confirmed. -/
theorem del_sure_yes_needs_y (input : List Char) :
    ((sureRun PromptState.AwaitingInput input).1 = PromptState.ConfirmedYes →
      ∃ pre c mid rest, input = pre ++ c :: (mid ++ '\r' :: rest) ∧ (c = 'y' ∨ c = 'Y') ∧
        (sureRun PromptState.AwaitingInput pre).1 = PromptState.AwaitingInput ∧
        ∀ d ∈ mid, d ≠ '\r' ∧ d ≠ '\x03' ∧ d ≠ '\x08') ∧
    (∀ c : Char, c ∉ ['y', 'Y', 'n', 'N', '\r', '\x03', '\t', '\x08'] →
      sureRun PromptState.AwaitingInput [c, '\r']
        = (PromptState.AwaitingInput,
            [Out.echo c, Out.text "\n", Out.msg "SHELL_CMD_DEL_SURE" []], [])) := by
  constructor
  · intro h
    rcases sureRun_yes_aux input PromptState.AwaitingInput h with hA | ⟨hB, _⟩ | hC
    · cases hA
    · cases hB
    · exact hC
  · intro c hc
    simp only [List.mem_cons, List.mem_singleton, not_or, List.not_mem_nil, or_false] at hc
    obtain ⟨h1, h2, h3, h4, h5, h6, h7, h8⟩ := hc
    have e1 : sureStep PromptState.AwaitingInput c = (PromptState.AfterOther, [Out.echo c]) := by
      simp [sureStep, h1, h2, h3, h4, h5, h6, h7, h8]
    have e2 : sureStep PromptState.AfterOther '\r'
        = (PromptState.AwaitingInput, [Out.text "\n", Out.msg "SHELL_CMD_DEL_SURE" []]) := rfl
    rw [sureRun_cons PromptState.AwaitingInput c _ rfl, e1]
    simp only
    rw [sureRun_cons PromptState.AfterOther '\r' _ rfl, e2]
    rfl

/-- Claim C22 on the input `q`, Enter, `y`, Enter: the run confirms, and the `y` it
has read stands behind the retry. -/
theorem del_sure_yes_needs_y_witness :
    (sureRun PromptState.AwaitingInput "q\ry\r".toList).1 = PromptState.ConfirmedYes ∧
    (∃ pre c mid rest, "q\ry\r".toList = pre ++ c :: (mid ++ '\r' :: rest) ∧
        (c = 'y' ∨ c = 'Y') ∧
        (sureRun PromptState.AwaitingInput pre).1 = PromptState.AwaitingInput ∧
        ∀ d ∈ mid, d ≠ '\r' ∧ d ≠ '\x03' ∧ d ≠ '\x08') ∧
    sureRun PromptState.AwaitingInput ['q', '\r']
      = (PromptState.AwaitingInput,
          [Out.echo 'q', Out.text "\n", Out.msg "SHELL_CMD_DEL_SURE" []], []) :=
  ⟨by decide, (del_sure_yes_needs_y "q\ry\r".toList).1 (by decide),
    (del_sure_yes_needs_y "q\ry\r".toList).2 'q' (by decide)⟩

/-! ## DIR: the six comparators -/

/-- Comparing a string key with `strcmp(…) < 0` is a strict weak ordering. -/
theorem strcmpKey_strictWeakOrder {α : Type} (key : α → List Char) :
    StrictWeakOrder (fun a b => decide (strcmp (key a) (key b) < 0)) where
  irrefl a := by
    simp only [decide_eq_false_iff_not]
    exact strcmp_irrefl _
  trans a b c h1 h2 := by
    simp only [decide_eq_true_eq] at h1 h2 ⊢
    exact strcmp_trans _ _ _ h1 h2
  incomp_trans a b c h1 h2 h3 h4 := by
    simp only [decide_eq_false_iff_not] at h1 h2 h3 h4 ⊢
    have e1 : key a = key b := by
      rcases strcmp_trichotomy (key a) (key b) with h | h | h
      · exact absurd h h1
      · exact h
      · exact absurd h h2
    have e2 : key b = key c := by
      rcases strcmp_trichotomy (key b) (key c) with h | h | h
      · exact absurd h h3
      · exact h
      · exact absurd h h4
    rw [e1, e2]
    exact ⟨strcmp_irrefl _, strcmp_irrefl _⟩

/-- Comparing a numeric key with `<` is a strict weak ordering. -/
theorem natKey_strictWeakOrder {α : Type} (key : α → Nat) :
    StrictWeakOrder (fun a b => decide (key a < key b)) where
  irrefl a := by simp
  trans a b c h1 h2 := by
    simp only [decide_eq_true_eq] at h1 h2 ⊢
    omega
  incomp_trans a b c h1 h2 h3 h4 := by
    simp only [decide_eq_false_iff_not] at h1 h2 h3 h4 ⊢
    constructor <;> omega

/-- The comparator groupDirs is a strict weak ordering. -/
theorem groupDirs_strictWeakOrder : StrictWeakOrder DtaResult.groupDirs where
  irrefl a := by
    unfold DtaResult.groupDirs
    cases a.isDir <;> rfl
  trans a b c h1 h2 := by
    unfold DtaResult.groupDirs at h1 h2 ⊢
    revert h1 h2
    cases a.isDir <;> cases b.isDir <;> cases c.isDir <;> simp
  incomp_trans a b c h1 h2 h3 h4 := by
    unfold DtaResult.groupDirs at h1 h2 h3 h4 ⊢
    revert h1 h2 h3 h4
    cases a.isDir <;> cases b.isDir <;> cases c.isDir <;> simp

/-- The comparator compareDate, the order by date and then by time, is a strict weak
ordering. -/
theorem compareDate_strictWeakOrder : StrictWeakOrder DtaResult.compareDate where
  irrefl a := by
    unfold DtaResult.compareDate
    simp
  trans a b c h1 h2 := by
    unfold DtaResult.compareDate at h1 h2 ⊢
    simp only [Bool.or_eq_true, decide_eq_true_eq, Bool.and_eq_true] at h1 h2 ⊢
    omega
  incomp_trans a b c h1 h2 h3 h4 := by
    unfold DtaResult.compareDate at h1 h2 h3 h4 ⊢
    simp only [Bool.or_eq_false_iff, decide_eq_false_iff_not, Bool.and_eq_false_imp,
      decide_eq_true_eq] at h1 h2 h3 h4 ⊢
    refine ⟨⟨?_, ?_⟩, ⟨?_, ?_⟩⟩ <;> omega

/-- Claim C27: each of the six comparators of DIR (groupDef, groupDirs, compareName,
compareExt, compareSize, compareDate) is a strict weak ordering on the entries:
irreflexive, transitive, and with a transitive relation "neither is less". -/
theorem dir_comparators_strictWeakOrder :
    StrictWeakOrder DtaResult.groupDef ∧ StrictWeakOrder DtaResult.groupDirs ∧
    StrictWeakOrder DtaResult.compareName ∧ StrictWeakOrder DtaResult.compareExt ∧
    StrictWeakOrder DtaResult.compareSize ∧ StrictWeakOrder DtaResult.compareDate :=
  ⟨groupDef_strictWeakOrder, groupDirs_strictWeakOrder,
    strcmpKey_strictWeakOrder (fun e : DtaResult => e.name),
    strcmpKey_strictWeakOrder DtaResult.getExtension,
    natKey_strictWeakOrder (fun e : DtaResult => e.size),
    compareDate_strictWeakOrder⟩

/-! ## FormatNumber -/

/-- The numbers of DIR, evaluated. -/
theorem FormatNumber_examples :
    FormatNumber 0 = "0".toList ∧ FormatNumber 999 = "999".toList ∧
    FormatNumber 1000 = "1,000".toList ∧ FormatNumber 1234567 = "1,234,567".toList ∧
    FormatNumber 4294967295 = "4,294,967,295".toList ∧
    FormatNumber 1000000007 = "1,000,000,007".toList ∧
    groupThousands "1234567".toList = "1,234,567".toList ∧
    groupThousands "123456".toList = "123,456".toList := by
  decide

/-- The digits `toDigitsCore` puts in front of its accumulator do not depend on the
fuel, once it exceeds the number. -/
theorem toDigitsCore_eq (m : Nat) :
    ∀ (f : Nat) (ds : List Char), m < f →
      Nat.toDigitsCore 10 f m ds = Nat.toDigitsCore 10 (m + 1) m [] ++ ds := by
  induction m using Nat.strong_induction_on with
  | _ m ih =>
    intro f ds hf
    cases f with
    | zero => omega
    | succ f =>
      by_cases h0 : m / 10 = 0
      · simp [Nat.toDigitsCore, h0]
      · have hlt : m / 10 < m := by omega
        have e1 : Nat.toDigitsCore 10 (f + 1) m ds
            = Nat.toDigitsCore 10 f (m / 10) (Nat.digitChar (m % 10) :: ds) := by
          simp [Nat.toDigitsCore, h0]
        have e2 : Nat.toDigitsCore 10 (m + 1) m []
            = Nat.toDigitsCore 10 m (m / 10) [Nat.digitChar (m % 10)] := by
          simp [Nat.toDigitsCore, h0]
        rw [e1, e2, ih (m / 10) hlt f _ (by omega), ih (m / 10) hlt m _ hlt]
        simp

/-- The decimal digits of a number of two digits at least: those of its tenth, and
its last digit. -/
theorem toDigits_step (n : Nat) (h : 10 ≤ n) :
    Nat.toDigits 10 n = Nat.toDigits 10 (n / 10) ++ [Nat.digitChar (n % 10)] := by
  have h0 : n / 10 ≠ 0 := by omega
  have hlt : n / 10 < n := by omega
  unfold Nat.toDigits
  have e2 : Nat.toDigitsCore 10 (n + 1) n []
      = Nat.toDigitsCore 10 n (n / 10) [Nat.digitChar (n % 10)] := by
    simp [Nat.toDigitsCore, h0]
  rw [e2, toDigitsCore_eq (n / 10) n _ hlt]

theorem toDigits_small (n : Nat) (h : n < 10) : Nat.toDigits 10 n = [Nat.digitChar n] := by
  have h0 : n / 10 = 0 := by omega
  have h1 : n % 10 = n := by omega
  simp [Nat.toDigits, Nat.toDigitsCore, h0, h1]

/-- The three digits of a number below 1000. -/
theorem print03D_eq (b : Nat) (hb : b < 1000) :
    print03D b = [Nat.digitChar (b / 100), Nat.digitChar (b / 10 % 10), Nat.digitChar (b % 10)] := by
  unfold print03D
  by_cases h1 : b < 10
  · rw [toDigits_small b h1]
    have e1 : b / 100 = 0 := by omega
    have e2 : b / 10 % 10 = 0 := by omega
    have e3 : b % 10 = b := by omega
    rw [e1, e2, e3]
    rfl
  · by_cases h2 : b < 100
    · rw [toDigits_step b (by omega), toDigits_small (b / 10) (by omega)]
      have e1 : b / 100 = 0 := by omega
      have e2 : b / 10 % 10 = b / 10 := by omega
      rw [e1, e2]
      rfl
    · rw [toDigits_step b (by omega), toDigits_step (b / 10) (by omega),
        toDigits_small (b / 10 / 10) (by omega)]
      have e1 : b / 10 / 10 = b / 100 := by omega
      rw [e1]
      rfl

/-- A number below 1000 has three digits at most and one at least. -/
theorem toDigits_length_le (g : Nat) (hg : g < 1000) :
    (Nat.toDigits 10 g).length ≤ 3 ∧ Nat.toDigits 10 g ≠ [] := by
  by_cases h1 : g < 10
  · rw [toDigits_small g h1]; simp
  · by_cases h2 : g < 100
    · rw [toDigits_step g (by omega), toDigits_small (g / 10) (by omega)]; simp
    · rw [toDigits_step g (by omega), toDigits_step (g / 10) (by omega),
        toDigits_small (g / 10 / 10) (by omega)]
      simp

/-- The digits of `a * 1000 + b`: those of `a` and the three of `b`. -/
theorem toDigits_thousand (a b : Nat) (ha : 0 < a) (hb : b < 1000) :
    Nat.toDigits 10 (a * 1000 + b) = Nat.toDigits 10 a ++ print03D b := by
  rw [print03D_eq b hb, toDigits_step (a * 1000 + b) (by omega),
    toDigits_step ((a * 1000 + b) / 10) (by omega),
    toDigits_step ((a * 1000 + b) / 10 / 10) (by omega)]
  have e0 : (a * 1000 + b) / 10 / 10 / 10 = a := by omega
  have e1 : (a * 1000 + b) / 10 / 10 % 10 = b / 100 := by omega
  have e2 : (a * 1000 + b) / 10 % 10 = b / 10 % 10 := by omega
  have e3 : (a * 1000 + b) % 10 = b % 10 := by omega
  rw [e0, e1, e2, e3]
  simp

theorem print03D_length (b : Nat) (hb : b < 1000) : (print03D b).length = 3 := by
  rw [print03D_eq b hb]; rfl

/-- Three more digits behind digits that are there get a comma in front. -/
theorem groupThousands_append (hd tl : List Char) (hne : hd ≠ []) (htl : tl.length = 3) :
    groupThousands (hd ++ tl) = groupThousands hd ++ ',' :: tl := by
  match tl, htl with
  | [x, y, z], _ =>
    unfold groupThousands
    cases hr : hd.reverse with
    | nil =>
      have := List.reverse_eq_nil_iff.mp hr
      exact absurd this hne
    | cons d rest =>
      have e : (hd ++ [x, y, z]).reverse = z :: y :: x :: d :: rest := by
        rw [List.reverse_append, hr]; rfl
      rw [e]
      simp [commaEveryThird]

theorem groupThousands_short (l : List Char) (h : l.length ≤ 3) : groupThousands l = l := by
  unfold groupThousands
  have hl : l.reverse.length ≤ 3 := by simpa using h
  have : commaEveryThird l.reverse = l.reverse := by
    generalize l.reverse = r at hl
    match r, hl with
    | [], _ => rfl
    | [_], _ => rfl
    | [_, _], _ => rfl
    | [_, _, _], _ => rfl
    | _ :: _ :: _ :: _ :: _, h => simp at h
  rw [this, List.reverse_reverse]

/-- `FormatNumber` writes the decimal digits of the number, grouped in threes. -/
theorem FormatNumber_eq (n : Nat) (hn : n < 2 ^ 32) :
    FormatNumber n = groupThousands (Nat.toDigits 10 n) := by
  have hb : n % 1000 < 1000 := Nat.mod_lt _ (by norm_num)
  have hk : n / 1000 % 1000 < 1000 := Nat.mod_lt _ (by norm_num)
  have hm : n / 1000 / 1000 % 1000 < 1000 := Nat.mod_lt _ (by norm_num)
  have hg : n / 1000 / 1000 / 1000 < 1000 := by
    have : n < 4294967296 := by simpa using hn
    omega
  unfold FormatNumber
  simp only [printD]
  by_cases h3 : n / 1000 / 1000 / 1000 = 0
  · by_cases h2 : n / 1000 / 1000 % 1000 = 0
    · by_cases h1 : n / 1000 % 1000 = 0
      · simp only [h3, h2, h1, ne_eq, not_true_eq_false, if_false]
        have e : n % 1000 = n := by omega
        rw [e, groupThousands_short _ (toDigits_length_le n (by omega)).1]
      · simp only [h3, h2, h1, ne_eq, not_true_eq_false, if_false, not_false_eq_true, if_true]
        have e : n = (n / 1000 % 1000) * 1000 + n % 1000 := by omega
        conv_rhs => rw [e]
        rw [toDigits_thousand _ _ (by omega) hb,
          groupThousands_append _ _ (toDigits_length_le _ hk).2 (print03D_length _ hb),
          groupThousands_short _ (toDigits_length_le _ hk).1]
        simp
    · simp only [h3, h2, ne_eq, not_true_eq_false, if_false, not_false_eq_true, if_true]
      have e : n = ((n / 1000 / 1000 % 1000) * 1000 + n / 1000 % 1000) * 1000 + n % 1000 := by
        omega
      conv_rhs => rw [e]
      rw [toDigits_thousand _ _ (by omega) hb, toDigits_thousand _ _ (by omega) hk,
        groupThousands_append _ _ (by simp [(toDigits_length_le _ hm).2])
          (print03D_length _ hb),
        groupThousands_append _ _ (toDigits_length_le _ hm).2 (print03D_length _ hk),
        groupThousands_short _ (toDigits_length_le _ hm).1]
      simp
  · simp only [h3, ne_eq, not_false_eq_true, if_true]
    have e : n = (((n / 1000 / 1000 / 1000) * 1000 + n / 1000 / 1000 % 1000) * 1000
        + n / 1000 % 1000) * 1000 + n % 1000 := by
      omega
    conv_rhs => rw [e]
    rw [toDigits_thousand _ _ (by omega) hb, toDigits_thousand _ _ (by omega) hk,
      toDigits_thousand _ _ (by omega) hm,
      groupThousands_append _ _ (by simp [(toDigits_length_le _ hg).2])
        (print03D_length _ hb),
      groupThousands_append _ _ (by simp [(toDigits_length_le _ hg).2])
        (print03D_length _ hk),
      groupThousands_append _ _ (toDigits_length_le _ hg).2 (print03D_length _ hm),
      groupThousands_short _ (toDigits_length_le _ hg).1]
    simp

theorem digitChar_toNat (d : Nat) (h : d < 10) : (Nat.digitChar d).toNat - 48 = d := by
  interval_cases d <;> rfl

theorem digitChar_ne_comma (d : Nat) (h : d < 10) : Nat.digitChar d ≠ ',' := by
  interval_cases d <;> decide

theorem decimalValue_append (l : List Char) (c : Char) :
    decimalValue (l ++ [c]) = decimalValue l * 10 + (c.toNat - 48) := by
  simp [decimalValue, List.foldl_append]

/-- Reading the decimal digits of a number gives the number back. -/
theorem decimalValue_toDigits (n : Nat) : decimalValue (Nat.toDigits 10 n) = n := by
  induction n using Nat.strong_induction_on with
  | _ n ih =>
    by_cases h : n < 10
    · rw [toDigits_small n h]
      have := digitChar_toNat n h
      simpa [decimalValue] using this
    · rw [toDigits_step n (by omega), decimalValue_append, ih (n / 10) (by omega),
        digitChar_toNat _ (Nat.mod_lt _ (by norm_num))]
      omega

theorem comma_not_mem_toDigits (n : Nat) : ',' ∉ Nat.toDigits 10 n := by
  induction n using Nat.strong_induction_on with
  | _ n ih =>
    by_cases h : n < 10
    · rw [toDigits_small n h]
      simp only [List.mem_singleton]
      exact fun e => digitChar_ne_comma n h e.symm
    · rw [toDigits_step n (by omega)]
      simp only [List.mem_append, List.mem_singleton, not_or]
      exact ⟨ih (n / 10) (by omega),
        fun e => digitChar_ne_comma _ (Nat.mod_lt _ (by norm_num)) e.symm⟩

/-- The first digit of a number that is not zero is not a zero. -/
theorem toDigits_head (n : Nat) (hn : n ≠ 0) :
    (Nat.toDigits 10 n).head? ≠ some '0' ∧ (Nat.toDigits 10 n).head? ≠ none := by
  induction n using Nat.strong_induction_on with
  | _ n ih =>
    by_cases h : n < 10
    · rw [toDigits_small n h]
      simp only [List.head?_cons, ne_eq, Option.some.injEq, not_false_eq_true, and_true,
        reduceCtorEq]
      interval_cases n
      · exact absurd rfl hn
      all_goals decide
    · rw [toDigits_step n (by omega)]
      have := ih (n / 10) (by omega) (by omega)
      cases hd : Nat.toDigits 10 (n / 10) with
      | nil => rw [hd] at this; exact absurd rfl this.2
      | cons x xs =>
        rw [hd] at this
        simpa using this

theorem removeChar_commaEveryThird (r : List Char) :
    removeChar (commaEveryThird r) ',' = removeChar r ',' := by
  induction r using commaEveryThird.induct with
  | case1 a b c d rest ih =>
    rw [commaEveryThird]
    simp only [removeChar, ne_eq, not_true_eq_false, if_false, ih]
  | case2 l h =>
    rw [commaEveryThird]
    intro a b c d rest e
    exact h a b c d rest e

theorem getLast?_commaEveryThird (r : List Char) :
    (commaEveryThird r).getLast? = r.getLast? := by
  induction r using commaEveryThird.induct with
  | case1 a b c d rest ih =>
    rw [commaEveryThird]
    simp only [List.getLast?_cons_cons]
    cases hc : commaEveryThird (d :: rest) with
    | nil =>
      rw [hc] at ih
      have hsome : (d :: rest).getLast? ≠ none := by
        rw [List.getLast?_eq_getLast _ (List.cons_ne_nil _ _)]
        simp
      exact absurd ih.symm hsome
    | cons x xs =>
      rw [hc] at ih
      rw [List.getLast?_cons_cons, ih]
  | case2 l h =>
    rw [commaEveryThird]
    intro a b c d rest e
    exact h a b c d rest e

theorem removeChar_reverse (l : List Char) (c : Char) :
    removeChar l.reverse c = (removeChar l c).reverse := by
  rw [removeChar_eq_filter, removeChar_eq_filter, List.filter_reverse]

theorem removeChar_groupThousands (ds : List Char) :
    removeChar (groupThousands ds) ',' = removeChar ds ',' := by
  unfold groupThousands
  rw [removeChar_reverse, removeChar_commaEveryThird, removeChar_reverse,
    List.reverse_reverse]

theorem head?_groupThousands (ds : List Char) : (groupThousands ds).head? = ds.head? := by
  unfold groupThousands
  rw [List.head?_reverse, getLast?_commaEveryThird, List.getLast?_reverse]

/-- Claim C30: for every unsigned 32-bit number, `FormatNumber` writes its decimal
digits with a comma between each group of three digits counted from the right;
without the commas the output reads as the number; it starts with a digit, and that
digit is a zero for the number 0 only. -/
theorem format_number_grouped (n : Nat) (hn : n < 2 ^ 32) :
    FormatNumber n = groupThousands (Nat.toDigits 10 n) ∧
    decimalValue (removeChar (FormatNumber n) ',') = n ∧
    (FormatNumber n).head? ≠ some ',' ∧
    (n ≠ 0 → (FormatNumber n).head? ≠ some '0') := by
  have heq := FormatNumber_eq n hn
  refine ⟨heq, ?_, ?_, ?_⟩
  · rw [heq, removeChar_groupThousands,
      removeChar_of_not_mem _ _ (comma_not_mem_toDigits n), decimalValue_toDigits]
  · rw [heq, head?_groupThousands]
    intro e
    exact comma_not_mem_toDigits n (List.mem_of_mem_head? e)
  · intro h0
    rw [heq, head?_groupThousands]
    exact (toDigits_head n h0).1

/-- Claim C30 on the number 1234567. -/
theorem format_number_grouped_witness :
    FormatNumber 1234567 = groupThousands (Nat.toDigits 10 1234567) ∧
    decimalValue (removeChar (FormatNumber 1234567) ',') = 1234567 ∧
    FormatNumber 1234567 = "1,234,567".toList :=
  ⟨(format_number_grouped 1234567 (by norm_num)).1,
    (format_number_grouped 1234567 (by norm_num)).2.1, by decide⟩

/-! ## GOTO -/

theorem gotoLabelEnd_eq (l : List Char) :
    gotoLabelEnd l = l.takeWhile (fun c => c != ' ' && c != '\t') := by
  induction l with
  | nil => rfl
  | cons c cs ih =>
    unfold gotoLabelEnd
    by_cases h : c = ' ' ∨ c = '\t'
    · rcases h with rfl | rfl <;> simp
    · have h1 : c ≠ ' ' := fun e => h (Or.inl e)
      have h2 : c ≠ '\t' := fun e => h (Or.inr e)
      simp [h1, h2, ih]

/-- Claim C25 as amended: with a batch file active, the label of GOTO is the argument
without its leading white space and without a leading colon, up to its first blank or
tab; an empty label brings the missing-label message and no call of the tracker;
otherwise the tracker is called with the label, once, and the label-not-found
message is written exactly when it reports that the label does not exist. -/
theorem goto_label (Goto : List Char → Bool) (args : List Char) :
    gotoLabel args = gotoLabelAmended args ∧
    (gotoLabelAmended args = [] →
      CMD_GOTO (some Goto) args = ⟨[], [Out.msg "SHELL_CMD_GOTO_MISSING_LABEL" []]⟩) ∧
    (gotoLabelAmended args ≠ [] → Goto (gotoLabelAmended args) = true →
      CMD_GOTO (some Goto) args = ⟨[gotoLabelAmended args], []⟩) ∧
    (gotoLabelAmended args ≠ [] → Goto (gotoLabelAmended args) = false →
      CMD_GOTO (some Goto) args
        = ⟨[gotoLabelAmended args],
            [Out.msg "SHELL_CMD_GOTO_LABEL_NOT_FOUND" (gotoLabelAmended args)]⟩) := by
  have heq : gotoLabel args = gotoLabelAmended args := by
    unfold gotoLabel gotoLabelAmended StripSpaces
    exact gotoLabelEnd_eq _
  refine ⟨heq, ?_, ?_, ?_⟩
  · intro h
    unfold CMD_GOTO
    simp [heq, h]
  · intro h hg
    have hl : (gotoLabelAmended args).length ≠ 0 := fun e => h (List.length_eq_zero.mp e)
    unfold CMD_GOTO
    simp only [heq, hl, if_false, hg, if_true]
  · intro h hg
    have hl : (gotoLabelAmended args).length ≠ 0 := fun e => h (List.length_eq_zero.mp e)
    unfold CMD_GOTO
    simp only [heq, hl, if_false, hg, Bool.false_eq_true]

/-- Claim C25 as amended, on `GOTO :end now` with a tracker that knows no label and on
`GOTO` with blanks only. -/
theorem goto_label_witness :
    CMD_GOTO (some fun _ => false) "  :end now".toList
      = ⟨["end".toList], [Out.msg "SHELL_CMD_GOTO_LABEL_NOT_FOUND" "end".toList]⟩ ∧
    CMD_GOTO (some fun _ => true) "  :end now".toList = ⟨["end".toList], []⟩ ∧
    CMD_GOTO (some fun _ => true) "   ".toList
      = ⟨[], [Out.msg "SHELL_CMD_GOTO_MISSING_LABEL" []]⟩ :=
  ⟨(goto_label (fun _ => false) "  :end now".toList).2.2.2 (by decide) rfl,
    (goto_label (fun _ => true) "  :end now".toList).2.2.1 (by decide) rfl,
    (goto_label (fun _ => true) "   ".toList).2.1 (by decide)⟩

/-- Claim C25 as stated fails: of `GOTO a b` the tracker receives the label `a`, not
`a b`. -/
theorem goto_label_counterexample :
    gotoLabelClaimed " a b".toList = "a b".toList ∧
    (CMD_GOTO (some fun _ => true) " a b".toList).calls = ["a".toList] ∧
    (CMD_GOTO (some fun _ => true) " a b".toList).calls
      ≠ [gotoLabelClaimed " a b".toList] := by
  decide

/-! ## RENAME: the vector and the loop -/

/-- A run of `REN *.TXT *.BAK` over two files and the two dot entries; A.TXT cannot be
renamed. -/
theorem renameRun_examples :
    (renameRun (renExampleEnv [fileEntry "." 0x10, fileEntry ".." 0x10, fileEntry "A.TXT" 0x20,
        fileEntry "B.TXT" 0x20] [".\\A.TXT".toList])
      "*.TXT".toList "C:\\*.TXT".toList ".\\".toList "*.BAK".toList 0x1000 []).1.calls
      = [(".\\A.TXT".toList, ".\\A.BAK".toList), (".\\B.TXT".toList, ".\\B.BAK".toList)] ∧
    (renameRun (renExampleEnv [fileEntry "." 0x10, fileEntry ".." 0x10, fileEntry "A.TXT" 0x20,
        fileEntry "B.TXT" 0x20] [".\\A.TXT".toList])
      "*.TXT".toList "C:\\*.TXT".toList ".\\".toList "*.BAK".toList 0x1000 []).1.out
      = [Out.msg "SHELL_CMD_RENAME_ERROR" "A.TXT".toList] := by
  decide

theorem questionLoop_length (limit bound : Nat) (src : List Char) (i : Nat) (cs : List Char) :
    (questionLoop limit bound src i cs).length = cs.length := by
  induction cs generalizing i with
  | nil => rfl
  | cons c cs ih => simp [questionLoop, ih]

/-- In front of its bound the loop over the question marks does what the claim says,
when the limit of the names does not cut it short. -/
theorem questionLoop_take (limit bound : Nat) (src : List Char) (hlim : src.length ≤ limit) :
    ∀ (n i : Nat) (cs : List Char), i + n ≤ bound →
      (questionLoop limit bound src i cs).take n = questionFill src i (cs.take n) := by
  intro n
  induction n with
  | zero => intro i cs _; simp [questionFill]
  | succ n ih =>
    intro i cs hb
    cases cs with
    | nil => simp [questionLoop, questionFill]
    | cons c cs =>
      simp only [questionLoop, List.take_succ_cons, questionFill]
      rw [ih (i + 1) cs (by omega)]
      congr 1
      by_cases h : c = '?' ∧ i < src.length
      · have h' : i < limit ∧ i < bound ∧ c = '?' ∧ i < src.length :=
          ⟨by omega, by omega, h.1, h.2⟩
        rw [if_pos h, if_pos h']
      · have h' : ¬ (i < limit ∧ i < bound ∧ c = '?' ∧ i < src.length) :=
          fun e => h ⟨e.2.2.1, e.2.2.2⟩
        rw [if_neg h, if_neg h']

theorem questionFill_of_not_mem (src : List Char) (i : Nat) (cs : List Char)
    (h : '?' ∉ cs) : questionFill src i cs = cs := by
  induction cs generalizing i with
  | nil => rfl
  | cons c cs ih =>
    have hc : c ≠ '?' := fun e => h (e ▸ List.mem_cons_self _ _)
    have hcs : '?' ∉ cs := fun m => h (List.mem_cons_of_mem _ m)
    simp [questionFill, hc, ih _ hcs]

theorem takeWhile_ne_of_strchr (seg : List Char) (c : Char) :
    seg.takeWhile (· != c) =
      match strchr seg c with
      | some k => seg.take k
      | none => seg := by
  induction seg with
  | nil => rfl
  | cons x xs ih =>
    by_cases h : x = c
    · simp [strchr, h]
    · have hb : (x != c) = true := by simp [h]
      rw [List.takeWhile_cons, hb]
      simp only [if_true, strchr, h, if_false]
      rw [ih]
      cases strchr xs c <;> simp

/-- The wildcard block of CMD_RENAME and the deletion of the question marks behind it
make up the segment rule of the claim, for a source segment within the limit of the
names. -/
theorem substSegment_eq_segmentRule (limit : Nat) (seg src : List Char)
    (hlim : src.length ≤ limit) :
    removeChar (substSegment limit seg src) '?' = segmentRule seg src := by
  unfold substSegment segmentRule
  rw [takeWhile_ne_of_strchr]
  cases hs : strchr seg '*' with
  | none =>
    have hmem : '*' ∉ seg := (strchr_eq_none_iff _ _).mp hs
    simp only [hmem, if_false, List.append_nil]
    by_cases hq : (strchr seg '?').isSome = true
    · simp only [hq, if_true]
      have := questionLoop_take limit seg.length src hlim seg.length 0 seg (by omega)
      rw [List.take_of_length_le (by rw [questionLoop_length]), List.take_length] at this
      rw [this]
    · simp only [hq, Bool.false_eq_true, if_false]
      have hq' : '?' ∉ seg := by
        intro hm
        exact hq ((strchr_isSome_iff _ _).mpr hm)
      rw [questionFill_of_not_mem _ _ _ hq']
  | some k =>
    have hmem : '*' ∈ seg := by
      by_contra hc
      rw [(strchr_eq_none_iff _ _).mpr hc] at hs
      cases hs
    have hk : k < seg.length := strchr_lt seg '*' k hs
    have hlen : (seg.take k).length = k := by
      rw [List.length_take]; omega
    simp only [hmem, if_true, hlen]
    have hhead : (if (strchr seg '?').isSome = true then
          questionLoop limit k src 0 seg else seg).take k
        = questionFill src 0 (seg.take k) := by
      by_cases hq : (strchr seg '?').isSome = true
      · simp only [hq, if_true]
        exact questionLoop_take limit k src hlim k 0 seg (by omega)
      · simp only [hq, Bool.false_eq_true, if_false]
        have hq' : '?' ∉ seg.take k := by
          intro hm
          exact hq ((strchr_isSome_iff _ _).mpr (List.mem_of_mem_take hm))
        rw [questionFill_of_not_mem _ _ _ hq']
    by_cases hks : k < src.length
    · simp only [hks, if_true]
      rw [hhead]
    · simp only [hks, if_false]
      rw [hhead, List.drop_eq_nil_of_le (by omega), List.append_nil]

/-- Claim C23 as amended: for a destination template with a dot and a matched name with
a dot (within the limit of the names), the destination of RENAME is
`S(tName, sName) ++ "." ++ S(tExt, sExt)`, where the template without its double
quotes and the matched name are split at their last dot and `S` is the one segment
rule of the claim; so the name half is made of the two name parts alone and the
extension half of the two extensions alone. -/
theorem rename_two_halves (lim : NameLimits) (crossBound : Nat) (uselfn : Bool)
    (target name lname : List Char) (hdot : '.' ∈ target)
    (hsrc : '.' ∈ (if uselfn then lname else name))
    (hlim : (if uselfn then lname else name).length ≤ lim.limit uselfn) :
    renameDest lim crossBound uselfn target name lname
      = renameClaimed (removeChar target '"') (if uselfn then lname else name) := by
  have hdot' : '.' ∈ removeChar target '"' :=
    (mem_removeChar_iff _ _ _).mpr ⟨hdot, by decide⟩
  have hprep : prepareTarget uselfn target = removeChar target '"' := by
    unfold prepareTarget
    have : (strchr (removeChar target '"') '.').isNone = false := by
      have := (strchr_isSome_iff _ _).mpr hdot'
      cases h : strchr (removeChar target '"') '.' with
      | none => rw [h] at this; cases this
      | some k => rfl
    simp [this]
  obtain ⟨d2, hd2⟩ : ∃ d2, strrchr (removeChar target '"') '.' = some d2 := by
    cases h : strrchr (removeChar target '"') '.' with
    | none => exact absurd hdot' ((strrchr_eq_none_iff _ _).mp h)
    | some k => exact ⟨k, rfl⟩
  obtain ⟨d1, hd1⟩ : ∃ d1, strrchr (if uselfn then lname else name) '.' = some d1 := by
    cases h : strrchr (if uselfn then lname else name) '.' with
    | none => exact absurd hsrc ((strrchr_eq_none_iff _ _).mp h)
    | some k => exact ⟨k, rfl⟩
  have hl1 : ((if uselfn then lname else name).take d1).length ≤ lim.limit uselfn := by
    rw [List.length_take]; omega
  have hl2 : ((if uselfn then lname else name).drop (d1 + 1)).length ≤ lim.limit uselfn := by
    rw [List.length_drop]; omega
  unfold renameDest renameFromTemplate renameClaimed
  rw [hprep]
  simp only [hd2, hd1, renameExt]
  rw [substSegment_eq_segmentRule _ _ _ hl1, substSegment_eq_segmentRule _ _ _ hl2]

/-- Claim C23 as amended, on the template `?x*.b?k` and the name `report.doc`. -/
theorem rename_two_halves_witness :
    renameDest dosLimits 0 false "?x*.b?k".toList "REPORT.DOC".toList "REPORT.DOC".toList
      = renameClaimed (removeChar "?x*.b?k".toList '"') "REPORT.DOC".toList ∧
    renameDest dosLimits 0 false "?x*.b?k".toList "REPORT.DOC".toList "REPORT.DOC".toList
      = "RxPORT.bOk".toList :=
  ⟨rename_two_halves dosLimits 0 false "?x*.b?k".toList "REPORT.DOC".toList
      "REPORT.DOC".toList (by decide) (by decide) (by decide), by decide⟩

/-- Claim C23 as stated fails: the template `"x.y"`, in double quotes, applied to `A.B`
gives `x.y`, while the halves of the template as it stands give the name with the two
quotes. -/
theorem rename_two_halves_counterexample :
    renameDest dosLimits 0 false ['"', 'x', '.', 'y', '"'] "A.B".toList "A.B".toList
      = "x.y".toList ∧
    renameClaimed ['"', 'x', '.', 'y', '"'] "A.B".toList = ['"', 'x', '.', 'y', '"'] ∧
    renameDest dosLimits 0 false ['"', 'x', '.', 'y', '"'] "A.B".toList "A.B".toList
      ≠ renameClaimed ['"', 'x', '.', 'y', '"'] "A.B".toList := by
  decide

/-! ### COPY: the offset of the replacement -/

theorem toIntptr_small (bits n : Nat) (h : n < 2 ^ (bits - 1)) : toIntptr bits n = (n : Int) := by
  have hle : 2 ^ (bits - 1) ≤ 2 ^ bits := Nat.pow_le_pow_right (by decide) (Nat.sub_le _ _)
  have hmod : n % 2 ^ bits = n := Nat.mod_eq_of_lt (Nat.lt_of_lt_of_le h hle)
  unfold toIntptr
  rw [hmod, if_pos h]

theorem Envelope.lip_eq (env : EnvelopeEnv) (e : Envelope)
    (hfit : e.edge + e.edge_increment < 2 ^ env.fieldBits)
    (hptr : e.edge + e.edge_increment < 2 ^ (env.ptrBits - 1)) :
    e.lip env = ((e.edge + e.edge_increment : Nat) : Int) := by
  unfold Envelope.lip
  rw [Nat.mod_eq_of_lt hfit, toIntptr_small _ _ hptr]

theorem envelopeExample_clamp (v lo hi : Int) (h : lo ≤ hi) :
    lo ≤ envelopeExample.clamp v lo hi ∧ envelopeExample.clamp v lo hi ≤ hi :=
  ⟨le_max_left _ _, max_le h (min_le_right _ _)⟩

/-- The effect of a call of `Apply` that passes line 81, with `lip` and the new edge
as the fields compute them. -/
theorem Envelope.Apply_first (env : EnvelopeEnv) (e : Envelope)
    (is_stereo is_interpolated : Bool) (fr : Frame) (hstart : e.idle fr = false) :
    ((∀ i, Frame.enabled is_stereo is_interpolated i = true →
        (fr.sample i).natAbs ≤ e.edge) →
      (e.Apply env is_stereo is_interpolated fr).2 = fr ∧
      (e.Apply env is_stereo is_interpolated fr).1.edge = e.edge) ∧
    (∀ i, Frame.enabled is_stereo is_interpolated i = true →
      (fr.sample i).natAbs > e.edge →
      (∀ j, j < i → Frame.enabled is_stereo is_interpolated j = true →
        (fr.sample j).natAbs ≤ e.edge) →
      (e.Apply env is_stereo is_interpolated fr).2.sample i
        = env.clamp (fr.sample i) (-(e.lip env)) (e.lip env) ∧
      (∀ j, j ≠ i → (e.Apply env is_stereo is_interpolated fr).2.sample j = fr.sample j) ∧
      (e.Apply env is_stereo is_interpolated fr).1.edge
        = (e.edge + e.edge_increment) % 2 ^ env.fieldBits) := by
  constructor
  · intro hall
    have h0 := hall 0 rfl
    have h1 := hall 1
    have h2 := hall 2
    have h3 := hall 3
    simp only [Frame.enabled, Frame.sample] at h0 h1 h2 h3
    unfold Envelope.Apply Envelope.onLip Envelope.ClampSample
    rw [hstart]
    cases is_stereo <;> cases is_interpolated <;>
      simp [Nat.not_lt.mpr h0, Nat.not_lt.mpr, h1, h2, h3]
  · intro i hen hi hbefore
    unfold Envelope.Apply Envelope.onLip Envelope.ClampSample
    rw [hstart]
    generalize e.lip env = L
    fin_cases i
    · simp only [Frame.sample, Fin.zero_eta] at hi ⊢
      simp only [hi, if_true]
      refine ⟨rfl, ?_, rfl⟩
      intro j hj
      fin_cases j
      · exact absurd rfl hj
      · rfl
      · rfl
      · rfl
    · have h0 : ¬ fr.prev0.natAbs > e.edge := Nat.not_lt.mpr (hbefore 0 (by decide) rfl)
      simp only [Frame.sample, Frame.enabled, Fin.mk_one] at hi hen ⊢
      simp only [hi, h0, hen, if_true, if_false, Bool.true_and, Bool.false_eq_true]
      refine ⟨trivial, ?_, trivial⟩
      intro j hj
      fin_cases j
      · rfl
      · exact absurd rfl hj
      · rfl
      · rfl
    · have h0 : ¬ fr.prev0.natAbs > e.edge := Nat.not_lt.mpr (hbefore 0 (by decide) rfl)
      have h1 : is_stereo = true → ¬ fr.prev1.natAbs > e.edge :=
        fun hs => Nat.not_lt.mpr (hbefore 1 (by decide) hs)
      simp only [Frame.sample, Frame.enabled] at hi hen ⊢
      cases is_stereo with
      | false =>
        simp only [hi, h0, hen, if_true, if_false, Bool.false_and, Bool.false_eq_true]
        refine ⟨trivial, ?_, trivial⟩
        intro j hj
        fin_cases j
        · rfl
        · rfl
        · exact absurd rfl hj
        · rfl
      | true =>
        simp only [hi, h0, h1 rfl, hen, if_true, if_false, Bool.true_and, Bool.false_eq_true]
        refine ⟨trivial, ?_, trivial⟩
        intro j hj
        fin_cases j
        · rfl
        · rfl
        · exact absurd rfl hj
        · rfl
    · have h0 : ¬ fr.prev0.natAbs > e.edge := Nat.not_lt.mpr (hbefore 0 (by decide) rfl)
      simp only [Frame.sample, Frame.enabled] at hi ⊢
      simp only [Frame.enabled, Bool.and_eq_true] at hen
      obtain ⟨hil, hst⟩ := hen
      have h1 : ¬ fr.prev1.natAbs > e.edge := Nat.not_lt.mpr (hbefore 1 (by decide) hst)
      have h2 : ¬ fr.next0.natAbs > e.edge := Nat.not_lt.mpr (hbefore 2 (by decide) hil)
      simp only [Frame.sample] at h1 h2
      simp only [hi, h0, h1, h2, hil, hst, if_true, if_false, Bool.true_and, Bool.false_eq_true]
      refine ⟨trivial, ?_, trivial⟩
      intro j hj
      fin_cases j
      · rfl
      · rfl
      · rfl
      · exact absurd rfl hj

/-- Claim C29 as amended: a call of `Apply` that passes the start check of line 81
leaves the frame and `edge` as they are when no enabled sample has a magnitude above
`edge`; otherwise the first enabled sample with a magnitude above `edge`, in the
order `prev[0]`, `prev[1]`, `next[0]`, `next[1]`, becomes `clamp(sample, -lip, lip)`
with `lip` the sum `edge + edge_increment` as the fields compute it, every other
sample keeps its value, also one beyond the edge, and `edge` becomes that sum
reduced to the width of the fields.  When the sum fits the fields and `intptr_t`,
`lip` is `edge + edge_increment`, `edge` grows by `edge_increment`, and a `clamp`
that returns a value between its bounds leaves the sample between `-lip` and `lip`. -/
theorem envelope_apply_frame (env : EnvelopeEnv) (e : Envelope)
    (is_stereo is_interpolated : Bool) (fr : Frame)
    (hstart : e.idle fr = false) :
    ((∀ i, Frame.enabled is_stereo is_interpolated i = true →
        (fr.sample i).natAbs ≤ e.edge) →
      (e.Apply env is_stereo is_interpolated fr).2 = fr ∧
      (e.Apply env is_stereo is_interpolated fr).1.edge = e.edge) ∧
    (∀ i, Frame.enabled is_stereo is_interpolated i = true →
      (fr.sample i).natAbs > e.edge →
      (∀ j, j < i → Frame.enabled is_stereo is_interpolated j = true →
        (fr.sample j).natAbs ≤ e.edge) →
      (e.Apply env is_stereo is_interpolated fr).2.sample i
        = env.clamp (fr.sample i) (-(e.lip env)) (e.lip env) ∧
      (∀ j, j ≠ i → (e.Apply env is_stereo is_interpolated fr).2.sample j = fr.sample j) ∧
      (e.Apply env is_stereo is_interpolated fr).1.edge
        = (e.edge + e.edge_increment) % 2 ^ env.fieldBits ∧
      (e.edge + e.edge_increment < 2 ^ env.fieldBits →
        e.edge + e.edge_increment < 2 ^ (env.ptrBits - 1) →
        e.lip env = ((e.edge + e.edge_increment : Nat) : Int) ∧
        (e.Apply env is_stereo is_interpolated fr).1.edge = e.edge + e.edge_increment ∧
        ((∀ v lo hi : Int, lo ≤ hi → lo ≤ env.clamp v lo hi ∧ env.clamp v lo hi ≤ hi) →
          -((e.edge + e.edge_increment : Nat) : Int)
            ≤ (e.Apply env is_stereo is_interpolated fr).2.sample i ∧
          (e.Apply env is_stereo is_interpolated fr).2.sample i
            ≤ ((e.edge + e.edge_increment : Nat) : Int)))) := by
  have hcore := Envelope.Apply_first env e is_stereo is_interpolated fr hstart
  refine ⟨hcore.1, ?_⟩
  intro i hen hi hbefore
  obtain ⟨hs, hother, hedge⟩ := hcore.2 i hen hi hbefore
  refine ⟨hs, hother, hedge, ?_⟩
  intro hfit hptr
  have hlip := Envelope.lip_eq env e hfit hptr
  refine ⟨hlip, by rw [hedge, Nat.mod_eq_of_lt hfit], ?_⟩
  intro hclamp
  rw [hs, hlip]
  exact hclamp _ _ _ (by omega)

/-- Claim C29 on a stereo, interpolated frame with the samples 3, -20, 30 and 0 at the
edge 10 with the increment 5: `prev[1]` becomes -15, `next[0]` stays 30 although it
lies beyond the edge, and the edge becomes 15. -/
theorem envelope_apply_frame_witness :
    (Envelope.Apply envelopeExample ⟨EnvelopeProcess.Apply, 100, 0, 10, 50, 5⟩ true true
        ⟨3, -20, 30, 0⟩).2 = ⟨3, -15, 30, 0⟩ ∧
    (Envelope.Apply envelopeExample ⟨EnvelopeProcess.Apply, 100, 0, 10, 50, 5⟩ true true
        ⟨3, -20, 30, 0⟩).2.sample 1 = -15 ∧
    (∀ j, j ≠ 1 →
      (Envelope.Apply envelopeExample ⟨EnvelopeProcess.Apply, 100, 0, 10, 50, 5⟩ true true
        ⟨3, -20, 30, 0⟩).2.sample j = (⟨3, -20, 30, 0⟩ : Frame).sample j) ∧
    (Envelope.Apply envelopeExample ⟨EnvelopeProcess.Apply, 100, 0, 10, 50, 5⟩ true true
        ⟨3, -20, 30, 0⟩).1.edge = 10 + 5 :=
  have h := (envelope_apply_frame envelopeExample ⟨EnvelopeProcess.Apply, 100, 0, 10, 50, 5⟩
    true true ⟨3, -20, 30, 0⟩ (by decide)).2 1 rfl (by decide) (by decide)
  ⟨by decide, h.1.trans (by decide), h.2.1, (h.2.2.2 (by decide) (by decide)).2.1⟩

/-- Claim C29 as stated fails where `edge + edge_increment` does not fit the fields:
with fields of 32 bits, `Update(2000, 4294967295, 1, 1)` sets `edge_increment` to
2147483648; the first frame that presses takes the edge there, and in the second
call, on the sample 3000000000, `lip` and the edge wrap to 0: the sample becomes 0
and the edge 0, where the claim has it grow to 4294967296. -/
theorem envelope_apply_frame_counterexample :
    Envelope.Update envelopeExample ⟨EnvelopeProcess.Skip, 0, 0, 0, 0, 0⟩ 2000 4294967295 1 1
      = some ⟨EnvelopeProcess.Skip, 2000, 0, 0, 4294967295, 2147483648⟩ ∧
    (Envelope.Apply envelopeExample
        (Envelope.Reactivate ⟨EnvelopeProcess.Skip, 2000, 0, 0, 4294967295, 2147483648⟩)
        false false ⟨3000000000, 0, 0, 0⟩).1
      = ⟨EnvelopeProcess.Apply, 2000, 1, 2147483648, 4294967295, 2147483648⟩ ∧
    Envelope.idle ⟨EnvelopeProcess.Apply, 2000, 1, 2147483648, 4294967295, 2147483648⟩
      ⟨3000000000, 0, 0, 0⟩ = false ∧
    Envelope.Apply envelopeExample
        ⟨EnvelopeProcess.Apply, 2000, 1, 2147483648, 4294967295, 2147483648⟩
        false false ⟨3000000000, 0, 0, 0⟩
      = (⟨EnvelopeProcess.Apply, 2000, 2, 0, 4294967295, 2147483648⟩, ⟨0, 0, 0, 0⟩) := by
  decide

theorem Envelope.run_skip (env : EnvelopeEnv) (is_stereo is_interpolated : Bool)
    (e : Envelope) (frames : List Frame) (h : e.process = EnvelopeProcess.Skip) :
    Envelope.run env is_stereo is_interpolated e frames = e := by
  induction frames with
  | nil => rfl
  | cons fr frames ih =>
    have hp : (e.Process env is_stereo is_interpolated fr).1 = e := by
      unfold Envelope.Process
      rw [h]
      rfl
    rw [Envelope.run, hp, ih]

theorem Envelope.pressed_skip (env : EnvelopeEnv) (is_stereo is_interpolated : Bool)
    (e : Envelope) (frames : List Frame) (h : e.process = EnvelopeProcess.Skip) :
    Envelope.pressed env is_stereo is_interpolated e frames = true := by
  induction frames with
  | nil => rfl
  | cons fr frames ih =>
    have hp : (e.Process env is_stereo is_interpolated fr).1 = e := by
      unfold Envelope.Process
      rw [h]
      rfl
    rw [Envelope.pressed, hp, ih, h]
    rfl

theorem Envelope.Process_presses (env : EnvelopeEnv) (is_stereo is_interpolated : Bool)
    (e : Envelope) (fr : Frame) (hproc : e.process = EnvelopeProcess.Apply)
    (hpress : e.presses env is_stereo is_interpolated fr = true)
    (hfit : e.edge + e.edge_increment < 2 ^ env.fieldBits)
    (hdone : e.frames_done + 1 < 2 ^ env.fieldBits) :
    (e.Process env is_stereo is_interpolated fr).1 =
      { e with
        edge := e.edge + e.edge_increment
        frames_done := e.frames_done + 1
        process :=
          if e.frames_done + 1 > e.expire_after_frames
              || e.edge + e.edge_increment ≥ e.edge_limit then
            EnvelopeProcess.Skip
          else EnvelopeProcess.Apply } := by
  unfold Envelope.presses at hpress
  simp only [Bool.and_eq_true, Bool.not_eq_true'] at hpress
  unfold Envelope.Process
  rw [hproc]
  simp only [Envelope.Apply, hpress.1, hpress.2, Bool.false_eq_true, if_false, if_true,
    Nat.mod_eq_of_lt hfit, Nat.mod_eq_of_lt hdone, hproc]

theorem Envelope.run_pressed (env : EnvelopeEnv) (is_stereo is_interpolated : Bool)
    (frames : List Frame) :
    ∀ e : Envelope, e.process = EnvelopeProcess.Apply → e.edge < e.edge_limit →
      e.edge_limit + e.edge_increment ≤ 2 ^ env.fieldBits →
      e.expire_after_frames < 2 ^ env.fieldBits →
      e.frames_done + frames.length ≤ e.expire_after_frames →
      Envelope.pressed env is_stereo is_interpolated e frames = true →
      e.edge_limit ≤ e.edge + frames.length * e.edge_increment →
      (Envelope.run env is_stereo is_interpolated e frames).process = EnvelopeProcess.Skip ∧
      (Envelope.run env is_stereo is_interpolated e frames).edge_limit
        ≤ (Envelope.run env is_stereo is_interpolated e frames).edge := by
  induction frames with
  | nil =>
    intro e _ hlt _ _ _ _ hreach
    simp only [List.length_nil, Nat.zero_mul, Nat.add_zero] at hreach
    omega
  | cons fr frames ih =>
    intro e hproc hlt hfit hexp hdone hpress hreach
    rw [Envelope.pressed, hproc] at hpress
    simp only [bne_self_eq_false, Bool.false_or, Bool.and_eq_true] at hpress
    simp only [List.length_cons] at hdone hreach
    have hstep := Envelope.Process_presses env is_stereo is_interpolated e fr hproc hpress.1
      (by omega) (by omega)
    rw [Envelope.run, hstep]
    rw [hstep] at hpress
    have hnot : ¬ e.frames_done + 1 > e.expire_after_frames := by omega
    by_cases hge : e.edge + e.edge_increment ≥ e.edge_limit
    · have hsk : (if e.frames_done + 1 > e.expire_after_frames
            || e.edge + e.edge_increment ≥ e.edge_limit then
          EnvelopeProcess.Skip else EnvelopeProcess.Apply) = EnvelopeProcess.Skip := by
        simp [hge]
      rw [hsk, Envelope.run_skip _ _ _ _ _ rfl]
      exact ⟨rfl, hge⟩
    · have hap : (if e.frames_done + 1 > e.expire_after_frames
            || e.edge + e.edge_increment ≥ e.edge_limit then
          EnvelopeProcess.Skip else EnvelopeProcess.Apply) = EnvelopeProcess.Apply := by
        simp [hge, hnot]
      rw [hap]
      rw [hap] at hpress
      refine ih _ rfl (by simpa using hge) hfit hexp ?_ hpress.2 ?_
      · show e.frames_done + 1 + frames.length ≤ e.expire_after_frames
        omega
      · show e.edge_limit ≤ e.edge + e.edge_increment + frames.length * e.edge_increment
        have : (frames.length + 1) * e.edge_increment
            = frames.length * e.edge_increment + e.edge_increment := Nat.succ_mul _ _
        omega

theorem ceil_mul_ge (x y : Nat) (hy : 0 < y) : x ≤ (x + y - 1) / y * y := by
  have h := Nat.lt_mul_div_succ (x + y - 1) hy
  have hc : y * ((x + y - 1) / y + 1) = (x + y - 1) / y * y + y := by
    rw [Nat.mul_add, Nat.mul_one, Nat.mul_comm]
  rw [hc] at h
  omega

theorem ceil_le_self (x y : Nat) (hx : 0 < x) (hy : 0 < y) : (x + y - 1) / y ≤ x := by
  apply Nat.div_le_of_le_mul
  obtain ⟨a, rfl⟩ : ∃ a, y = a + 1 := ⟨y - 1, by omega⟩
  obtain ⟨b, rfl⟩ : ∃ b, x = b + 1 := ⟨x - 1, by omega⟩
  have : (a + 1) * (b + 1) = a * b + a + b + 1 := by ring
  omega

theorem Envelope.Update_eq (env : EnvelopeEnv) (e0 e1 : Envelope)
    (frame_rate peak_magnitude expansion_phase_ms expire_after_seconds : Nat)
    (hceil : ∀ x y, 0 < y → env.ceil_udivide x y = (x + y - 1) / y)
    (hbits : 32 ≤ env.fieldBits)
    (hfr : frame_rate ≠ 0) (hpk : peak_magnitude ≠ 0) (hms : expansion_phase_ms ≠ 0)
    (hpk32 : peak_magnitude < 2 ^ 32)
    (hprod : frame_rate * expansion_phase_ms < 2 ^ 32)
    (hupd : e0.Update env frame_rate peak_magnitude expansion_phase_ms expire_after_seconds
      = some e1) :
    e1.expire_after_frames = (expire_after_seconds * frame_rate) % 2 ^ 32 ∧
    e1.expire_after_frames ≠ 0 ∧
    e1.edge_limit = peak_magnitude ∧
    e1.edge_increment
      = (peak_magnitude + (frame_rate * expansion_phase_ms + 999) / 1000 - 1)
          / ((frame_rate * expansion_phase_ms + 999) / 1000) ∧
    0 < (frame_rate * expansion_phase_ms + 999) / 1000 := by
  have hw : 2 ^ 32 ≤ 2 ^ env.fieldBits := Nat.pow_le_pow_right (by decide) hbits
  have hP : 0 < frame_rate * expansion_phase_ms :=
    Nat.mul_pos (Nat.pos_of_ne_zero hfr) (Nat.pos_of_ne_zero hms)
  generalize hPdef : frame_rate * expansion_phase_ms = P at hprod hP hupd ⊢
  have hF : 0 < (P + 999) / 1000 := by omega
  have hF32 : (P + 999) / 1000 < 2 ^ 32 := by omega
  have hq := ceil_le_self peak_magnitude ((P + 999) / 1000) (Nat.pos_of_ne_zero hpk) hF
  have hexp32 : (expire_after_seconds * frame_rate) % 2 ^ 32 < 2 ^ 32 :=
    Nat.mod_lt _ (by decide)
  unfold Envelope.Update at hupd
  have hnz : ¬ (frame_rate = 0 ∨ peak_magnitude = 0 ∨ expansion_phase_ms = 0) := by
    simp [hfr, hpk, hms]
  rw [if_neg hnz] at hupd
  have hc1000 : env.ceil_udivide P 1000 = (P + 999) / 1000 := hceil P 1000 (by decide)
  simp only [hPdef, Nat.mod_eq_of_lt hprod, hc1000, Nat.mod_eq_of_lt hF32,
    Nat.mod_eq_of_lt (Nat.lt_of_lt_of_le hexp32 hw),
    Nat.mod_eq_of_lt (Nat.lt_of_lt_of_le hpk32 hw), hceil _ _ hF,
    Nat.mod_eq_of_lt (Nat.lt_of_le_of_lt hq (Nat.lt_of_lt_of_le hpk32 hw)),
    Nat.ne_of_gt hF, if_false] at hupd
  by_cases hz : (expire_after_seconds * frame_rate) % 2 ^ 32 = 0
  · rw [if_pos hz] at hupd
    cases hupd
  · rw [if_neg hz] at hupd
    cases hupd
    exact ⟨rfl, hz, rfl, rfl, hF⟩

/-- Claim C26, amended: after `Update` with non-zero `frame_rate`, `peak_magnitude` and
`expansion_phase_ms` and `frame_rate * expansion_phase_ms < 2^32`, the product of
`edge_increment` and `F = ceil(frame_rate * expansion_phase_ms / 1000)` is at least
`peak_magnitude`.  When moreover `expire_after_seconds * frame_rate < 2^32`, an
envelope reactivated at edge 0 whose every frame presses on the edge has switched to
`Skip` with `edge >= edge_limit` after `F` calls.  The fields are taken to have at
least 32 bits and to hold `edge_limit + edge_increment`, and `ceil_udivide` to be the
rounded-up quotient. -/
theorem envelope_reaches_limit (env : EnvelopeEnv) (e0 e1 : Envelope)
    (frame_rate peak_magnitude expansion_phase_ms expire_after_seconds : Nat)
    (is_stereo is_interpolated : Bool)
    (hceil : ∀ x y, 0 < y → env.ceil_udivide x y = (x + y - 1) / y)
    (hbits : 32 ≤ env.fieldBits)
    (hfr : frame_rate ≠ 0) (hpk : peak_magnitude ≠ 0) (hms : expansion_phase_ms ≠ 0)
    (hpk32 : peak_magnitude < 2 ^ 32) (hms8 : expansion_phase_ms < 2 ^ 8)
    (hprod : frame_rate * expansion_phase_ms < 2 ^ 32)
    (hupd : e0.Update env frame_rate peak_magnitude expansion_phase_ms expire_after_seconds
      = some e1) :
    peak_magnitude ≤ e1.edge_increment * ((frame_rate * expansion_phase_ms + 999) / 1000) ∧
    (expire_after_seconds * frame_rate < 2 ^ 32 →
      e1.edge_limit + e1.edge_increment ≤ 2 ^ env.fieldBits →
      ∀ frames : List Frame,
        frames.length = (frame_rate * expansion_phase_ms + 999) / 1000 →
        Envelope.pressed env is_stereo is_interpolated e1.Reactivate frames = true →
        (Envelope.run env is_stereo is_interpolated e1.Reactivate frames).process
          = EnvelopeProcess.Skip ∧
        (Envelope.run env is_stereo is_interpolated e1.Reactivate frames).edge_limit
          ≤ (Envelope.run env is_stereo is_interpolated e1.Reactivate frames).edge) := by
  obtain ⟨hexpire, hexpnz, hlimit, hinc, hF⟩ := Envelope.Update_eq env e0 e1 frame_rate
    peak_magnitude expansion_phase_ms expire_after_seconds hceil hbits hfr hpk hms hpk32 hprod
    hupd
  have hw : 2 ^ 32 ≤ 2 ^ env.fieldBits := Nat.pow_le_pow_right (by decide) hbits
  have hfirst : peak_magnitude
      ≤ e1.edge_increment * ((frame_rate * expansion_phase_ms + 999) / 1000) := by
    rw [hinc]
    exact ceil_mul_ge _ _ hF
  refine ⟨hfirst, ?_⟩
  intro hexp hfit frames hlen hpress
  rw [Nat.mod_eq_of_lt hexp] at hexpire
  have hsec : 0 < expire_after_seconds := by
    rcases Nat.eq_zero_or_pos expire_after_seconds with h | h
    · rw [h, Nat.zero_mul] at hexpire
      exact absurd hexpire hexpnz
    · exact h
  have hge : frame_rate ≤ expire_after_seconds * frame_rate :=
    Nat.le_mul_of_pos_left _ hsec
  have hPle : frame_rate * expansion_phase_ms ≤ frame_rate * 255 :=
    Nat.mul_le_mul_left _ (by omega)
  have hFle : (frame_rate * expansion_phase_ms + 999) / 1000 ≤ frame_rate := by omega
  apply Envelope.run_pressed env is_stereo is_interpolated frames e1.Reactivate rfl
  · show 0 < e1.edge_limit
    rw [hlimit]
    exact Nat.pos_of_ne_zero hpk
  · exact hfit
  · show e1.expire_after_frames < 2 ^ env.fieldBits
    rw [hexpire]
    exact Nat.lt_of_lt_of_le hexp hw
  · show 0 + frames.length ≤ e1.expire_after_frames
    rw [hexpire, hlen]
    omega
  · exact hpress
  · show e1.edge_limit ≤ 0 + frames.length * e1.edge_increment
    rw [hlimit, hlen, Nat.zero_add, Nat.mul_comm]
    exact hfirst

/-- Claim C26 on `Update(1000, 10, 2, 1)`: `F` is 2 and `edge_increment` is 5, and two
frames with the sample 7 take the edge to 5 and to 10, where the envelope switches to
`Skip`. -/
theorem envelope_reaches_limit_witness :
    Envelope.Update envelopeExample ⟨EnvelopeProcess.Skip, 0, 0, 0, 0, 0⟩ 1000 10 2 1
      = some ⟨EnvelopeProcess.Skip, 1000, 0, 0, 10, 5⟩ ∧
    10 ≤ 5 * ((1000 * 2 + 999) / 1000) ∧
    (Envelope.run envelopeExample false false
      (Envelope.Reactivate ⟨EnvelopeProcess.Skip, 1000, 0, 0, 10, 5⟩)
      [⟨7, 0, 0, 0⟩, ⟨7, 0, 0, 0⟩]).process = EnvelopeProcess.Skip ∧
    (Envelope.run envelopeExample false false
      (Envelope.Reactivate ⟨EnvelopeProcess.Skip, 1000, 0, 0, 10, 5⟩)
      [⟨7, 0, 0, 0⟩, ⟨7, 0, 0, 0⟩]).edge_limit
      ≤ (Envelope.run envelopeExample false false
        (Envelope.Reactivate ⟨EnvelopeProcess.Skip, 1000, 0, 0, 10, 5⟩)
        [⟨7, 0, 0, 0⟩, ⟨7, 0, 0, 0⟩]).edge :=
  have h := envelope_reaches_limit envelopeExample ⟨EnvelopeProcess.Skip, 0, 0, 0, 0, 0⟩
    ⟨EnvelopeProcess.Skip, 1000, 0, 0, 10, 5⟩ 1000 10 2 1 false false (fun _ _ _ => rfl)
    (by decide) (by decide) (by decide) (by decide) (by decide) (by decide) (by decide)
    (by decide)
  have h2 := h.2 (by decide) (by decide) [⟨7, 0, 0, 0⟩, ⟨7, 0, 0, 0⟩] (by decide) (by decide)
  ⟨by decide, h.1, h2.1, h2.2⟩

theorem envelope_overflow_steps (rest : List Frame) :
    Envelope.run envelopeExample false false
        (Envelope.Reactivate ⟨EnvelopeProcess.Skip, 2, 0, 0, 1000000, 1⟩)
        (⟨1000000, 0, 0, 0⟩ :: ⟨1000000, 0, 0, 0⟩ :: ⟨1000000, 0, 0, 0⟩ :: rest)
      = Envelope.run envelopeExample false false
          ⟨EnvelopeProcess.Skip, 2, 3, 3, 1000000, 1⟩ rest ∧
    Envelope.pressed envelopeExample false false
        (Envelope.Reactivate ⟨EnvelopeProcess.Skip, 2, 0, 0, 1000000, 1⟩)
        (⟨1000000, 0, 0, 0⟩ :: ⟨1000000, 0, 0, 0⟩ :: ⟨1000000, 0, 0, 0⟩ :: rest)
      = Envelope.pressed envelopeExample false false
          ⟨EnvelopeProcess.Skip, 2, 3, 3, 1000000, 1⟩ rest :=
  ⟨rfl, rfl⟩

/-- Claim C26 as stated fails where `expire_after_seconds * frame_rate` does not fit
32 bits: `Update(2147483649, 1000000, 1, 2)` leaves `expire_after_frames = 2` and
`edge_increment = 1` with `F = 2147484`, and the envelope, reactivated and pressed on
by every frame, switches to `Skip` in the third call with the edge at 3, far from
`edge_limit = 1000000`, and stays there. -/
theorem envelope_reaches_limit_counterexample :
    Envelope.Update envelopeExample ⟨EnvelopeProcess.Skip, 0, 0, 0, 0, 0⟩ 2147483649 1000000 1 2
      = some ⟨EnvelopeProcess.Skip, 2, 0, 0, 1000000, 1⟩ ∧
    (2147483649 * 1 + 999) / 1000 = 2147484 ∧
    Envelope.pressed envelopeExample false false
      (Envelope.Reactivate ⟨EnvelopeProcess.Skip, 2, 0, 0, 1000000, 1⟩)
      (List.replicate 2147484 ⟨1000000, 0, 0, 0⟩) = true ∧
    Envelope.run envelopeExample false false
      (Envelope.Reactivate ⟨EnvelopeProcess.Skip, 2, 0, 0, 1000000, 1⟩)
      (List.replicate 2147484 ⟨1000000, 0, 0, 0⟩)
      = ⟨EnvelopeProcess.Skip, 2, 3, 3, 1000000, 1⟩ := by
  have hrep : List.replicate 2147484 (⟨1000000, 0, 0, 0⟩ : Frame)
      = ⟨1000000, 0, 0, 0⟩ :: ⟨1000000, 0, 0, 0⟩ :: ⟨1000000, 0, 0, 0⟩ ::
        List.replicate 2147481 ⟨1000000, 0, 0, 0⟩ := by
    show List.replicate (2147481 + 3) (⟨1000000, 0, 0, 0⟩ : Frame) = _
    rfl
  have hsteps := envelope_overflow_steps (List.replicate 2147481 ⟨1000000, 0, 0, 0⟩)
  refine ⟨by decide, by decide, ?_, ?_⟩
  · rw [hrep, hsteps.2]
    exact Envelope.pressed_skip _ _ _ _ _ rfl
  · rw [hrep, hsteps.1]
    exact Envelope.run_skip _ _ _ _ _ rfl

/-! ## DIR: which entries are written -/

theorem dirLines_append (a b : List DirOut) : dirLines (a ++ b) = dirLines a ++ dirLines b :=
  List.filter_append a b

theorem dirEntryOut_lines (env : DirEnv) (o : DirShow) (e : DtaResult) :
    dirLines (dirEntryOut env o e) = dirEntryOut env o e := by
  unfold dirLines
  rw [List.filter_eq_self]
  intro d hd
  unfold dirEntryOut at hd
  by_cases hB : o.optB = true
  · simp only [hB, if_true, List.mem_singleton] at hd
    subst hd
    rfl
  · simp only [hB, Bool.false_eq_true, if_false] at hd
    by_cases hD : (e.attr &&& DOS_ATTR_DIRECTORY != 0) = true
    · simp only [hD, if_true] at hd
      by_cases hW : o.optW = true
      · simp only [hW, if_true, List.mem_cons] at hd
        rcases hd with hd | hd
        · subst hd
          rfl
        · by_cases hl : (dirNameExt true e.name).1.length ≤ 14
          · simp only [hl, if_true] at hd
            rw [(List.mem_replicate.mp hd).2]
            rfl
          · simp only [hl, if_false] at hd
            cases hd
      · simp only [hW, Bool.false_eq_true, if_false, List.mem_singleton] at hd
        subst hd
        rfl
    · simp only [hD, Bool.false_eq_true, if_false] at hd
      by_cases hW : o.optW = true
      · simp only [hW, if_true, List.mem_singleton] at hd
        subst hd
        rfl
      · simp only [hW, Bool.false_eq_true, if_false, List.mem_singleton] at hd
        subst hd
        rfl

theorem dirLines_write (st : DirState) (l : List DirOut) (h : dirLines l = []) :
    dirLines (st.write l).out = dirLines st.out := by
  unfold DirState.write
  simp only [dirLines_append, h, List.append_nil]

theorem dirKey_lines (st : DirState) : dirLines (dirKey st).1.out = dirLines st.out := by
  unfold dirKey
  split
  · rfl
  · split_ifs
    · exact dirLines_write _ _ rfl
    · split <;> rfl
    · rfl

theorem dirPause_lines (st : DirState) : dirLines (dirPause st).1.out = dirLines st.out := by
  unfold dirPause
  rw [dirKey_lines]
  exact dirLines_write st _ rfl

theorem dirLines_ite_pause (b : Bool) (st : DirState) :
    dirLines (if b = true then dirPause st else (st, DirStatus.running)).1.out
      = dirLines st.out := by
  cases b
  · rfl
  · exact dirPause_lines st

theorem dirIntro_lines (env : DirEnv) (o : DirShow) (st : DirState) :
    dirLines (dirIntro env o st).1.out = dirLines st.out := by
  unfold dirIntro
  by_cases hf : (st.first && o.optS) = true
  · simp only [hf, if_true]
    generalize (if (env.uselfn && !o.optZ) = true then
        match o.largs with
        | some l => l
        | none => o.sargs
      else o.sargs) = intro
    have hw : dirLines (({ st with first := false } : DirState).write
        [DirOut.printf "\n" [], DirOut.msg "SHELL_CMD_DIR_INTRO" [PrintfArg.str intro]]).out
          = dirLines st.out := dirLines_write _ _ rfl
    by_cases hP : o.optP = true
    · simp only [hP, if_true]
      rw [dirLines_ite_pause]
      exact hw
    · simp only [hP, Bool.false_eq_true, if_false]
      exact hw
  · simp only [hf, Bool.false_eq_true, if_false]

theorem dirCount_out (o : DirShow) (e : DtaResult) (st : DirState) :
    (dirCount o e st).out = st.out := by
  unfold dirCount
  split_ifs <;> rfl

theorem dirShowEntry_lines (env : DirEnv) (o : DirShow) (e : DtaResult) (st : DirState)
    (h : (dirShowEntry env o e st).2 = DirStatus.running) :
    dirLines (dirShowEntry env o e st).1.out
      = dirLines st.out ++ dirLines (if !o.optB || dirBare env o e then dirEntryOut env o e
          else []) := by
  unfold dirShowEntry at h ⊢
  by_cases hB : o.optB = true
  · simp only [hB, if_true, Bool.not_true, Bool.false_or]
    by_cases hb : dirBare env o e = true
    · simp only [hb, if_true, DirState.write, dirLines_append]
    · simp only [hb, Bool.false_eq_true, if_false]
      exact (List.append_nil _).symm
  · simp only [hB, Bool.false_eq_true, if_false] at h ⊢
    by_cases hi : (dirIntro env o st).2 = DirStatus.running
    · have hne : ((dirIntro env o st).2 != DirStatus.running) = false := by
        rw [hi]; rfl
      simp only [hne, Bool.false_eq_true, if_false, dirCount_out, DirState.write,
        dirLines_append, dirIntro_lines]
      have hB2 : o.optB = false := by cases hb : o.optB <;> simp_all
      simp [hB2]
    · have hne : ((dirIntro env o st).2 != DirStatus.running) = true := by
        rw [bne_iff_ne]; exact hi
      simp only [hne, if_true] at h
      exact absurd h hi

theorem dirAfterEntry_lines (env : DirEnv) (o : DirShow) (st : DirState) :
    dirLines (dirAfterEntry env o st).1.out = dirLines st.out := by
  unfold dirAfterEntry
  by_cases hP : o.optP = true
  · simp only [hP, if_true]
    split_ifs
    · rw [dirPause_lines]
      exact dirLines_write _ _ rfl
    · rw [dirPause_lines]
    · rfl
  · simp only [hP, Bool.false_eq_true, if_false]

theorem dirWriteEntry_lines (env : DirEnv) (o : DirShow) (e : DtaResult) (st : DirState)
    (h : (dirWriteEntry env o e st).2 = DirStatus.running) :
    dirLines (dirWriteEntry env o e st).1.out
      = dirLines st.out ++ dirLines (if !o.optB || dirBare env o e then dirEntryOut env o e
          else []) := by
  unfold dirWriteEntry at h ⊢
  by_cases hs : (dirShowEntry env o e st).2 = DirStatus.running
  · have hne : ((dirShowEntry env o e st).2 != DirStatus.running) = false := by
      rw [hs]; rfl
    simp only [hne, Bool.false_eq_true, if_false]
    rw [dirAfterEntry_lines]
    exact dirShowEntry_lines env o e st hs
  · have hne : ((dirShowEntry env o e st).2 != DirStatus.running) = true := by
      rw [bne_iff_ne]; exact hs
    simp only [hne, if_true] at h
    exact absurd h hs

/-- Where the loop of doDir runs to its end, the calls of `WriteOut` for entries are
those of the entries of `results`, one after the other, without `.` and `..` where
`/B` is given. -/
theorem doDirWrite_lines (env : DirEnv) (o : DirShow) (results : List DtaResult) :
    ∀ st : DirState, (doDirWrite env o results st).2 = DirStatus.running →
      dirLines (doDirWrite env o results st).1.out
        = dirLines st.out ++ (dirListed env o results).flatMap (dirEntryOut env o) := by
  induction results with
  | nil =>
    intro st _
    exact (List.append_nil _).symm
  | cons e results ih =>
    intro st h
    unfold doDirWrite at h ⊢
    by_cases hs : (dirWriteEntry env o e st).2 = DirStatus.running
    · have hne : ((dirWriteEntry env o e st).2 != DirStatus.running) = false := by
        rw [hs]; rfl
      simp only [hne, Bool.false_eq_true, if_false] at h ⊢
      rw [ih _ h, dirWriteEntry_lines env o e st hs, List.append_assoc]
      congr 1
      unfold dirListed
      rw [List.filter_cons]
      by_cases hk : (!o.optB || dirBare env o e) = true
      · simp only [hk, if_true, List.flatMap_cons, dirEntryOut_lines]
      · simp only [hk, Bool.false_eq_true, if_false]
        rfl
    · have hne : ((dirWriteEntry env o e st).2 != DirStatus.running) = true := by
        rw [bne_iff_ne]; exact hs
      simp only [hne, if_true] at h
      exact absurd h hs

theorem doDirShow_lines (env : DirEnv) (sort : SortFn) (a : AttrOpts) (so : SortOpts)
    (o : DirShow) (entries : List DtaResult) (st : DirState)
    (h : (doDirShow env sort a so o entries st).2 = DirStatus.running) :
    dirLines (doDirShow env sort a so o entries st).1.out
      = dirLines st.out
          ++ (dirListed env o (doDirList sort a so entries)).flatMap (dirEntryOut env o) := by
  unfold doDirShow at h ⊢
  by_cases hs : (doDirWrite env o (doDirList sort a so entries) st).2 = DirStatus.running
  · have hne : ((doDirWrite env o (doDirList sort a so entries) st).2 != DirStatus.running)
        = false := by
      rw [hs]; rfl
    simp only [hne, Bool.false_eq_true, if_false]
    split_ifs
    · unfold DirState.write
      simp only [dirLines_append]
      rw [doDirWrite_lines env o _ st hs]
      exact List.append_nil _
    · exact doDirWrite_lines env o _ st hs
  · have hne : ((doDirWrite env o (doDirList sort a so entries) st).2 != DirStatus.running)
        = true := by
      rw [bne_iff_ne]; exact hs
    simp only [hne, if_true] at h
    exact absurd h hs

theorem doDirOrder_perm (sort : SortFn) (hs : IsStdSort sort) (so : SortOpts)
    (results : List DtaResult) : (doDirOrder sort so results).Perm results := by
  have hsorted : (if so.optON then sort DtaResult.compareName results
      else if so.optOE then sort DtaResult.compareExt results
      else if so.optOD then sort DtaResult.compareDate results
      else if so.optOS then sort DtaResult.compareSize results
      else if so.optOG then sort DtaResult.groupDirs results
      else if so.optO then sort DtaResult.groupDef results
      else results).Perm results := by
    split_ifs
    · exact (hs _ (strcmpKey_strictWeakOrder (fun e : DtaResult => e.name)) results).1
    · exact (hs _ (strcmpKey_strictWeakOrder DtaResult.getExtension) results).1
    · exact (hs _ compareDate_strictWeakOrder results).1
    · exact (hs _ (natKey_strictWeakOrder (fun e : DtaResult => e.size)) results).1
    · exact (hs _ groupDirs_strictWeakOrder results).1
    · exact (hs _ groupDef_strictWeakOrder results).1
    · exact List.Perm.refl _
  unfold doDirOrder
  by_cases hr : so.reverseSort = true
  · simp only [hr, if_true]
    exact (List.reverse_perm _).trans hsorted
  · simp only [hr, Bool.false_eq_true, if_false]
    exact hsorted

theorem dirBare_iff (env : DirEnv) (o : DirShow) (e : DtaResult) :
    dirBare env o e = true ↔
      dirShown env o e ≠ ".".toList ∧ dirShown env o e ≠ "..".toList := by
  unfold dirBare
  rw [Bool.and_eq_true, strcmp_ne_zero_iff, strcmp_ne_zero_iff]
  exact ⟨fun h => ⟨fun e => h.1 e.symm, fun e => h.2 e.symm⟩,
    fun h => ⟨fun e => h.1 e.symm, fun e => h.2 e.symm⟩⟩

theorem dirListed_mem (env : DirEnv) (sort : SortFn) (hs : IsStdSort sort) (a : AttrOpts)
    (so : SortOpts) (o : DirShow) (entries : List DtaResult) (e : DtaResult) :
    e ∈ dirListed env o (doDirList sort a so entries) ↔
      e ∈ dirCollect a entries ∧
        (o.optB = true →
          dirShown env o e ≠ ".".toList ∧ dirShown env o e ≠ "..".toList) := by
  unfold dirListed doDirList
  rw [List.mem_filter, (doDirOrder_perm sort hs so _).mem_iff, ← dirBare_iff]
  cases o.optB <;> simp
theorem dirListed_perm (env : DirEnv) (sort : SortFn) (hs : IsStdSort sort) (a : AttrOpts)
    (so : SortOpts) (o : DirShow) (entries : List DtaResult) :
    (dirListed env o (doDirList sort a so entries)).Perm
      (entries.filter (fun e => !dirSkips a e && (!o.optB || dirBare env o e))) := by
  unfold dirListed doDirList
  refine ((doDirOrder_perm sort hs so _).filter _).trans ?_
  unfold dirCollect
  rw [List.filter_filter]
  refine List.Perm.of_eq (List.filter_congr ?_)
  intro e _
  exact Bool.and_comm _ _

/-- Claim C12, as amended: when DIR is run with no attribute switch and the loop of
doDir over the entries runs to its end (it is not broken off with Ctrl-C at a pause of
`/P`, and no pause is left waiting for a key), the calls of `WriteOut` for entries are
those of the entries listed, in their order, each entry written as `dirEntryOut`
tells; and an enumerated entry is listed if and only if it carries neither the SYSTEM
nor the HIDDEN attribute or its name is `..`, and, where `/B` is given, the name shown
for it is neither `.` nor `..`.  The entries listed are those entries, each as often
as it was enumerated. -/
theorem dir_default_filter (env : DirEnv) (sort : SortFn) (hs : IsStdSort sort)
    (so : SortOpts) (o : DirShow) (entries : List DtaResult) (st : DirState)
    (hrun : (doDirShow env sort noAttrOpts so o entries st).2 = DirStatus.running) :
    dirLines (doDirShow env sort noAttrOpts so o entries st).1.out
      = dirLines st.out
          ++ (dirListed env o (doDirList sort noAttrOpts so entries)).flatMap
              (dirEntryOut env o) ∧
    (∀ e, e ∈ dirListed env o (doDirList sort noAttrOpts so entries) ↔
      e ∈ entries ∧
        ((e.has DOS_ATTR_SYSTEM = false ∧ e.has DOS_ATTR_HIDDEN = false)
          ∨ e.name = "..".toList) ∧
        (o.optB = true →
          dirShown env o e ≠ ".".toList ∧ dirShown env o e ≠ "..".toList)) ∧
    (dirListed env o (doDirList sort noAttrOpts so entries)).Perm
      (entries.filter (fun e => decide
        (((e.has DOS_ATTR_SYSTEM = false ∧ e.has DOS_ATTR_HIDDEN = false)
          ∨ e.name = "..".toList) ∧
        (o.optB = true →
          dirShown env o e ≠ ".".toList ∧ dirShown env o e ≠ "..".toList)))) := by
  have hkey : ∀ e : DtaResult, (!dirSkips noAttrOpts e && (!o.optB || dirBare env o e)) = true ↔
      ((e.has DOS_ATTR_SYSTEM = false ∧ e.has DOS_ATTR_HIDDEN = false)
          ∨ e.name = "..".toList) ∧
        (o.optB = true →
          dirShown env o e ≠ ".".toList ∧ dirShown env o e ≠ "..".toList) := by
    intro e
    rw [Bool.and_eq_true, ← dirBare_iff, ← (dirCollect_default [] e).1]
    cases o.optB <;> simp
  have hperm := dirListed_perm env sort hs noAttrOpts so o entries
  refine ⟨doDirShow_lines env sort noAttrOpts so o entries st hrun, ?_, ?_⟩
  · intro e
    rw [hperm.mem_iff, List.mem_filter, hkey]
  · refine hperm.trans (List.Perm.of_eq (List.filter_congr ?_))
    intro e _
    rw [Bool.eq_iff_iff, decide_eq_true_iff]
    exact hkey e

/-- Witness of C12: `DIR /B` over `..`, the hidden H.TXT and A.TXT writes the name of
A.TXT and no more. -/
theorem dir_default_filter_witness :
    dirLines (doDirShow (dirExampleEnv 22) insertionStdSort noAttrOpts noSortOpts
      (dirExampleShow false true)
      [fileEntry ".." 0x10, fileEntry "H.TXT" 0x22, fileEntry "A.TXT" 0x20] (dirStart [])).1.out
      = [DirOut.printf "%s\n" [PrintfArg.str "A.TXT".toList]] :=
  (dir_default_filter (dirExampleEnv 22) insertionStdSort insertionStdSort_isStdSort
    noSortOpts (dirExampleShow false true)
    [fileEntry ".." 0x10, fileEntry "H.TXT" 0x22, fileEntry "A.TXT" 0x20] (dirStart [])
    (by decide)).1.trans (by decide)

/-- Counterexample to C12 as stated.  `DIR /B` over the entries `..` and A.TXT, neither
hidden nor system: a line is written for A.TXT and none for `..` (line 944).  And
`DIR /P` over A.TXT and B.TXT with one line to the page, answered with Ctrl-C at the
first pause: doDir returns at line 1007 and B.TXT, neither hidden nor system, is not
listed. -/
theorem dir_default_filter_counterexample :
    doDirShow (dirExampleEnv 22) insertionStdSort noAttrOpts noSortOpts
        (dirExampleShow false true) [fileEntry ".." 0x10, fileEntry "A.TXT" 0x20] (dirStart [])
      = (⟨[DirOut.printf "%s\n" [PrintfArg.str "A.TXT".toList]], [], true, 0, 0, 0, 0, 0, 0, 0⟩,
          DirStatus.running) ∧
    doDirShow (dirExampleEnv 1) insertionStdSort noAttrOpts noSortOpts
        (dirExampleShow true false) [fileEntry "A.TXT" 0x20, fileEntry "B.TXT" 0x20]
        (dirStart ['\x03'])
      = (⟨[DirOut.printf "%-8s %-3s   %16s %02d-%02d-%04d %2d:%02d %s\n"
              [PrintfArg.str "A".toList, PrintfArg.str "TXT".toList, PrintfArg.str "0".toList,
               PrintfArg.num 0, PrintfArg.num 0, PrintfArg.num 1980, PrintfArg.num 0,
               PrintfArg.num 0, PrintfArg.str []],
            DirOut.msg "SHELL_CMD_PAUSE" [], DirOut.printf "^C\r\n" []],
          [], true, 0, 1, 0, 0, 1, 0, 0⟩, DirStatus.cancelled) := by
  decide

/-- Claim C13, as amended: when at least one attribute switch of DIR is active and the
loop of doDir over the entries runs to its end (it is not broken off with Ctrl-C at a
pause of `/P`, and no pause is left waiting for a key), the calls of `WriteOut` for
entries are those of the entries listed, in their order; and an enumerated entry is
listed if and only if it has every attribute named by an active include switch, lacks
every attribute named by an active exclude switch, and, where `/B` is given, the name
shown for it is neither `.` nor `..`.  Hidden and system entries are not left out by
default then.  The entries listed are those entries, each as often as it was
enumerated. -/
theorem dir_switch_filter (env : DirEnv) (sort : SortFn) (hs : IsStdSort sort)
    (a : AttrOpts) (so : SortOpts) (o : DirShow) (entries : List DtaResult) (st : DirState)
    (h : a.any = true)
    (hrun : (doDirShow env sort a so o entries st).2 = DirStatus.running) :
    dirLines (doDirShow env sort a so o entries st).1.out
      = dirLines st.out
          ++ (dirListed env o (doDirList sort a so entries)).flatMap (dirEntryOut env o) ∧
    (∀ e, e ∈ dirListed env o (doDirList sort a so entries) ↔
      e ∈ entries ∧
        ((a.optAD = true → e.has DOS_ATTR_DIRECTORY = true) ∧
          (a.optAS = true → e.has DOS_ATTR_SYSTEM = true) ∧
          (a.optAH = true → e.has DOS_ATTR_HIDDEN = true) ∧
          (a.optAR = true → e.has DOS_ATTR_READ_ONLY = true) ∧
          (a.optAA = true → e.has DOS_ATTR_ARCHIVE = true) ∧
          (a.optAminusD = true → e.has DOS_ATTR_DIRECTORY = false) ∧
          (a.optAminusS = true → e.has DOS_ATTR_SYSTEM = false) ∧
          (a.optAminusH = true → e.has DOS_ATTR_HIDDEN = false) ∧
          (a.optAminusR = true → e.has DOS_ATTR_READ_ONLY = false) ∧
          (a.optAminusA = true → e.has DOS_ATTR_ARCHIVE = false)) ∧
        (o.optB = true →
          dirShown env o e ≠ ".".toList ∧ dirShown env o e ≠ "..".toList)) ∧
    (dirListed env o (doDirList sort a so entries)).Perm
      (entries.filter (fun e => decide
        (((a.optAD = true → e.has DOS_ATTR_DIRECTORY = true) ∧
          (a.optAS = true → e.has DOS_ATTR_SYSTEM = true) ∧
          (a.optAH = true → e.has DOS_ATTR_HIDDEN = true) ∧
          (a.optAR = true → e.has DOS_ATTR_READ_ONLY = true) ∧
          (a.optAA = true → e.has DOS_ATTR_ARCHIVE = true) ∧
          (a.optAminusD = true → e.has DOS_ATTR_DIRECTORY = false) ∧
          (a.optAminusS = true → e.has DOS_ATTR_SYSTEM = false) ∧
          (a.optAminusH = true → e.has DOS_ATTR_HIDDEN = false) ∧
          (a.optAminusR = true → e.has DOS_ATTR_READ_ONLY = false) ∧
          (a.optAminusA = true → e.has DOS_ATTR_ARCHIVE = false)) ∧
        (o.optB = true →
          dirShown env o e ≠ ".".toList ∧ dirShown env o e ≠ "..".toList)))) := by
  have hkey : ∀ e : DtaResult, (!dirSkips a e && (!o.optB || dirBare env o e)) = true ↔
      ((a.optAD = true → e.has DOS_ATTR_DIRECTORY = true) ∧
          (a.optAS = true → e.has DOS_ATTR_SYSTEM = true) ∧
          (a.optAH = true → e.has DOS_ATTR_HIDDEN = true) ∧
          (a.optAR = true → e.has DOS_ATTR_READ_ONLY = true) ∧
          (a.optAA = true → e.has DOS_ATTR_ARCHIVE = true) ∧
          (a.optAminusD = true → e.has DOS_ATTR_DIRECTORY = false) ∧
          (a.optAminusS = true → e.has DOS_ATTR_SYSTEM = false) ∧
          (a.optAminusH = true → e.has DOS_ATTR_HIDDEN = false) ∧
          (a.optAminusR = true → e.has DOS_ATTR_READ_ONLY = false) ∧
          (a.optAminusA = true → e.has DOS_ATTR_ARCHIVE = false)) ∧
        (o.optB = true →
          dirShown env o e ≠ ".".toList ∧ dirShown env o e ≠ "..".toList) := by
    intro e
    have hsw := dirCollect_switch a [e] e h
    rw [dirCollect, List.mem_filter] at hsw
    simp only [List.mem_singleton, true_and] at hsw
    rw [Bool.and_eq_true, ← dirBare_iff, hsw]
    cases o.optB <;> simp
  have hperm := dirListed_perm env sort hs a so o entries
  refine ⟨doDirShow_lines env sort a so o entries st hrun, ?_, ?_⟩
  · intro e
    rw [hperm.mem_iff, List.mem_filter, hkey]
  · refine hperm.trans (List.Perm.of_eq (List.filter_congr ?_))
    intro e _
    rw [Bool.eq_iff_iff, decide_eq_true_iff]
    exact hkey e

/-- Witness of C13: `DIR /A:H` over A.TXT and the hidden H.TXT writes the line of
H.TXT and no other. -/
theorem dir_switch_filter_witness :
    dirLines (doDirShow (dirExampleEnv 22) insertionStdSort
      ⟨false, false, false, false, false, true, false, false, false, false, false⟩ noSortOpts
      (dirExampleShow false false)
      [fileEntry "A.TXT" 0x20, fileEntry "H.TXT" 0x02] (dirStart [])).1.out
      = [DirOut.printf "%-8s %-3s   %16s %02d-%02d-%04d %2d:%02d %s\n"
          [PrintfArg.str "H".toList, PrintfArg.str "TXT".toList, PrintfArg.str "0".toList,
           PrintfArg.num 0, PrintfArg.num 0, PrintfArg.num 1980, PrintfArg.num 0,
           PrintfArg.num 0, PrintfArg.str []]] :=
  (dir_switch_filter (dirExampleEnv 22) insertionStdSort insertionStdSort_isStdSort
    ⟨false, false, false, false, false, true, false, false, false, false, false⟩ noSortOpts
    (dirExampleShow false false)
    [fileEntry "A.TXT" 0x20, fileEntry "H.TXT" 0x02] (dirStart [])
    (by decide) (by decide)).1.trans (by decide)

/-- Counterexample to C13 as stated.  `DIR /A:D /B` over the directories `.`, `..` and
SUB: all three have the attribute the switch asks for, and a line is written for SUB
alone (line 944).  And `DIR /A:D /P` over the directories SUB and TOP with one line to
the page, answered with Ctrl-C at the first pause: doDir returns at line 1007 and TOP
is not listed. -/
theorem dir_switch_filter_counterexample :
    doDirShow (dirExampleEnv 22) insertionStdSort
        ⟨false, true, false, false, false, false, false, false, false, false, false⟩ noSortOpts
        (dirExampleShow false true)
        [fileEntry "." 0x10, fileEntry ".." 0x10, fileEntry "SUB" 0x10] (dirStart [])
      = (⟨[DirOut.printf "%s\n" [PrintfArg.str "SUB".toList]], [], true, 0, 0, 0, 0, 0, 0, 0⟩,
          DirStatus.running) ∧
    doDirShow (dirExampleEnv 1) insertionStdSort
        ⟨false, true, false, false, false, false, false, false, false, false, false⟩ noSortOpts
        (dirExampleShow true false) [fileEntry "SUB" 0x10, fileEntry "TOP" 0x10]
        (dirStart ['\x03'])
      = (⟨[DirOut.printf "%-8s %-3s   %-16s %02d-%02d-%04d %2d:%02d %s\n"
              [PrintfArg.str "SUB".toList, PrintfArg.str [], PrintfArg.str "<DIR>".toList,
               PrintfArg.num 0, PrintfArg.num 0, PrintfArg.num 1980, PrintfArg.num 0,
               PrintfArg.num 0, PrintfArg.str []],
            DirOut.msg "SHELL_CMD_PAUSE" [], DirOut.printf "^C\r\n" []],
          [], true, 0, 1, 0, 0, 0, 0, 1⟩, DirStatus.cancelled) := by
  decide

/-- C14: for every entry list and every command line of DIR (`scan` tells what each
call of `ScanCMDBool` returns), when the switches leave no sort key active, doDir
lists the filtered entries in the order of the enumeration.  That holds whether or
not a reverse was asked for: each switch that asks for it (`O-N`, `O-D`, `O-E`,
`O-S`, `O-G`) sets its key as well, and `-O`, the one way to be left without a key
then, clears the reverse flag together with the keys; so with no key the reverse
flag that reaches doDir is off and nothing is reordered: the vector `results` is the
filtered enumeration, and where the loop over it runs to its end the calls of
`WriteOut` for entries are those of the filtered entries in the order of the
enumeration (without `.` and `..` where `/B` is given). -/
theorem dir_no_key_order (env : DirEnv) (sort : SortFn) (a : AttrOpts) (o : DirShow)
    (entries : List DtaResult) (st : DirState)
    (scan : String → Bool) (h : (dirSortFlags scan).anyKey = false) :
    (dirSortFlags scan).reverseSort = false ∧
    doDirList sort a (dirSortFlags scan) entries = dirCollect a entries ∧
    ((doDirShow env sort a (dirSortFlags scan) o entries st).2 = DirStatus.running →
      dirLines (doDirShow env sort a (dirSortFlags scan) o entries st).1.out
        = dirLines st.out
            ++ (dirListed env o (dirCollect a entries)).flatMap (dirEntryOut env o)) := by
  have hr := dirSortFlags_reverse scan h
  have hlist : doDirList sort a (dirSortFlags scan) entries = dirCollect a entries := by
    unfold SortOpts.anyKey at h
    simp only [Bool.or_eq_false_iff] at h
    obtain ⟨⟨⟨⟨⟨h1, h2⟩, h3⟩, h4⟩, h5⟩, h6⟩ := h
    simp [doDirList, doDirOrder, hr, h1, h2, h3, h4, h5, h6]
  refine ⟨hr, hlist, fun hrun => ?_⟩
  rw [doDirShow_lines env sort a (dirSortFlags scan) o entries st hrun, hlist]

/-- Witness of C14: the switches `O-N` and `-O` together ask for the reverse of the
order by name and then take the sorting back: no key is left, and the entries B,
a.txt and A are written in the order of the enumeration. -/
theorem dir_no_key_order_witness :
    (dirSortFlags (fun s => s == "O-N" || s == "-O")).reverseSort = false ∧
    doDirList insertionStdSort noAttrOpts (dirSortFlags (fun s => s == "O-N" || s == "-O"))
      exampleEntries = dirCollect noAttrOpts exampleEntries ∧
    dirLines (doDirShow (dirExampleEnv 22) insertionStdSort noAttrOpts
        (dirSortFlags (fun s => s == "O-N" || s == "-O")) (dirExampleShow false true)
        exampleEntries (dirStart [])).1.out
      = [DirOut.printf "%s\n" [PrintfArg.str "B".toList],
          DirOut.printf "%s\n" [PrintfArg.str "a.txt".toList],
          DirOut.printf "%s\n" [PrintfArg.str "A".toList]] :=
  have h := dir_no_key_order (dirExampleEnv 22) insertionStdSort noAttrOpts
    (dirExampleShow false true) exampleEntries (dirStart [])
    (fun s => s == "O-N" || s == "-O") (by decide)
  ⟨h.1, h.2.1, (h.2.2 (by decide)).trans (by decide)⟩

end DosShell
